import Mathlib

/-!
# ruterdrift: a verification development

Shallow embedding of `src/ruterdrift.c`.

Modelling conventions.

* A `struct router *` is the index of the slot of `router_array` that owns the
  struct (`none` is `NULL`).  Every struct is created by `create_all_routers`
  in exactly one slot and never moves, so the slot index identifies it.
* Functions return `Option`; `none` stands for behaviour the C standard leaves
  undefined (a `NULL` or dangling pointer dereference, a read of an
  uninitialised object, an access outside a buffer) and, where a function
  takes a `fuel` argument, for running out of fuel.
* `unsigned char` values are `Nat` reduced `% 256`, `unsigned int` values are
  `Nat` reduced `% 2 ^ 32`, `int` values are `Int`.
* `description` holds the initialised prefix of the 248 byte buffer.
-/

namespace Ruterdrift

/-! ## Constants -/

def SUCCESS : Int := 0
def FAILURE : Int := -1
def CRITICAL_FAILURE : Int := -2
def TRUE : Int := 1
def FALSE : Int := 0

def EXIT_SUCCESS : Int := 0
def EXIT_FAILURE : Int := 1

def DESC_MAX_LEN : Nat := 248
def MAX_CONNECTIONS : Nat := 10

/-! ## Data model -/

/-- The `struct router` of the source. -/
structure router where
  routerID : Nat
  flag : Nat
  desc_len : Nat
  description : List Nat
  connections : List (Option Nat)
deriving DecidableEq

/-- The globals `router_array` and `N_ROUTERS`.  The global `N` is the number
of slots of `router_array`: it is set once, before the array is allocated (a
negative `N` gives no slot, and every loop `i < N` is empty then). -/
structure registry where
  router_array : List (Option router)
  N_ROUTERS : Int
deriving DecidableEq

/-- The global `N`, as far as the loops `for (i = 0; i < N; i++)` see it. -/
def registry.N (s : registry) : Nat := s.router_array.length

/-- The struct a router pointer points to: `none` when the slot is empty or
outside the array. -/
def deref (s : registry) (p : Nat) : Option router :=
  match s.router_array[p]? with
  | some (some r) => some r
  | _ => none

/-- Assignment through a router pointer: `*p = r`. -/
def store (s : registry) (p : Nat) (r : router) : registry :=
  { s with router_array := s.router_array.set p (some r) }

/-- The scan of `get_router` over the slots: the index of the first occupied
slot whose router has the id. -/
def get_router_scan (routerID : Nat) : List (Option router) → Option Nat
  | [] => none
  | some r :: rest =>
      if routerID = r.routerID then some 0
      else (get_router_scan routerID rest).map (· + 1)
  | none :: rest => (get_router_scan routerID rest).map (· + 1)

/-- Source `get_router`: pointer to the router with the id, `NULL` if none. -/
def get_router (s : registry) (routerID : Nat) : Option Nat :=
  get_router_scan routerID s.router_array

/-! ## Flags -/

/-- Source `bit_pos_on`.  The `switch` has no default: for another `bit_pos`
the mask is read uninitialised. -/
def bit_pos_on (flag bit_pos : Nat) : Option Nat :=
  match bit_pos with
  | 0 => some ((flag ||| 0x1) % 256)
  | 1 => some ((flag ||| 0x2) % 256)
  | 2 => some ((flag ||| 0x4) % 256)
  | _ => none

/-- Source `bit_pos_off`. -/
def bit_pos_off (flag bit_pos : Nat) : Option Nat :=
  match bit_pos with
  | 0 => some ((flag &&& 0xfe) % 256)
  | 1 => some ((flag &&& 0xfd) % 256)
  | 2 => some ((flag &&& 0xfb) % 256)
  | _ => none

/-- Source `change_top_four_bits`. -/
def change_top_four_bits (flag val : Nat) : Nat :=
  let flag := flag &&& 0x0f
  let val := (val <<< 4) % 256
  (val ||| flag) % 256

/-- The statement `r->flag = f(r->flag)` for a router pointer `r`. -/
def assign_flag (s : registry) (r : Option Nat) (f : Nat → Option Nat) :
    Option registry :=
  match r with
  | none => none
  | some p =>
    match deref s p with
    | none => none
    | some rr =>
      match f rr.flag with
      | none => none
      | some fl => some (store s p { rr with flag := fl })

/-- Source `set_flag`; `bit_pos` and `val` are `unsigned char`. -/
def set_flag (s : registry) (routerID bit_pos val : Nat) : Option (Int × registry) :=
  let r := get_router s routerID
  if bit_pos = 0 ∨ bit_pos = 1 ∨ bit_pos = 2 then
    if val = 0 then
      (assign_flag s r (fun fl => bit_pos_off fl bit_pos)).map (fun s1 => (SUCCESS, s1))
    else if val = 1 then
      (assign_flag s r (fun fl => bit_pos_on fl bit_pos)).map (fun s1 => (SUCCESS, s1))
    else some (FAILURE, s)
  else if bit_pos = 4 then
    if 0 ≤ val ∧ val ≤ 15 then
      (assign_flag s r (fun fl => some (change_top_four_bits fl val))).map
        (fun s1 => (SUCCESS, s1))
    else some (FAILURE, s)
  else some (FAILURE, s)

/-! ## Connections -/

/-- The loop of `is_connected` over the outgoing slots.  Reading
`neighbour->routerID` through a pointer to an empty slot is undefined. -/
def is_connected_scan (s : registry) (id : Nat) : List (Option Nat) → Option Bool
  | [] => some false
  | none :: cs => is_connected_scan s id cs
  | some p :: cs =>
      match deref s p with
      | none => none
      | some neighbour =>
          if neighbour.routerID = id then some true else is_connected_scan s id cs

/-- Source `is_connected`. -/
def is_connected (s : registry) (r : Option Nat) (id : Nat) : Option Bool :=
  match r with
  | none => none
  | some p =>
    match deref s p with
    | none => none
    | some rr => is_connected_scan s id rr.connections

/-- The loop of `set_connection`: put the `to` pointer into the first `NULL` entry; `none`
when every entry is taken. -/
def set_first_empty (to_ptr : Option Nat) : List (Option Nat) → Option (List (Option Nat))
  | [] => none
  | none :: cs => some (to_ptr :: cs)
  | some p :: cs => (set_first_empty to_ptr cs).map (fun cs1 => some p :: cs1)

/-- Source `set_connection`. -/
def set_connection (s : registry) (from_ptr to_ptr : Option Nat) : Option (Int × registry) :=
  match from_ptr with
  | none => some (FAILURE, s)
  | some p =>
    match deref s p with
    | none => none
    | some rr =>
      match set_first_empty to_ptr rr.connections with
      | none => some (FAILURE, s)
      | some cs => some (SUCCESS, store s p { rr with connections := cs })

/-- Source `add_connection`.  The result of `set_connection` is dropped. -/
def add_connection (s : registry) (fromID toID : Nat) : Option (Int × registry) :=
  let r := get_router s fromID
  match is_connected s r toID with
  | none => none
  | some false =>
      match set_connection s r (get_router s toID) with
      | none => none
      | some (_, s1) => some (SUCCESS, s1)
  | some true => some (FAILURE, s)

/-! ## Model string -/

/-- Source `set_model`.  `new_name` holds the bytes of the C string before its
terminating zero.  `strncpy` copies at most `DESC_MAX_LEN` of them and pads
with zeros; `desc_len` receives `strlen` converted to `unsigned char`. -/
def set_model (s : registry) (routerID : Nat) (new_name : List Nat) :
    Option (Int × registry) :=
  match get_router s routerID with
  | none => none
  | some p =>
    match deref s p with
    | none => none
    | some rr =>
      let str_len := new_name.length
      let description :=
        new_name.take DESC_MAX_LEN ++ List.replicate (DESC_MAX_LEN - str_len) 0
      some (SUCCESS,
        store s p { rr with description := description, desc_len := str_len % 256 })

/-! ## Removal -/

/-- The inner loop of `remove_router`: every entry whose target has the id
becomes `NULL`.  The targets are read in the registry as it was on entry: the
loop changes `connections` entries only, never an id or a slot. -/
def clear_connections (s : registry) (routerID : Nat) :
    List (Option Nat) → Option (List (Option Nat))
  | [] => some []
  | none :: cs => (clear_connections s routerID cs).map (fun cs1 => none :: cs1)
  | some p :: cs =>
      match deref s p with
      | none => none
      | some searched_router =>
          (clear_connections s routerID cs).map (fun cs1 =>
            (if searched_router.routerID = routerID then none else some p) :: cs1)

/-- The outer loop of the first pass of `remove_router`. -/
def clear_all (s : registry) (routerID : Nat) :
    List (Option router) → Option (List (Option router))
  | [] => some []
  | none :: rest => (clear_all s routerID rest).map (fun rs => none :: rs)
  | some other_router :: rest =>
      match clear_connections s routerID other_router.connections with
      | none => none
      | some cs =>
          (clear_all s routerID rest).map (fun rs =>
            some { other_router with connections := cs } :: rs)

/-- The second pass of `remove_router`: every slot whose router has the id
becomes `NULL`. -/
def release_slots (routerID : Nat) (slots : List (Option router)) : List (Option router) :=
  slots.map (fun o =>
    match o with
    | some r => if r.routerID = routerID then none else some r
    | none => none)

/-- Source `remove_router`. -/
def remove_router (s : registry) (routerID : Nat) : Option (Int × registry) :=
  match get_router s routerID with
  | none => some (FAILURE, s)
  | some _ =>
    match clear_all s routerID s.router_array with
    | none => none
    | some slots =>
        some (SUCCESS,
          { router_array := release_slots routerID slots, N_ROUTERS := s.N_ROUTERS - 1 })

/-! ## Streams -/

/-- A stream opened for reading: the bytes not read yet and the end-of-file
indicator.  No stream error is modelled (`ferror` is never set). -/
structure FILE where
  data : List Nat
  eof : Bool
deriving DecidableEq

/-- Reading `n` bytes with `fread`: the bytes obtained and the stream after.
A short read sets the end-of-file indicator. -/
def fread (n : Nat) (fh : FILE) : List Nat × FILE :=
  if n ≤ fh.data.length then (fh.data.take n, { fh with data := fh.data.drop n })
  else (fh.data, { data := [], eof := true })

/-- Library `fgetc`: `none` is `EOF`. -/
def fgetc (fh : FILE) : Option Nat × FILE :=
  match fh.data with
  | [] => (none, { fh with eof := true })
  | b :: rest => (some b, { fh with data := rest })

/-- Library `ungetc`. -/
def ungetc (c : Nat) (fh : FILE) : FILE :=
  { data := c :: fh.data, eof := false }

/-- The `unsigned int` stored in four bytes (least significant byte first). -/
def uint_of_bytes (bs : List Nat) : Nat :=
  match bs with
  | [b0, b1, b2, b3] => b0 + 256 * b1 + 65536 * b2 + 16777216 * b3
  | _ => 0

/-- The four bytes of an `unsigned int`. -/
def uint_bytes (n : Nat) : List Nat :=
  [n % 256, n / 256 % 256, n / 65536 % 256, n / 16777216 % 256]

/-- The `int` stored in four bytes (two's complement). -/
def int_of_bytes (bs : List Nat) : Int :=
  let u := uint_of_bytes bs
  if u < 2 ^ 31 then (u : Int) else (u : Int) - 2 ^ 32

/-- The four bytes of an `int`. -/
def int_bytes (n : Int) : List Nat :=
  uint_bytes (n % 2 ^ 32).toNat

/-- The loop of `get_to_next_router_info_block`: drop bytes up to and including
the first zero.  When the stream ends before a zero the loop does not return
(or tests a value that was never read). -/
def skip_to_zero : List Nat → Option (List Nat)
  | [] => none
  | b :: rest => if b = 0 then some rest else skip_to_zero rest

/-- Source `get_to_next_router_info_block`. -/
def get_to_next_router_info_block (fh : FILE) : Option FILE :=
  (skip_to_zero fh.data).map (fun rest => { fh with data := rest })

/-- Source `get_num_from_stream`: the result, the number read (`none` when
nothing was stored) and the stream after. -/
def get_num_from_stream (fh : FILE) : Int × Option Nat × FILE :=
  let (bs, fh1) := fread 4 fh
  let elems_read : Nat := if bs.length = 4 then 1 else 0
  if elems_read ≠ 1 then
    if fh1.eof then (FAILURE, none, fh1) else (SUCCESS, none, fh1)
  else (SUCCESS, some (uint_of_bytes bs), fh1)

/-! ## Decoding -/

/-- Source `create_router`.  A header shorter than six bytes leaves `desc_len`
uninitialised, and a `desc_len` above `DESC_MAX_LEN` makes `fread` write past
`description`: both are `none`. -/
def create_router (fh : FILE) : Option (router × FILE) :=
  match fread 6 fh with
  | ([b0, b1, b2, b3, flag, desc_len], fh1) =>
      if DESC_MAX_LEN < desc_len then none
      else
        match fread desc_len fh1 with
        | (description, fh2) =>
            (get_to_next_router_info_block fh2).map (fun fh3 =>
              ({ routerID := uint_of_bytes [b0, b1, b2, b3]
                 flag := flag
                 desc_len := desc_len
                 description := description
                 connections := List.replicate MAX_CONNECTIONS none }, fh3))
  | _ => none

/-- Source `create_all_routers`: the slots filled and the stream after. -/
def create_all_routers : Nat → FILE → Option (List (Option router) × FILE)
  | 0, fh => some ([], fh)
  | n + 1, fh =>
      match create_router fh with
      | none => none
      | some (r, fh1) =>
          (create_all_routers n fh1).map (fun (rs, fh2) => (some r :: rs, fh2))

/-- One turn of the `while` loop of `set_all_connections`: either a `return`
with its value, or the registry and the stream at the end of the turn. -/
def set_all_connections_turn (s : registry) (fh : FILE) :
    Option (Int ⊕ (registry × FILE)) :=
  match get_num_from_stream fh with
  | (res1, fromID, fh1) =>
    if res1 ≠ SUCCESS then
      if !fh1.eof then some (Sum.inl CRITICAL_FAILURE) else some (Sum.inl SUCCESS)
    else
      match get_num_from_stream fh1 with
      | (res2, toID, fh2) =>
        if res2 ≠ SUCCESS then
          if !fh2.eof then some (Sum.inl CRITICAL_FAILURE) else some (Sum.inl SUCCESS)
        else
          match fromID, toID with
          | some fromID, some toID =>
              match set_connection s (get_router s fromID) (get_router s toID) with
              | none => none
              | some (_, s1) =>
                  let fh3 := (fgetc fh2).2
                  match fgetc fh3 with
                  | (c, fh4) =>
                      if !fh4.eof then
                        match c with
                        | some c => some (Sum.inr (s1, ungetc c fh4))
                        | none => some (Sum.inr (s1, fh4))
                      else some (Sum.inr (s1, fh4))
          | _, _ => none

/-- The `while (!feof(fh))` loop of `set_all_connections`; every turn that
does not return consumes at least eight bytes. -/
def set_all_connections_loop : Nat → registry → FILE → Option (Int × registry)
  | 0, _, _ => none
  | fuel + 1, s, fh =>
      if fh.eof then some (SUCCESS, s)
      else
        match set_all_connections_turn s fh with
        | none => none
        | some (Sum.inl res) => some (res, s)
        | some (Sum.inr (s1, fh1)) => set_all_connections_loop fuel s1 fh1

/-- Source `set_all_connections`. -/
def set_all_connections (s : registry) (fh : FILE) : Option (Int × registry) :=
  if s.N ≤ 0 then some (0, s)
  else set_all_connections_loop (fh.data.length + 1) s fh

/-- The loading part of `main`: read `N`, set `N_ROUTERS`, fill the slots and
set the connections.  The result is that of `set_all_connections`.  `N` is
an `int`: when the count field is negative as an `int` no slot is filled and
`N_ROUTERS` is that negative number. -/
def load (bytes : List Nat) : Option (Int × registry) :=
  match fread 4 { data := bytes, eof := false } with
  | (hdr, fh1) =>
      if hdr.length ≠ 4 then none
      else
        let N := int_of_bytes hdr
        match create_all_routers N.toNat fh1 with
        | none => none
        | some (slots, fh2) =>
            set_all_connections { router_array := slots, N_ROUTERS := N } fh2

/-! ## Encoding -/

/-- The bytes `write_to_file` writes for one router.  Reading more bytes than
`description` holds is `none`. -/
def write_router (r : router) : Option (List Nat) :=
  if r.desc_len ≤ r.description.length then
    some (uint_bytes r.routerID ++ [r.flag, r.desc_len] ++
      r.description.take r.desc_len ++ [0])
  else none

/-- The loop of `write_to_file` over the slots. -/
def write_routers : List (Option router) → Option (List Nat)
  | [] => some []
  | none :: rest => write_routers rest
  | some r :: rest =>
      match write_router r with
      | none => none
      | some bs => (write_routers rest).map (fun out => bs ++ out)

/-- The inner loop of `write_connections_to_file`. -/
def write_connections (s : registry) (fromID : Nat) : List (Option Nat) → Option (List Nat)
  | [] => some []
  | none :: cs => write_connections s fromID cs
  | some p :: cs =>
      match deref s p with
      | none => none
      | some target =>
          (write_connections s fromID cs).map (fun out =>
            uint_bytes fromID ++ uint_bytes target.routerID ++ [0] ++ out)

/-- The outer loop of `write_connections_to_file`. -/
def write_connections_scan (s : registry) : List (Option router) → Option (List Nat)
  | [] => some []
  | none :: rest => write_connections_scan s rest
  | some r :: rest =>
      match write_connections s r.routerID r.connections with
      | none => none
      | some bs => (write_connections_scan s rest).map (fun out => bs ++ out)

/-- Source `write_connections_to_file`: the bytes written. -/
def write_connections_to_file (s : registry) : Option (List Nat) :=
  write_connections_scan s s.router_array

/-- Source `write_to_file`: the bytes written (its result is `SUCCESS`, no
stream error being modelled). -/
def write_to_file (s : registry) : Option (List Nat) :=
  match write_routers s.router_array with
  | none => none
  | some rs =>
      (write_connections_to_file s).map (fun cs => int_bytes s.N_ROUTERS ++ rs ++ cs)

/-! ## Path search -/

/-- The locals of `exists_path` that `recursive_search` changes through
pointers: the `visited` array, the path buffer with its allocated size
`path_size`, and the offset of `path_cur_ptr` from the start of the buffer.
Cells of the buffer that were never written hold `0` here; they are never
read. -/
structure search_state where
  visited : List Bool
  path : List Nat
  path_size : Nat
  path_cur : Nat
deriving DecidableEq

/-- The loop of `get_idx_in_visited`: `n` turns are left and `i` is the loop
variable.  `ptr_array[i]` outside the filled part is an uninitialised read. -/
def get_idx_scan (s : registry) (routerID : Nat) (ptr_array : List Nat) :
    Nat → Nat → Option Int
  | 0, _ => some FAILURE
  | n + 1, i =>
      match ptr_array[i]? with
      | none => none
      | some p =>
          match deref s p with
          | none => none
          | some r =>
              if r.routerID = routerID then some (i : Int)
              else get_idx_scan s routerID ptr_array n (i + 1)

/-- Source `get_idx_in_visited`. -/
def get_idx_in_visited (s : registry) (routerID : Nat) (ptr_array : List Nat) :
    Option Int :=
  get_idx_scan s routerID ptr_array s.N_ROUTERS.toNat 0

/-- Reading `visited[idx]`; outside the array it is `none`. -/
def visited_get (visited : List Bool) (idx : Int) : Option Bool :=
  if idx < 0 then none else visited[idx.toNat]?

/-- Writing `visited[idx] = v`; outside the array it is `none`. -/
def visited_set (visited : List Bool) (idx : Int) (v : Bool) : Option (List Bool) :=
  if idx < 0 then none
  else if idx.toNat < visited.length then some (visited.set idx.toNat v)
  else none

/-- Writing `*path_cur_ptr = id`; outside the buffer it is `none`. -/
def path_write (st : search_state) (id : Nat) : Option search_state :=
  if st.path_cur < st.path.length then some { st with path := st.path.set st.path_cur id }
  else none

/-- The `realloc` step at the head of `recursive_search`. -/
def grow_path (st : search_state) : search_state :=
  if st.path_cur ≥ st.path_size - 1 then
    { st with
      path := st.path ++ List.replicate (st.path_size * 2 - st.path.length) 0
      path_size := st.path_size * 2 }
  else st

/-- The `for` loop of `recursive_search` over the outgoing slots; `call` is
the recursive call. -/
def search_loop (s : registry) (ptr_array : List Nat)
    (call : Nat → search_state → Option (Bool × search_state)) :
    List (Option Nat) → search_state → Option (Bool × search_state)
  | [], st => some (false, st)
  | none :: cs, st => search_loop s ptr_array call cs st
  | some next_router :: cs, st =>
      match deref s next_router with
      | none => none
      | some nr =>
          match get_idx_in_visited s nr.routerID ptr_array with
          | none => none
          | some next_visited_idx =>
              match visited_get st.visited next_visited_idx with
              | none => none
              | some true => search_loop s ptr_array call cs st
              | some false =>
                  match call next_router st with
                  | none => none
                  | some (true, st1) => some (true, st1)
                  | some (false, st1) => search_loop s ptr_array call cs st1

/-- Source `recursive_search`.  `fuel` bounds the depth of the recursion. -/
def recursive_search (s : registry) (ptr_array : List Nat) (findID : Nat) :
    Nat → Nat → search_state → Option (Bool × search_state)
  | 0, _, _ => none
  | fuel + 1, r_ptr, st =>
      let st := grow_path st
      match deref s r_ptr with
      | none => none
      | some r =>
          match get_idx_in_visited s r.routerID ptr_array with
          | none => none
          | some visited_idx =>
              match visited_set st.visited visited_idx true with
              | none => none
              | some visited1 =>
                  match path_write { st with visited := visited1 } r.routerID with
                  | none => none
                  | some st =>
                      let st := { st with path_cur := st.path_cur + 1 }
                      match is_connected s (some r_ptr) findID with
                      | none => none
                      | some true => (path_write st findID).map (fun st1 => (true, st1))
                      | some false =>
                          match search_loop s ptr_array
                              (recursive_search s ptr_array findID fuel) r.connections st with
                          | none => none
                          | some (true, st1) => some (true, st1)
                          | some (false, st1) =>
                              match visited_set st1.visited visited_idx false with
                              | none => none
                              | some visited2 =>
                                  some (false,
                                    { st1 with
                                      path_cur := st1.path_cur - 1
                                      visited := visited2 })

/-- The slots of the occupied routers, in slot order, counted from slot `i`:
what the loop of `exists_path` stores into `ptr_array`. -/
def occupied_from : Nat → List (Option router) → List Nat
  | _, [] => []
  | i, some _ :: rest => i :: occupied_from (i + 1) rest
  | i, none :: rest => occupied_from (i + 1) rest

/-- Source `print_path`: the ids printed. -/
def print_path (path : List Nat) (path_cur : Nat) : List Nat :=
  path.take path_cur

/-- The search of `exists_path`: the locals are set up and `recursive_search`
is called once.  The result is that of `recursive_search` and the state of the
locals after it.  More occupied slots than `N_ROUTERS` overrun `ptr_array`,
and a negative `N_ROUTERS` is no allocation size: both are `none`.  The
recursion is never deeper than `N_ROUTERS`, which gives the fuel. -/
def exists_path_search (s : registry) (fromID toID : Nat) :
    Option (Bool × search_state) :=
  if s.N_ROUTERS < 0 then none
  else
    let ptr_array := occupied_from 0 s.router_array
    if s.N_ROUTERS.toNat < ptr_array.length then none
    else
      let st : search_state :=
        { visited := List.replicate s.N_ROUTERS.toNat false
          path := List.replicate 16 0
          path_size := 16
          path_cur := 0 }
      match get_router s fromID with
      | none => none
      | some r_ptr =>
          recursive_search s ptr_array toID (s.N_ROUTERS.toNat + 1) r_ptr st

/-- Source `exists_path`: its result (always `SUCCESS`) and what it reports,
`some` of the ids handed to `print_path` when a path was found and `none`
when no path was found. -/
def exists_path (s : registry) (fromID toID : Nat) : Option (Int × Option (List Nat)) :=
  match exists_path_search s fromID toID with
  | none => none
  | some (true, st) => some (SUCCESS, some (print_path st.path st.path_cur))
  | some (false, _) => some (SUCCESS, none)

/-! ## Commands -/

/-- A line of the command file after `strtok` and `atoi`: the number of
blanks in front of the first token, the first token (`none` when `strtok`
finds no token), the numbers `atoi` gives for the following tokens, and the
rest of the line that `sett_modell` takes as the new description.  The tokens
a command reads are taken to be there. -/
structure command_line where
  leading : Nat
  command : Option String
  arg1 : Int
  arg2 : Int
  arg3 : Int
  desc : List Nat
deriving DecidableEq

/-- The C string `line` after the first call of `strtok`: `strtok` skips the
leading blanks without changing them and ends the first token with a zero
byte, so `line` reads as the leading blanks followed by the first token. -/
def line_text (line : command_line) : String :=
  String.mk (List.replicate line.leading ' ') ++ line.command.getD ""

/-- Conversion of an `int` to `unsigned int`. -/
def to_uint (a : Int) : Nat := (a % 2 ^ 32).toNat

/-- Conversion of an `int` to `unsigned char`. -/
def to_uchar (a : Int) : Nat := (a % 256).toNat

/-- Source `print_router_data`, as far as it reads memory: `desc_len` bytes of
`description` and the id behind every connection. -/
def print_router_data (s : registry) (r : Option Nat) : Option Unit :=
  match r with
  | none => none
  | some p =>
    match deref s p with
    | none => none
    | some rr =>
        if rr.desc_len ≤ rr.description.length then
          (write_connections s rr.routerID rr.connections).map (fun _ => ())
        else none

/-- The end of `run_command`: `FAILURE` when `succeeded` is not 0, `SUCCESS`
otherwise. -/
def command_result (r : Option (Int × registry)) : Option (Int × registry) :=
  r.map (fun x => if x.1 ≠ 0 then (FAILURE, x.2) else (SUCCESS, x.2))

/-- Source `run_command` on a tokenised line.  The first two tests compare
the token `command`, the other four compare `line`. -/
def run_command (s : registry) (line : command_line) : Option (Int × registry) :=
  match line.command with
  | none => some (CRITICAL_FAILURE, s)
  | some command =>
    if command = "print" then
      let routerID := to_uint line.arg1
      if (get_router s routerID).isNone then command_result (some (FAILURE, s))
      else
        command_result
          ((print_router_data s (get_router s routerID)).map (fun _ => (SUCCESS, s)))
    else if command = "sett_flag" then
      let routerID := to_uint line.arg1
      let flag := to_uchar line.arg2
      let val := to_uchar line.arg3
      if (get_router s routerID).isNone then command_result (some (FAILURE, s))
      else command_result (set_flag s routerID flag val)
    else if line_text line = "sett_modell" then
      let routerID := to_uint line.arg1
      if (get_router s routerID).isNone then command_result (some (FAILURE, s))
      else command_result (set_model s routerID line.desc)
    else if line_text line = "legg_til_kobling" then
      let fromID := to_uint line.arg1
      let toID := to_uint line.arg2
      if (get_router s fromID).isNone then command_result (some (FAILURE, s))
      else if (get_router s toID).isNone then command_result (some (FAILURE, s))
      else command_result (add_connection s fromID toID)
    else if line_text line = "slett_router" then
      let routerID := to_uint line.arg1
      if (get_router s routerID).isNone then command_result (some (FAILURE, s))
      else command_result (remove_router s routerID)
    else if line_text line = "finnes_rute" then
      let fromID := to_uint line.arg1
      let toID := to_uint line.arg2
      if (get_router s fromID).isNone then command_result (some (FAILURE, s))
      else if (get_router s toID).isNone then command_result (some (FAILURE, s))
      else command_result ((exists_path s fromID toID).map (fun x => (x.1, s)))
    else some (CRITICAL_FAILURE, s)

/-- The `while` loop of `run_all_commands` over the lines of the file. -/
def run_lines : registry → List command_line → Option (Int × registry)
  | s, [] => some (SUCCESS, s)
  | s, line :: rest =>
      match run_command s line with
      | none => none
      | some (result, s1) =>
          if result = CRITICAL_FAILURE then some (result, s1) else run_lines s1 rest

/-- Source `run_all_commands`: an empty file gives `FAILURE`. -/
def run_all_commands (s : registry) (lines : List command_line) : Option (Int × registry) :=
  match lines with
  | [] => some (FAILURE, s)
  | _ => run_lines s lines

/-! ## The program -/

/-- Source `main` on the contents of the router file and of the command
file: the exit status and what is written to the router file (`none` when the
file is not written).  The release of the memory after the write is not
modelled. -/
def main (router_file : List Nat) (commands_file : List command_line) :
    Option (Int × Option (List Nat)) :=
  match load router_file with
  | none => none
  | some (result, s) =>
      if result = CRITICAL_FAILURE then some (EXIT_FAILURE, none)
      else
        match run_all_commands s commands_file with
        | none => none
        | some (result, s1) =>
            if result = CRITICAL_FAILURE then some (EXIT_FAILURE, none)
            else (write_to_file s1).map (fun out => (EXIT_SUCCESS, some out))

/-! ## The path search with a record of its steps -/

/-- What the recorded search notes down: the state of the locals at a point
of the search, or a write into the path buffer with the index written and the
allocated size of the buffer at that moment. -/
inductive search_event where
  | point (st : search_state) : search_event
  | write (index capacity : Nat) : search_event
deriving DecidableEq

/-- The allocated size of the path buffer at an event. -/
def search_event.capacity : search_event → Nat
  | search_event.point st => st.path_size
  | search_event.write _ capacity => capacity

/-- The loop of `recursive_search` as in `search_loop`, with the records of
the calls it makes put one after the other. -/
def search_loop_log (s : registry) (ptr_array : List Nat)
    (call : Nat → search_state → Option (Bool × search_state × List search_event)) :
    List (Option Nat) → search_state → Option (Bool × search_state × List search_event)
  | [], st => some (false, st, [])
  | none :: cs, st => search_loop_log s ptr_array call cs st
  | some next_router :: cs, st =>
      match deref s next_router with
      | none => none
      | some nr =>
          match get_idx_in_visited s nr.routerID ptr_array with
          | none => none
          | some next_visited_idx =>
              match visited_get st.visited next_visited_idx with
              | none => none
              | some true => search_loop_log s ptr_array call cs st
              | some false =>
                  match call next_router st with
                  | none => none
                  | some (true, st1, log) => some (true, st1, log)
                  | some (false, st1, log) =>
                      (search_loop_log s ptr_array call cs st1).map
                        (fun x => (x.1, x.2.1, log ++ x.2.2))

/-- Source `recursive_search` as in `recursive_search`, with a record of its
steps: the state on entry, the write of the router's id, the state after the
router was marked and its id was pushed, the record of the loop, and then
either the write of the target id and the state returned with `TRUE`, or the
state returned with `FALSE` after the router was unmarked and popped. -/
def recursive_search_log (s : registry) (ptr_array : List Nat) (findID : Nat) :
    Nat → Nat → search_state → Option (Bool × search_state × List search_event)
  | 0, _, _ => none
  | fuel + 1, r_ptr, st0 =>
      let st := grow_path st0
      match deref s r_ptr with
      | none => none
      | some r =>
          match get_idx_in_visited s r.routerID ptr_array with
          | none => none
          | some visited_idx =>
              match visited_set st.visited visited_idx true with
              | none => none
              | some visited1 =>
                  match path_write { st with visited := visited1 } r.routerID with
                  | none => none
                  | some st1 =>
                      let st2 := { st1 with path_cur := st1.path_cur + 1 }
                      let log0 :=
                        [search_event.point st0,
                         search_event.write st.path_cur st.path_size,
                         search_event.point st2]
                      match is_connected s (some r_ptr) findID with
                      | none => none
                      | some true =>
                          (path_write st2 findID).map (fun st3 =>
                            (true, st3,
                              log0 ++ [search_event.write st2.path_cur st2.path_size,
                                search_event.point st3]))
                      | some false =>
                          match search_loop_log s ptr_array
                              (recursive_search_log s ptr_array findID fuel)
                              r.connections st2 with
                          | none => none
                          | some (true, st3, log) => some (true, st3, log0 ++ log)
                          | some (false, st3, log) =>
                              match visited_set st3.visited visited_idx false with
                              | none => none
                              | some visited2 =>
                                  some (false,
                                    { st3 with
                                      path_cur := st3.path_cur - 1
                                      visited := visited2 },
                                    log0 ++ log ++
                                      [search_event.point
                                        { st3 with
                                          path_cur := st3.path_cur - 1
                                          visited := visited2 }])

/-- The search of `exists_path` as in `exists_path_search`, with the record of
the steps of `recursive_search`. -/
def exists_path_search_log (s : registry) (fromID toID : Nat) :
    Option (Bool × search_state × List search_event) :=
  if s.N_ROUTERS < 0 then none
  else
    let ptr_array := occupied_from 0 s.router_array
    if s.N_ROUTERS.toNat < ptr_array.length then none
    else
      let st : search_state :=
        { visited := List.replicate s.N_ROUTERS.toNat false
          path := List.replicate 16 0
          path_size := 16
          path_cur := 0 }
      match get_router s fromID with
      | none => none
      | some r_ptr =>
          recursive_search_log s ptr_array toID (s.N_ROUTERS.toNat + 1) r_ptr st

/-! ## Properties of registries -/

/-- What the first pass of `remove_router` leaves in an outgoing slot. -/
def cleared (s : registry) (routerID : Nat) (c : Option Nat) : Option Nat :=
  match c with
  | none => none
  | some p =>
      match deref s p with
      | some t => if t.routerID = routerID then none else some p
      | none => some p

/-- What `remove_router` leaves in a slot of `router_array`. -/
def removed_slot (s : registry) (routerID : Nat) (o : Option router) : Option router :=
  match o with
  | none => none
  | some r =>
      if r.routerID = routerID then none
      else some { r with connections := r.connections.map (cleared s routerID) }

/-- The registry a successful `remove_router` leaves. -/
def removed (s : registry) (routerID : Nat) : registry :=
  { router_array := s.router_array.map (removed_slot s routerID)
    N_ROUTERS := s.N_ROUTERS - 1 }

/-- No outgoing slot of an occupied router points to an empty slot. -/
def no_dangling (s : registry) : Prop :=
  ∀ q r, deref s q = some r → ∀ t, some t ∈ r.connections → ∃ tr, deref s t = some tr

/-- The id held by each slot of `router_array` (`none` for an empty slot). -/
def slot_ids (s : registry) : List (Option Nat) :=
  s.router_array.map (Option.map router.routerID)

/-- The ids of the occupied slots, in slot order. -/
def live_ids (s : registry) : List Nat :=
  (slot_ids s).filterMap id

/-- The number of occupied slots of `router_array`. -/
def live_count (s : registry) : Nat :=
  (live_ids s).length

/-- Router ids are unique among the occupied slots. -/
def unique_ids (s : registry) : Prop :=
  (live_ids s).Nodup

instance (s : registry) : Decidable (unique_ids s) :=
  inferInstanceAs (Decidable (live_ids s).Nodup)

/-- The command that the tests of `run_command` take a line for: `none` when
`run_command` answers `CRITICAL_FAILURE`. -/
def line_command (line : command_line) : Option String :=
  match line.command with
  | none => none
  | some command =>
    if command = "print" then some "print"
    else if command = "sett_flag" then some "sett_flag"
    else if line_text line = "sett_modell" then some "sett_modell"
    else if line_text line = "legg_til_kobling" then some "legg_til_kobling"
    else if line_text line = "slett_router" then some "slett_router"
    else if line_text line = "finnes_rute" then some "finnes_rute"
    else none

/-- The six commands of the vocabulary. -/
def in_vocabulary (c : String) : Prop :=
  c = "print" ∨ c = "sett_flag" ∨ c = "sett_modell" ∨ c = "legg_til_kobling" ∨
    c = "slett_router" ∨ c = "finnes_rute"

instance (c : String) : Decidable (in_vocabulary c) := by
  unfold in_vocabulary
  infer_instance

/-- The registries that a sequence of commands reaches from `s0`. -/
inductive reachable (s0 : registry) : registry → Prop
  | start : reachable s0 s0
  | step {s s1 : registry} {line : command_line} {res : Int} :
      reachable s0 s → run_command s line = some (res, s1) → reachable s0 s1

/-! ## The graph of a registry -/

/-- A directed edge between slots: the router in slot `p` has an outgoing slot
that points to slot `q`. -/
def edge (s : registry) (p q : Nat) : Prop :=
  ∃ r, deref s p = some r ∧ some q ∈ r.connections

/-- The router in slot `q` has an occupied outgoing slot whose target has the
id: what `is_connected` tests. -/
def target_connected (s : registry) (q id : Nat) : Prop :=
  ∃ r t tr, deref s q = some r ∧ some t ∈ r.connections ∧
    deref s t = some tr ∧ tr.routerID = id

/-- A directed edge between ids: a router with id `x` has an occupied
outgoing slot whose target has id `y`. -/
def connected_ids (s : registry) (x y : Nat) : Prop :=
  ∃ p r, deref s p = some r ∧ r.routerID = x ∧ target_connected s p y

/-- A walk along edges from slot `p` to slot `q` none of whose slots
satisfies `V`. -/
inductive avoiding (s : registry) (V : Nat → Prop) : Nat → Nat → Prop
  | here (p : Nat) : ¬ V p → avoiding s V p p
  | step (p p1 q : Nat) : ¬ V p → edge s p p1 → avoiding s V p1 q → avoiding s V p q

/-- The index `get_idx_in_visited` gives for the router in slot `p`, with the
`ptr_array` that `exists_path` builds. -/
def slot_index (s : registry) (p : Nat) : Option Int :=
  match deref s p with
  | none => none
  | some r => get_idx_in_visited s r.routerID (occupied_from 0 s.router_array)

/-- The router in slot `p` is marked in the `visited` array. -/
def marked (s : registry) (visited : List Bool) (p : Nat) : Prop :=
  ∃ k : Nat, slot_index s p = some (k : Int) ∧ visited[k]? = some true

/-- What a call of `recursive_search` or a run of its loop, started in state
`st`, is to give: it returns; the path buffer has its allocated size, which
did not shrink; when the result is `FALSE` the `visited` array and the
position in the path are as in `st`; and the result is `TRUE` exactly when
`goal` holds. -/
def search_post (st : search_state) (goal : Prop) (res : Option (Bool × search_state)) :
    Prop :=
  ∃ b st1, res = some (b, st1) ∧ st1.path.length = st1.path_size ∧
    st.path_size ≤ st1.path_size ∧
    (b = false → st1.visited = st.visited ∧ st1.path_cur = st.path_cur) ∧
    (b = true ↔ goal)

/-! ## The file format -/

/-- A router record of the file format: the id, the flag and the description;
the length byte of the record is the length of the description. -/
structure router_record where
  id : Nat
  flag : Nat
  description : List Nat
deriving DecidableEq

/-- The bytes of a router record: `id` (4 bytes), `flag`, `desc_len`, the
description and the terminator `0x00`. -/
def encode_router_record (r : router_record) : List Nat :=
  uint_bytes r.id ++ [r.flag, r.description.length] ++ r.description ++ [0]

/-- The bytes of a connection record: `from_id`, `to_id` (4 bytes each) and
the terminator `0x00`. -/
def encode_connection_record (c : Nat × Nat) : List Nat :=
  uint_bytes c.1 ++ uint_bytes c.2 ++ [0]

/-- The file layout: the count of router records (4 bytes), the router
records, the connection records. -/
def encode_stream (routers : List router_record) (conns : List (Nat × Nat)) : List Nat :=
  uint_bytes routers.length ++ (routers.map encode_router_record).flatten ++
    (conns.map encode_connection_record).flatten

/-- The records fit the fields of the file format: the count and the ids fit
four bytes, flags and description bytes fit one byte, a description has at
most `DESC_MAX_LEN` bytes. -/
def well_formed_stream (routers : List router_record) (conns : List (Nat × Nat)) : Prop :=
  routers.length < 2 ^ 32 ∧
  (∀ r ∈ routers, r.id < 2 ^ 32 ∧ r.flag < 256 ∧ r.description.length ≤ DESC_MAX_LEN ∧
    ∀ b ∈ r.description, b < 256) ∧
  ∀ c ∈ conns, c.1 < 2 ^ 32 ∧ c.2 < 2 ^ 32

instance (routers : List router_record) (conns : List (Nat × Nat)) :
    Decidable (well_formed_stream routers conns) := by
  unfold well_formed_stream
  infer_instance

/-- The position of the first router record with the id. -/
def slot_of (routers : List router_record) (id : Nat) : Nat :=
  (routers.map router_record.id).indexOf id

/-- Outgoing slots that hold the given entries first and are empty after. -/
def pad_connections (l : List (Option Nat)) : List (Option Nat) :=
  l ++ List.replicate (MAX_CONNECTIONS - l.length) none

/-- The targets of the connection records whose source is the router record
at position `p`, in the order of the records. -/
def targets (routers : List router_record) (conns : List (Nat × Nat)) (p : Nat) :
    List (Option Nat) :=
  (conns.filter (fun c => slot_of routers c.1 = p)).map (fun c => some (slot_of routers c.2))

/-- The router that the router record at position `p` and the connection
records give. -/
def loaded_router (routers : List router_record) (conns : List (Nat × Nat)) (p : Nat) :
    router :=
  let r := routers.getD p { id := 0, flag := 0, description := [] }
  { routerID := r.id
    flag := r.flag
    desc_len := r.description.length
    description := r.description
    connections := pad_connections (targets routers conns p) }

/-- The registry that the router records and the connection records give. -/
def loaded (routers : List router_record) (conns : List (Nat × Nat)) : registry :=
  { router_array :=
      (List.range routers.length).map (fun p => some (loaded_router routers conns p))
    N_ROUTERS := routers.length }

/-! ## Registries on which the commands are defined -/

/-- Every occupied router holds at least `desc_len` description bytes. -/
def desc_bounded (s : registry) : Prop :=
  ∀ q r, deref s q = some r → r.desc_len ≤ r.description.length

/-- The registries the program works on: no outgoing slot points to an empty
slot, the live ids are unique, `N_ROUTERS` is the number of occupied slots
and no `desc_len` exceeds the description held. -/
def sound_registry (s : registry) : Prop :=
  no_dangling s ∧ unique_ids s ∧ s.N_ROUTERS = live_count s ∧ desc_bounded s

/-! ## Command lists -/

/-- A line that `run_command` takes for a command of the vocabulary: its
first token is `print` or `sett_flag`, or it starts, with no blank in front,
with one of the other four commands. -/
def recognised (line : command_line) : Prop :=
  match line.command with
  | none => False
  | some c => in_vocabulary c ∧ (line.leading = 0 ∨ c = "print" ∨ c = "sett_flag")

instance (line : command_line) : Decidable (recognised line) := by
  unfold recognised
  split <;> infer_instance

/-- The commands of a list applied one after the other, each to the registry
the one before it left, whatever the commands return. -/
def apply_each : registry → List command_line → Option registry
  | s, [] => some s
  | s, line :: rest =>
      match run_command s line with
      | none => none
      | some (_, s1) => apply_each s1 rest

/-! ## The reference encoding -/

/-- The routers of the occupied slots, in slot order. -/
def occupied_routers (s : registry) : List router :=
  s.router_array.filterMap id

/-- The router record of a router: `id` (4 bytes), `flag`, `desc_len`, the
first `desc_len` description bytes and the terminator `0x00`. -/
def reference_router_record (r : router) : List Nat :=
  uint_bytes r.routerID ++ [r.flag] ++ [r.desc_len] ++ r.description.take r.desc_len ++ [0]

/-- The id of the router an outgoing slot points to. -/
def target_id (s : registry) (t : Nat) : Nat :=
  match deref s t with
  | some tr => tr.routerID
  | none => 0

/-- The connection records of a router: one for each occupied outgoing slot,
in outgoing-slot order. -/
def reference_connection_records (s : registry) (r : router) : List Nat :=
  ((r.connections.filterMap id).map
    (fun t => encode_connection_record (r.routerID, target_id s t))).flatten

/-- The encoding as the file format describes it: the count `N_ROUTERS`
(4 bytes), a router record for each occupied slot in slot order, then the
connection records of each occupied slot in slot order. -/
def encode_reference (s : registry) : List Nat :=
  int_bytes s.N_ROUTERS ++ ((occupied_routers s).map reference_router_record).flatten ++
    ((occupied_routers s).map (reference_connection_records s)).flatten

/-! ## Sample registries -/

/-- A router with the given id and outgoing slots, flag `0x05` and the
description `ab`. -/
def sample_router (id : Nat) (connections : List (Option Nat)) : router :=
  { routerID := id
    flag := 0x05
    desc_len := 2
    description := [97, 98]
    connections := connections ++ List.replicate (MAX_CONNECTIONS - connections.length) none }

/-- Three routers with the ids 1, 2, 3 and the edges 1 → 2 and 2 → 3. -/
def chain_registry : registry :=
  { router_array :=
      [some (sample_router 1 [some 1]), some (sample_router 2 [some 2]),
       some (sample_router 3 [])]
    N_ROUTERS := 3 }

/-- The file of `chain_registry`: the count 3, three router records and the
connection records 1 → 2 and 2 → 3. -/
def chain_file : List Nat :=
  [3, 0, 0, 0,
   1, 0, 0, 0, 5, 2, 97, 98, 0,
   2, 0, 0, 0, 5, 2, 97, 98, 0,
   3, 0, 0, 0, 5, 2, 97, 98, 0,
   1, 0, 0, 0, 2, 0, 0, 0, 0,
   2, 0, 0, 0, 3, 0, 0, 0, 0]

/-- Twelve routers with the ids 1 to 12 and no connection. -/
def star_registry : registry :=
  { router_array := (List.range 12).map (fun i => some (sample_router (i + 1) []))
    N_ROUTERS := 12 }

/-- The registry `star_registry` after router 1 was connected to the routers
2 to 11: its ten outgoing slots are taken. -/
def full_registry : registry :=
  { router_array :=
      some (sample_router 1 ((List.range 10).map (fun i => some (i + 1)))) ::
        (List.range 11).map (fun i => some (sample_router (i + 2) []))
    N_ROUTERS := 12 }

/-- Calls of `add_connection` from one router to a list of targets, in order:
the results and the registry after the last call. -/
def add_connections (fromID : Nat) : registry → List Nat → Option (List Int × registry)
  | s, [] => some ([], s)
  | s, toID :: rest =>
      match add_connection s fromID toID with
      | none => none
      | some (res, s1) =>
          (add_connections fromID s1 rest).map (fun (rs, s2) => (res :: rs, s2))


/-- Two router records with the ids 1 and 2. -/
def two_records : List router_record :=
  [{ id := 1, flag := 5, description := [97, 98] },
   { id := 2, flag := 5, description := [97, 98] }]

/-- The router records of `chain_file`. -/
def chain_records : List router_record :=
  [{ id := 1, flag := 5, description := [97, 98] },
   { id := 2, flag := 5, description := [97, 98] },
   { id := 3, flag := 5, description := [97, 98] }]

/-- The list of `n` router records with the id 1. -/
def many_records (n : Nat) : List router_record :=
  List.replicate n { id := 1, flag := 5, description := [97, 98] }

/-- The line that starts with the token `c`, followed by three numbers. -/
def sample_line (c : String) (a1 a2 a3 : Int) : command_line :=
  { leading := 0, command := some c, arg1 := a1, arg2 := a2, arg3 := a3, desc := [] }

/-! ## Cycles -/

/-- The router with the id lies on a directed cycle of at least one edge (a
self-loop counts). -/
def on_cycle (s : registry) (a : Nat) : Prop :=
  Relation.TransGen (connected_ids s) a a

/-- Three routers with the ids 1, 2, 3 and the edges 1 → 2, 2 → 1 and
3 → 3. -/
def cycle_registry : registry :=
  { router_array :=
      [some (sample_router 1 [some 1]), some (sample_router 2 [some 0]),
       some (sample_router 3 [some 2])]
    N_ROUTERS := 3 }

/-! ## Connection records -/

/-- The connection records applied one after the other with
`set_connection`, each to the registry the one before it left. -/
def connect_records : registry → List (Nat × Nat) → Option registry
  | s, [] => some s
  | s, c :: cs =>
      match set_connection s (get_router s c.1) (get_router s c.2) with
      | none => none
      | some (_, s1) => connect_records s1 cs

/-- Both ids of a connection record are ids of routers of the registry. -/
def known_record (s : registry) (c : Nat × Nat) : Bool :=
  (get_router s c.1).isSome && (get_router s c.2).isSome

/-! ## Properties of the path search -/

/-- The locals of `exists_path` when it calls `recursive_search`. -/
def search_start (s : registry) : search_state :=
  { visited := List.replicate s.N_ROUTERS.toNat false
    path := List.replicate 16 0
    path_size := 16
    path_cur := 0 }

/-- The ids in the path buffer below the current position. -/
def active_path (st : search_state) : List Nat :=
  st.path.take st.path_cur

/-- The ids of the routers that are marked in `visited`, in the order of
`ptr_array`. -/
def marked_ids (s : registry) (visited : List Bool) : List Nat :=
  ((occupied_from 0 s.router_array).zip visited).filterMap
    (fun x => if x.2 then (deref s x.1).map router.routerID else none)

/-- The ids on the active path are pairwise distinct and are exactly the ids
of the marked routers. -/
def active_path_invariant (s : registry) (st : search_state) : Prop :=
  (active_path st).Nodup ∧ ∀ id, id ∈ active_path st ↔ id ∈ marked_ids s st.visited

/-- The capacity `d` is the capacity `c` or twice the capacity `c`. -/
def doubles (c d : Nat) : Prop :=
  d = c ∨ d = 2 * c

/-- A call that is made only for a router that is not marked: for a marked
router (or one without an index) the result is `none`. -/
def only_unmarked (s : registry)
    (call : Nat → search_state → Option (Bool × search_state)) :
    Nat → search_state → Option (Bool × search_state) :=
  fun t st =>
    match slot_index s t with
    | none => none
    | some k => if visited_get st.visited k = some false then call t st else none

/-- The record without the events: the result and the state. -/
def erase_log (res : Option (Bool × search_state × List search_event)) :
    Option (Bool × search_state) :=
  res.map (fun x => (x.1, x.2.1))

/-- What the steps of the recorded search from state `st` to state `st1`
with the record `log` guarantee when in `st` the path buffer had its
allocated size and the position was inside it.  The same holds for `st1`;
the path below the position of `st` is unchanged; every write was at an index
below the capacity; from event to event the capacity stays or doubles, from
that of `st` to that of `st1`; and, with unique live ids, when the active
path invariant held in `st` it holds in `st1` and at every point of the
record. -/
def search_log_frame (s : registry) (st st1 : search_state) (log : List search_event) :
    Prop :=
  st.path.length = st.path_size → st.path_cur < st.path_size →
    st1.path.length = st1.path_size ∧ st1.path_cur < st1.path_size ∧
    st1.path.take st.path_cur = st.path.take st.path_cur ∧
    (∀ i c, search_event.write i c ∈ log → i < c) ∧
    List.Chain doubles st.path_size (log.map search_event.capacity) ∧
    (st.path_size :: log.map search_event.capacity).getLast (List.cons_ne_nil _ _) =
      st1.path_size ∧
    (unique_ids s → active_path_invariant s st →
      active_path_invariant s st1 ∧
      ∀ st2, search_event.point st2 ∈ log → active_path_invariant s st2)

/-- What a call of the recorded search, or a run of its loop, that was
started in state `st` and returned `b` with state `st1` and record `log`,
guarantees: when the result is `FALSE`, the `visited` array and the position
in the path are as in `st`; and the steps meet `search_log_frame`. -/
def search_log_post (s : registry) (st : search_state) (b : Bool) (st1 : search_state)
    (log : List search_event) : Prop :=
  (b = false → st1.visited = st.visited ∧ st1.path_cur = st.path_cur) ∧
  search_log_frame s st st1 log

/-- The active path at a point of the record (`none` for a write). -/
def search_event.active : search_event → Option (List Nat)
  | search_event.point st => some (active_path st)
  | search_event.write _ _ => none

/-- The routers with the ids 1 to `n`, each but the last connected to the
next one. -/
def line_registry (n : Nat) : registry :=
  { router_array :=
      (List.range n).map (fun i =>
        some (sample_router (i + 1) (if i + 1 < n then [some (i + 1)] else [])))
    N_ROUTERS := n }

/-! ## The records of a registry -/

/-- The router record of a router: its id, its flag and the first `desc_len`
bytes of its description. -/
def record_of (r : router) : router_record :=
  { id := r.routerID, flag := r.flag, description := r.description.take r.desc_len }

/-- The router records of the occupied slots, in slot order. -/
def routers_of (s : registry) : List router_record :=
  (occupied_routers s).map record_of

/-- The ids of the routers the occupied outgoing slots of a router point to,
in outgoing-slot order. -/
def target_ids (s : registry) (r : router) : List Nat :=
  (r.connections.filterMap id).map (target_id s)

/-- The connection records of a router: a pair of ids for each occupied
outgoing slot, in outgoing-slot order. -/
def connections_of (s : registry) (r : router) : List (Nat × Nat) :=
  (target_ids s r).map (fun t => (r.routerID, t))

/-- The connection records of the occupied slots, in slot order. -/
def conns_of (s : registry) : List (Nat × Nat) :=
  ((occupied_routers s).map (connections_of s)).flatten

/-- The fields of the occupied routers fit their C types: `N_ROUTERS` is an
`int` that `load` accepts as a count, ids are `unsigned int`, flags and
description bytes are `unsigned char`, `desc_len` is at most `DESC_MAX_LEN`
and a router has `MAX_CONNECTIONS` outgoing slots. -/
def well_typed (s : registry) : Prop :=
  s.N_ROUTERS < 2 ^ 31 ∧
  ∀ r ∈ occupied_routers s, r.routerID < 2 ^ 32 ∧ r.flag < 256 ∧
    r.desc_len ≤ DESC_MAX_LEN ∧ (∀ b ∈ r.description, b < 256) ∧
    r.connections.length = MAX_CONNECTIONS

instance (s : registry) : Decidable (well_typed s) := by
  unfold well_typed
  infer_instance

/-! # Theorems -/

/-! ## Pointers and slots -/

theorem get_router_scan_some {id : Nat} {slots : List (Option router)} {p : Nat}
    (h : get_router_scan id slots = some p) :
    ∃ r, slots[p]? = some (some r) ∧ r.routerID = id := by
  induction slots generalizing p with
  | nil => simp [get_router_scan] at h
  | cons o rest ih =>
    cases o with
    | none =>
      simp only [get_router_scan, Option.map_eq_some'] at h
      obtain ⟨q, hq, rfl⟩ := h
      simpa using ih hq
    | some r =>
      simp only [get_router_scan] at h
      split at h
      · rename_i heq
        cases h
        exact ⟨r, by simp, heq.symm⟩
      · simp only [Option.map_eq_some'] at h
        obtain ⟨q, hq, rfl⟩ := h
        simpa using ih hq

theorem get_router_deref {s : registry} {id p : Nat} (h : get_router s id = some p) :
    ∃ r, deref s p = some r ∧ r.routerID = id := by
  obtain ⟨r, hr, hid⟩ := get_router_scan_some h
  exact ⟨r, by simp [deref, hr], hid⟩

theorem deref_eq_some {s : registry} {p : Nat} {r : router} :
    deref s p = some r ↔ s.router_array[p]? = some (some r) := by
  unfold deref
  split
  · rename_i r1 h; rw [h]; simp
  · rename_i h
    constructor
    · intro h1; cases h1
    · intro h1; exact absurd h1 (h r)

theorem deref_store_same {s : registry} {p : Nat} {r r1 : router}
    (h : deref s p = some r) : deref (store s p r1) p = some r1 := by
  rw [deref_eq_some] at h ⊢
  have hp : p < s.router_array.length := by
    by_contra hc
    rw [List.getElem?_eq_none (not_lt.mp hc)] at h
    cases h
  simp [store, hp]

theorem deref_store_other {s : registry} {p q : Nat} {r1 : router} (hne : q ≠ p) :
    deref (store s p r1) q = deref s q := by
  unfold deref store
  simp [List.getElem?_set_ne (Ne.symm hne)]

theorem get_router_scan_set {id p : Nat} {slots : List (Option router)} {r r1 : router}
    (h : slots[p]? = some (some r)) (hid : r1.routerID = r.routerID) :
    get_router_scan id (slots.set p (some r1)) = get_router_scan id slots := by
  induction slots generalizing p with
  | nil => simp at h
  | cons o rest ih =>
    cases p with
    | zero =>
      simp at h
      subst h
      simp [get_router_scan, hid]
    | succ q =>
      have hq : rest[q]? = some (some r) := by simpa using h
      cases o with
      | none => simp [get_router_scan, ih hq]
      | some r0 => simp [get_router_scan, ih hq]

theorem get_router_store {s : registry} {id p : Nat} {r r1 : router}
    (h : deref s p = some r) (hid : r1.routerID = r.routerID) :
    get_router (store s p r1) id = get_router s id := by
  rw [deref_eq_some] at h
  exact get_router_scan_set h hid


/-! ## Flag arithmetic -/

theorem testBit_byte_high (x i : Nat) (hx : x < 256) (hi : 8 ≤ i) : x.testBit i = false := by
  apply Nat.testBit_lt_two_pow
  calc x < 2 ^ 8 := hx
    _ ≤ 2 ^ i := Nat.pow_le_pow_right (by norm_num) hi

theorem testBit_mod_256 (x i : Nat) (hi : i < 8) : (x % 256).testBit i = x.testBit i := by
  have := Nat.testBit_mod_two_pow x 8 i
  simpa [hi] using this

theorem mask_fe : ∀ i < 8, Nat.testBit 0xfe i = !decide (i = 0) := by decide
theorem mask_fd : ∀ i < 8, Nat.testBit 0xfd i = !decide (i = 1) := by decide
theorem mask_fb : ∀ i < 8, Nat.testBit 0xfb i = !decide (i = 2) := by decide
theorem mask_01 : ∀ i < 8, Nat.testBit 0x1 i = decide (i = 0) := by decide
theorem mask_02 : ∀ i < 8, Nat.testBit 0x2 i = decide (i = 1) := by decide
theorem mask_04 : ∀ i < 8, Nat.testBit 0x4 i = decide (i = 2) := by decide

theorem bit_pos_on_spec (flag b : Nat) (hb : b < 3) :
    ∃ f, bit_pos_on flag b = some f ∧ f < 256 ∧
      ∀ i < 8, f.testBit i = (decide (i = b) || flag.testBit i) := by
  have h256 : ∀ x : Nat, x % 256 < 256 := fun x => Nat.mod_lt _ (by norm_num)
  interval_cases b
  · refine ⟨_, rfl, h256 _, fun i hi => ?_⟩
    rw [testBit_mod_256 _ _ hi, Nat.testBit_or, mask_01 i hi, Bool.or_comm]
  · refine ⟨_, rfl, h256 _, fun i hi => ?_⟩
    rw [testBit_mod_256 _ _ hi, Nat.testBit_or, mask_02 i hi, Bool.or_comm]
  · refine ⟨_, rfl, h256 _, fun i hi => ?_⟩
    rw [testBit_mod_256 _ _ hi, Nat.testBit_or, mask_04 i hi, Bool.or_comm]

theorem bit_pos_off_spec (flag b : Nat) (hb : b < 3) :
    ∃ f, bit_pos_off flag b = some f ∧ f < 256 ∧
      ∀ i < 8, f.testBit i = (!decide (i = b) && flag.testBit i) := by
  have h256 : ∀ x : Nat, x % 256 < 256 := fun x => Nat.mod_lt _ (by norm_num)
  interval_cases b
  · refine ⟨_, rfl, h256 _, fun i hi => ?_⟩
    rw [testBit_mod_256 _ _ hi, Nat.testBit_and, mask_fe i hi, Bool.and_comm]
  · refine ⟨_, rfl, h256 _, fun i hi => ?_⟩
    rw [testBit_mod_256 _ _ hi, Nat.testBit_and, mask_fd i hi, Bool.and_comm]
  · refine ⟨_, rfl, h256 _, fun i hi => ?_⟩
    rw [testBit_mod_256 _ _ hi, Nat.testBit_and, mask_fb i hi, Bool.and_comm]

theorem change_top_four_bits_spec (flag val : Nat) (hv : val ≤ 15) :
    change_top_four_bits flag val / 16 = val ∧
    change_top_four_bits flag val % 16 = flag % 16 ∧
    change_top_four_bits flag val < 256 := by
  unfold change_top_four_bits
  have e1 : flag &&& 0x0f = flag % 16 := Nat.and_pow_two_sub_one_eq_mod flag 4
  have e2 : (val <<< 4) % 256 = 2 ^ 4 * val := by
    rw [Nat.shiftLeft_eq]; omega
  simp only [e1, e2]
  rw [← Nat.mul_add_lt_is_or (Nat.mod_lt _ (by norm_num)) val]
  omega

theorem assign_flag_live {s : registry} {p : Nat} {r : router} {f : Nat → Option Nat}
    {fl : Nat} (hr : deref s p = some r) (hf : f r.flag = some fl) :
    assign_flag s (some p) f = some (store s p { r with flag := fl }) := by
  simp [assign_flag, hr, hf]

/-! ## Flag claims -/

/-- C8.  On a live router whose flag is a byte, `set_flag` with `bit_pos` in
{0, 1, 2} and `val` in {0, 1} returns `SUCCESS`; afterwards bit `bit_pos` of
the flag is `val` and every other bit of the flag is as before. -/
theorem set_flag_boolean_bit (s : registry) (routerID p : Nat) (r : router)
    (bit_pos val : Nat)
    (hlive : get_router s routerID = some p) (hr : deref s p = some r)
    (hflag : r.flag < 256) (hb : bit_pos = 0 ∨ bit_pos = 1 ∨ bit_pos = 2)
    (hv : val = 0 ∨ val = 1) :
    ∃ s1 r1, set_flag s routerID bit_pos val = some (SUCCESS, s1) ∧
      get_router s1 routerID = some p ∧ deref s1 p = some r1 ∧
      r1.flag.testBit bit_pos = decide (val = 1) ∧
      ∀ i, i ≠ bit_pos → r1.flag.testBit i = r.flag.testBit i := by
  have hb3 : bit_pos < 3 := by omega
  rcases hv with rfl | rfl
  · obtain ⟨f, hf, hlt, hbits⟩ := bit_pos_off_spec r.flag bit_pos hb3
    refine ⟨store s p { r with flag := f }, { r with flag := f }, ?_, ?_, ?_, ?_, ?_⟩
    · simp [set_flag, hb, hlive, assign_flag_live (f := fun fl => bit_pos_off fl bit_pos) hr hf]
    · exact (get_router_store hr (by exact rfl)).trans hlive
    · exact deref_store_same hr
    · simp [hbits bit_pos (by omega)]
    · intro i hi
      by_cases h8 : i < 8
      · simp [hbits i h8, hi]
      · show f.testBit i = r.flag.testBit i
        rw [testBit_byte_high f i hlt (by omega), testBit_byte_high _ i hflag (by omega)]
  · obtain ⟨f, hf, hlt, hbits⟩ := bit_pos_on_spec r.flag bit_pos hb3
    refine ⟨store s p { r with flag := f }, { r with flag := f }, ?_, ?_, ?_, ?_, ?_⟩
    · simp [set_flag, hb, hlive, assign_flag_live (f := fun fl => bit_pos_on fl bit_pos) hr hf]
    · exact (get_router_store hr (by exact rfl)).trans hlive
    · exact deref_store_same hr
    · simp [hbits bit_pos (by omega)]
    · intro i hi
      by_cases h8 : i < 8
      · simp [hbits i h8, hi]
      · show f.testBit i = r.flag.testBit i
        rw [testBit_byte_high f i hlt (by omega), testBit_byte_high _ i hflag (by omega)]

/-- C9.  On a live router, `set_flag` with `bit_pos = 4` and `val` in [0, 15]
returns `SUCCESS`; afterwards the top four bits of the flag, read as a number,
are `val` and the bottom four bits are as before. -/
theorem set_flag_change_number (s : registry) (routerID p : Nat) (r : router) (val : Nat)
    (hlive : get_router s routerID = some p) (hr : deref s p = some r)
    (hv : val ≤ 15) :
    ∃ s1 r1, set_flag s routerID 4 val = some (SUCCESS, s1) ∧
      get_router s1 routerID = some p ∧ deref s1 p = some r1 ∧
      r1.flag < 256 ∧ r1.flag / 16 = val ∧ r1.flag % 16 = r.flag % 16 := by
  obtain ⟨h1, h2, h3⟩ := change_top_four_bits_spec r.flag val hv
  refine ⟨store s p { r with flag := change_top_four_bits r.flag val },
    { r with flag := change_top_four_bits r.flag val }, ?_, ?_, ?_, h3, h1, h2⟩
  · have := assign_flag_live (f := fun fl => some (change_top_four_bits fl val)) hr rfl
    simp [set_flag, hv, hlive, this]
  · exact (get_router_store hr (by exact rfl)).trans hlive
  · exact deref_store_same hr

/-- C10.  On a live router `set_flag` returns, and its result is `FAILURE`
exactly when `bit_pos` is none of 0, 1, 2, 4, or `bit_pos` is 0, 1 or 2 and
`val` is neither 0 nor 1, or `bit_pos` is 4 and `val` exceeds 15; otherwise the
result is `SUCCESS`, and on `FAILURE` the registry is unchanged. -/
theorem set_flag_rejects_exactly (s : registry) (routerID p bit_pos val : Nat)
    (hlive : get_router s routerID = some p) :
    ∃ res s1, set_flag s routerID bit_pos val = some (res, s1) ∧
      (res = FAILURE ∨ res = SUCCESS) ∧
      (res = FAILURE ↔
        (bit_pos ≠ 0 ∧ bit_pos ≠ 1 ∧ bit_pos ≠ 2 ∧ bit_pos ≠ 4) ∨
        ((bit_pos = 0 ∨ bit_pos = 1 ∨ bit_pos = 2) ∧ val ≠ 0 ∧ val ≠ 1) ∨
        (bit_pos = 4 ∧ 15 < val)) ∧
      (res = FAILURE → s1 = s) := by
  obtain ⟨r, hr, -⟩ := get_router_deref hlive
  have hne : SUCCESS ≠ FAILURE := by decide
  by_cases hb : bit_pos = 0 ∨ bit_pos = 1 ∨ bit_pos = 2
  · have hb3 : bit_pos < 3 := by omega
    by_cases hv0 : val = 0
    · obtain ⟨f, hf, -, -⟩ := bit_pos_off_spec r.flag bit_pos hb3
      refine ⟨SUCCESS, store s p { r with flag := f }, ?_, Or.inr rfl, ?_, ?_⟩
      · simp [set_flag, hb, hv0, hlive, assign_flag_live (f := fun fl => bit_pos_off fl bit_pos) hr hf]
      · constructor
        · intro h; exact absurd h hne
        · intro h; omega
      · intro h; exact absurd h hne
    · by_cases hv1 : val = 1
      · obtain ⟨f, hf, -, -⟩ := bit_pos_on_spec r.flag bit_pos hb3
        refine ⟨SUCCESS, store s p { r with flag := f }, ?_, Or.inr rfl, ?_, ?_⟩
        · simp [set_flag, hb, hv1, hlive, assign_flag_live (f := fun fl => bit_pos_on fl bit_pos) hr hf]
        · constructor
          · intro h; exact absurd h hne
          · intro h; omega
        · intro h; exact absurd h hne
      · refine ⟨FAILURE, s, ?_, Or.inl rfl, ?_, fun _ => rfl⟩
        · simp [set_flag, hb, hv0, hv1]
        · constructor
          · intro _; exact Or.inr (Or.inl ⟨hb, hv0, hv1⟩)
          · intro _; rfl
  · by_cases hb4 : bit_pos = 4
    · by_cases hv : val ≤ 15
      · refine ⟨SUCCESS, store s p { r with flag := change_top_four_bits r.flag val },
          ?_, Or.inr rfl, ?_, ?_⟩
        · have := assign_flag_live (f := fun fl => some (change_top_four_bits fl val)) hr rfl
          simp [set_flag, hb4, hv, hlive, this]
        · constructor
          · intro h; exact absurd h hne
          · intro h; omega
        · intro h; exact absurd h hne
      · refine ⟨FAILURE, s, ?_, Or.inl rfl, ?_, fun _ => rfl⟩
        · simp [set_flag, hb4, hv]
        · constructor
          · intro _; exact Or.inr (Or.inr ⟨hb4, by omega⟩)
          · intro _; rfl
    · refine ⟨FAILURE, s, ?_, Or.inl rfl, ?_, fun _ => rfl⟩
      · simp [set_flag, hb, hb4]
      · constructor
        · intro _; left; omega
        · intro _; rfl

/-- Witness for C8: bit 1 of the flag `0x05` of router 1 is switched on. -/
theorem set_flag_boolean_bit_witness :
    ∃ s1 r1, set_flag chain_registry 1 1 1 = some (SUCCESS, s1) ∧
      get_router s1 1 = some 0 ∧ deref s1 0 = some r1 ∧
      r1.flag.testBit 1 = decide (1 = 1) ∧
      ∀ i, i ≠ 1 → r1.flag.testBit i = (sample_router 1 [some 1]).flag.testBit i :=
  set_flag_boolean_bit chain_registry 1 0 (sample_router 1 [some 1]) 1 1
    (by decide) (by decide) (by decide) (by decide) (by decide)

/-- Witness for C9: the change number of router 2 is set to 9. -/
theorem set_flag_change_number_witness :
    ∃ s1 r1, set_flag chain_registry 2 4 9 = some (SUCCESS, s1) ∧
      get_router s1 2 = some 1 ∧ deref s1 1 = some r1 ∧
      r1.flag < 256 ∧ r1.flag / 16 = 9 ∧
      r1.flag % 16 = (sample_router 2 [some 2]).flag % 16 :=
  set_flag_change_number chain_registry 2 1 (sample_router 2 [some 2]) 9
    (by decide) (by decide) (by decide)

/-- Witness for C10: `sett_flag 1 4 16` of the scenario. -/
theorem set_flag_rejects_exactly_witness :
    ∃ res s1, set_flag chain_registry 1 4 16 = some (res, s1) ∧
      (res = FAILURE ∨ res = SUCCESS) ∧
      (res = FAILURE ↔
        ((4 : Nat) ≠ 0 ∧ (4 : Nat) ≠ 1 ∧ (4 : Nat) ≠ 2 ∧ (4 : Nat) ≠ 4) ∨
        (((4 : Nat) = 0 ∨ (4 : Nat) = 1 ∨ (4 : Nat) = 2) ∧ (16 : Nat) ≠ 0 ∧ (16 : Nat) ≠ 1) ∨
        ((4 : Nat) = 4 ∧ 15 < (16 : Nat))) ∧
      (res = FAILURE → s1 = chain_registry) :=
  set_flag_rejects_exactly chain_registry 1 0 4 16 (by decide)

/-! ## Removal -/

theorem deref_mem {s : registry} {q : Nat} {r : router} (h : deref s q = some r) :
    some r ∈ s.router_array := by
  rw [deref_eq_some] at h
  exact List.getElem?_mem h

theorem clear_connections_eq {s : registry} {id : Nat} {cs cs1 : List (Option Nat)}
    (h : clear_connections s id cs = some cs1) : cs1 = cs.map (cleared s id) := by
  induction cs generalizing cs1 with
  | nil => simp [clear_connections] at h; simp [h]
  | cons c rest ih =>
    cases c with
    | none =>
      simp only [clear_connections, Option.map_eq_some'] at h
      obtain ⟨cs2, h2, rfl⟩ := h
      simp [cleared, ih h2]
    | some p =>
      simp only [clear_connections] at h
      split at h
      · cases h
      · rename_i t ht
        simp only [Option.map_eq_some'] at h
        obtain ⟨cs2, h2, rfl⟩ := h
        simp [cleared, ht, ih h2]

theorem clear_connections_some (s : registry) (id : Nat) {cs : List (Option Nat)}
    (h : ∀ t, some t ∈ cs → ∃ tr, deref s t = some tr) :
    ∃ cs1, clear_connections s id cs = some cs1 := by
  induction cs with
  | nil => exact ⟨[], rfl⟩
  | cons c rest ih =>
    obtain ⟨cs2, h2⟩ := ih (fun t ht => h t (List.mem_cons_of_mem _ ht))
    cases c with
    | none => exact ⟨none :: cs2, by simp [clear_connections, h2]⟩
    | some p =>
      obtain ⟨tr, htr⟩ := h p (List.mem_cons_self _ _)
      exact ⟨(if tr.routerID = id then none else some p) :: cs2,
        by simp [clear_connections, htr, h2]⟩

theorem clear_all_eq {s : registry} {id : Nat} {slots slots1 : List (Option router)}
    (h : clear_all s id slots = some slots1) :
    slots1 = slots.map (Option.map (fun r =>
      { r with connections := r.connections.map (cleared s id) })) := by
  induction slots generalizing slots1 with
  | nil => simp [clear_all] at h; simp [h]
  | cons o rest ih =>
    cases o with
    | none =>
      simp only [clear_all, Option.map_eq_some'] at h
      obtain ⟨rs, h2, rfl⟩ := h
      simp [ih h2]
    | some r =>
      simp only [clear_all] at h
      split at h
      · cases h
      · rename_i cs hcs
        simp only [Option.map_eq_some'] at h
        obtain ⟨rs, h2, rfl⟩ := h
        simp [ih h2, clear_connections_eq hcs]

theorem clear_all_some (s : registry) (id : Nat) (slots : List (Option router))
    (h : ∀ r, some r ∈ slots → ∀ t, some t ∈ r.connections → ∃ tr, deref s t = some tr) :
    ∃ slots1, clear_all s id slots = some slots1 := by
  induction slots with
  | nil => exact ⟨[], rfl⟩
  | cons o rest ih =>
    obtain ⟨rs, h2⟩ := ih (fun r hr => h r (List.mem_cons_of_mem _ hr))
    cases o with
    | none => exact ⟨none :: rs, by simp [clear_all, h2]⟩
    | some r =>
      obtain ⟨cs, hcs⟩ := clear_connections_some s id (h r (List.mem_cons_self _ _))
      exact ⟨some { r with connections := cs } :: rs, by simp [clear_all, hcs, h2]⟩

theorem release_clear_eq (s : registry) (id : Nat) (slots : List (Option router)) :
    release_slots id (slots.map (Option.map (fun r =>
      { r with connections := r.connections.map (cleared s id) }))) =
    slots.map (removed_slot s id) := by
  unfold release_slots
  rw [List.map_map]
  apply List.map_congr_left
  intro o _
  cases o with
  | none => rfl
  | some r => simp [removed_slot]

/-- The registry a successful `remove_router` leaves. -/
theorem remove_router_eq {s : registry} {id p : Nat} (hlive : get_router s id = some p)
    (hnd : no_dangling s) :
    remove_router s id = some (SUCCESS, removed s id) := by
  obtain ⟨slots1, h1⟩ := clear_all_some s id s.router_array
    (fun r hr t ht => by
      obtain ⟨q, hq⟩ := List.getElem?_of_mem hr
      exact hnd q r (deref_eq_some.mpr hq) t ht)
  have h2 := clear_all_eq h1
  simp only [remove_router, hlive, h1, removed]
  rw [h2, release_clear_eq]

theorem get_router_scan_none {id : Nat} {slots : List (Option router)}
    (h : ∀ r, some r ∈ slots → r.routerID ≠ id) : get_router_scan id slots = none := by
  induction slots with
  | nil => rfl
  | cons o rest ih =>
    have h2 := ih (fun r hr => h r (List.mem_cons_of_mem _ hr))
    cases o with
    | none => simp [get_router_scan, h2]
    | some r =>
      have := h r (List.mem_cons_self _ _)
      simp [get_router_scan, h2, Ne.symm this]

theorem deref_removed {s : registry} {id q : Nat} {r : router}
    (h : deref (removed s id) q = some r) :
    ∃ r0, deref s q = some r0 ∧ r0.routerID ≠ id ∧
      r = { r0 with connections := r0.connections.map (cleared s id) } := by
  rw [deref_eq_some] at h
  simp only [removed, List.getElem?_map, Option.map_eq_some'] at h
  obtain ⟨o, ho, hr⟩ := h
  cases o with
  | none => simp [removed_slot] at hr
  | some r0 =>
    simp only [removed_slot] at hr
    split at hr
    · cases hr
    · rename_i hne
      refine ⟨r0, deref_eq_some.mpr ho, hne, ?_⟩
      cases hr; rfl

theorem deref_removed_of {s : registry} {id q : Nat} {r0 : router}
    (h : deref s q = some r0) (hne : r0.routerID ≠ id) :
    deref (removed s id) q =
      some { r0 with connections := r0.connections.map (cleared s id) } := by
  rw [deref_eq_some] at h ⊢
  simp [removed, List.getElem?_map, h, removed_slot, hne]

theorem mem_cleared {s : registry} {id t : Nat} {cs : List (Option Nat)}
    (h : some t ∈ cs.map (cleared s id)) :
    some t ∈ cs ∧ ∀ tr, deref s t = some tr → tr.routerID ≠ id := by
  simp only [List.mem_map] at h
  obtain ⟨c, hc, hct⟩ := h
  cases c with
  | none => simp [cleared] at hct
  | some p =>
    simp only [cleared] at hct
    split at hct
    · rename_i tr htr
      split at hct
      · cases hct
      · rename_i hne
        cases hct
        exact ⟨hc, fun tr2 h2 => by rw [htr] at h2; cases h2; exact hne⟩
    · rename_i hnone
      cases hct
      exact ⟨hc, fun tr2 h2 => by rw [h2] at hnone; cases hnone⟩


theorem clear_connections_deref {s : registry} {id : Nat} {cs cs1 : List (Option Nat)}
    (h : clear_connections s id cs = some cs1) :
    ∀ t, some t ∈ cs → ∃ tr, deref s t = some tr := by
  induction cs generalizing cs1 with
  | nil => intro t ht; cases ht
  | cons c rest ih =>
    cases c with
    | none =>
      simp only [clear_connections, Option.map_eq_some'] at h
      obtain ⟨cs2, h2, -⟩ := h
      intro t ht
      rcases List.mem_cons.mp ht with h3 | h3
      · cases h3
      · exact ih h2 t h3
    | some p =>
      simp only [clear_connections] at h
      split at h
      · cases h
      · rename_i tr htr
        simp only [Option.map_eq_some'] at h
        obtain ⟨cs2, h2, -⟩ := h
        intro t ht
        rcases List.mem_cons.mp ht with h3 | h3
        · cases h3; exact ⟨tr, htr⟩
        · exact ih h2 t h3

theorem clear_all_deref {s : registry} {id : Nat} {slots slots1 : List (Option router)}
    (h : clear_all s id slots = some slots1) :
    ∀ r, some r ∈ slots → ∀ t, some t ∈ r.connections → ∃ tr, deref s t = some tr := by
  induction slots generalizing slots1 with
  | nil => intro r hr; cases hr
  | cons o rest ih =>
    cases o with
    | none =>
      simp only [clear_all, Option.map_eq_some'] at h
      obtain ⟨rs, h2, -⟩ := h
      intro r hr
      rcases List.mem_cons.mp hr with h3 | h3
      · cases h3
      · exact ih h2 r h3
    | some r0 =>
      simp only [clear_all] at h
      split at h
      · cases h
      · rename_i cs hcs
        simp only [Option.map_eq_some'] at h
        obtain ⟨rs, h2, -⟩ := h
        intro r hr
        rcases List.mem_cons.mp hr with h3 | h3
        · cases h3; exact clear_connections_deref hcs
        · exact ih h2 r h3

/-- A `remove_router` that returns `SUCCESS` met no dangling connection. -/
theorem remove_router_no_dangling {s s1 : registry} {id : Nat}
    (h : remove_router s id = some (SUCCESS, s1)) : no_dangling s := by
  unfold remove_router at h
  split at h
  · cases h
  · split at h
    · cases h
    · rename_i slots hs
      intro q r hq t ht
      exact clear_all_deref hs r (deref_mem hq) t ht

theorem chain_no_dangling : no_dangling chain_registry :=
  @remove_router_no_dangling chain_registry (removed chain_registry 2) 2 (by decide)

/-- C4.  Deletion closure.  For a live id: on a registry without dangling
connections `remove_router` returns `SUCCESS`; and whenever it returns
`SUCCESS`, afterwards `get_router` finds no router with the id and every
outgoing slot of every occupied router points to an occupied router whose id
is another one. -/
theorem remove_router_closure (s : registry) (id p : Nat)
    (hlive : get_router s id = some p) :
    (no_dangling s → ∃ s1, remove_router s id = some (SUCCESS, s1)) ∧
    ∀ s1, remove_router s id = some (SUCCESS, s1) →
      get_router s1 id = none ∧
      ∀ q r, deref s1 q = some r → ∀ t, some t ∈ r.connections →
        ∃ tr, deref s1 t = some tr ∧ tr.routerID ≠ id := by
  refine ⟨fun hnd => ⟨_, remove_router_eq hlive hnd⟩, ?_⟩
  intro s1 h
  have hnd := remove_router_no_dangling h
  rw [remove_router_eq hlive hnd] at h
  simp only [Option.some.injEq, Prod.mk.injEq, true_and] at h
  subst h
  refine ⟨?_, ?_⟩
  · apply get_router_scan_none
    intro r hr
    obtain ⟨q, hq⟩ := List.getElem?_of_mem hr
    obtain ⟨r0, -, hne, rfl⟩ := deref_removed (deref_eq_some.mpr hq)
    exact hne
  · intro q r hr t ht
    obtain ⟨r0, h0, -, rfl⟩ := deref_removed hr
    obtain ⟨hmem, hid⟩ := mem_cleared ht
    obtain ⟨tr, htr⟩ := hnd q r0 h0 t hmem
    exact ⟨_, deref_removed_of htr (hid tr htr), hid tr htr⟩

/-- Witness for C4: router 2 of the chain 1 → 2 → 3 is removed. -/
theorem remove_router_closure_witness :
    (∃ s1, remove_router chain_registry 2 = some (SUCCESS, s1)) ∧
    ∀ s1, remove_router chain_registry 2 = some (SUCCESS, s1) →
      get_router s1 2 = none ∧
      ∀ q r, deref s1 q = some r → ∀ t, some t ∈ r.connections →
        ∃ tr, deref s1 t = some tr ∧ tr.routerID ≠ 2 :=
  ⟨(remove_router_closure chain_registry 2 1 (by decide)).1 chain_no_dangling,
   (remove_router_closure chain_registry 2 1 (by decide)).2⟩

/-! ## Slot ids and the live count -/

theorem list_set_same {α : Type} {l : List α} {p : Nat} {a : α} (h : l[p]? = some a) :
    l.set p a = l := by
  induction l generalizing p with
  | nil => rfl
  | cons x rest ih =>
    cases p with
    | zero => simp at h; simp [h]
    | succ q => simp at h; simp [ih h]

theorem store_slot_ids {s : registry} {p : Nat} {r r1 : router}
    (h : deref s p = some r) (hid : r1.routerID = r.routerID) :
    slot_ids (store s p r1) = slot_ids s := by
  rw [deref_eq_some] at h
  unfold slot_ids store
  simp only [List.map_set]
  apply list_set_same
  simp [h, hid]

theorem set_connection_frame {s s1 : registry} {f t : Option Nat} {res : Int}
    (h : set_connection s f t = some (res, s1)) :
    slot_ids s1 = slot_ids s ∧ s1.N_ROUTERS = s.N_ROUTERS := by
  unfold set_connection at h
  split at h
  · cases h; exact ⟨rfl, rfl⟩
  · split at h
    · cases h
    · rename_i p rr hrr
      split at h
      · cases h; exact ⟨rfl, rfl⟩
      · cases h
        exact ⟨store_slot_ids hrr rfl, rfl⟩

theorem add_connection_frame {s s1 : registry} {a b : Nat} {res : Int}
    (h : add_connection s a b = some (res, s1)) :
    slot_ids s1 = slot_ids s ∧ s1.N_ROUTERS = s.N_ROUTERS := by
  unfold add_connection at h
  simp only at h
  split at h
  · cases h
  · split at h
    · cases h
    · rename_i r2 s2 h2
      cases h
      exact set_connection_frame h2
  · cases h; exact ⟨rfl, rfl⟩

theorem assign_flag_frame {s s1 : registry} {r : Option Nat} {f : Nat → Option Nat}
    (h : assign_flag s r f = some s1) :
    slot_ids s1 = slot_ids s ∧ s1.N_ROUTERS = s.N_ROUTERS := by
  unfold assign_flag at h
  split at h
  · cases h
  · split at h
    · cases h
    · rename_i p rr hrr
      split at h
      · cases h
      · cases h
        exact ⟨store_slot_ids hrr rfl, rfl⟩

theorem set_flag_frame {s s1 : registry} {id b v : Nat} {res : Int}
    (h : set_flag s id b v = some (res, s1)) :
    slot_ids s1 = slot_ids s ∧ s1.N_ROUTERS = s.N_ROUTERS := by
  unfold set_flag at h
  simp only at h
  split_ifs at h <;>
    first
    | (cases h; exact ⟨rfl, rfl⟩)
    | (simp only [Option.map_eq_some'] at h
       obtain ⟨s2, h2, h3⟩ := h
       cases h3
       exact assign_flag_frame h2)

theorem set_model_frame {s s1 : registry} {id : Nat} {name : List Nat} {res : Int}
    (h : set_model s id name = some (res, s1)) :
    slot_ids s1 = slot_ids s ∧ s1.N_ROUTERS = s.N_ROUTERS := by
  unfold set_model at h
  split at h
  · cases h
  · split at h
    · cases h
    · rename_i p rr hrr
      cases h
      exact ⟨store_slot_ids hrr rfl, rfl⟩

theorem slot_ids_removed (s : registry) (id : Nat) :
    slot_ids (removed s id) =
      (slot_ids s).map (fun o => if o = some id then none else o) := by
  unfold slot_ids removed
  simp only [List.map_map]
  apply List.map_congr_left
  intro o _
  cases o with
  | none => simp [removed_slot]
  | some r =>
    by_cases h : r.routerID = id
    · simp [removed_slot, h]
    · simp [removed_slot, h]

theorem filterMap_remove_id (l : List (Option Nat)) (id : Nat) :
    (l.map (fun o => if o = some id then none else o)).filterMap (fun x => x) =
      (l.filterMap (fun x => x)).filter (fun x => x != id) := by
  induction l with
  | nil => rfl
  | cons o rest ih =>
    cases o with
    | none => simpa using ih
    | some a =>
      by_cases h : a = id
      · subst h; simpa using ih
      · simp [h, List.filterMap_cons, List.filter_cons]
        simpa using ih

theorem get_router_scan_mem {id p : Nat} {slots : List (Option router)}
    (h : get_router_scan id slots = some p) :
    id ∈ (slots.map (Option.map router.routerID)).filterMap (fun x => x) := by
  obtain ⟨r, hr, hid⟩ := get_router_scan_some h
  simp only [List.mem_filterMap, List.mem_map]
  exact ⟨some id, ⟨some r, List.getElem?_mem hr, by simp [hid]⟩, rfl⟩

theorem remove_router_count {s s1 : registry} {id : Nat}
    (h : remove_router s id = some (SUCCESS, s1)) (hu : unique_ids s) :
    s1.N_ROUTERS = s.N_ROUTERS - 1 ∧ live_count s1 + 1 = live_count s ∧ unique_ids s1 := by
  have hnd := remove_router_no_dangling h
  cases hg : get_router s id with
  | none => simp [remove_router, hg, SUCCESS, FAILURE] at h
  | some p =>
    rw [remove_router_eq hg hnd] at h
    simp only [Option.some.injEq, Prod.mk.injEq, true_and] at h
    subst h
    have hmem : id ∈ live_ids s := get_router_scan_mem hg
    have hl : live_ids (removed s id) = (live_ids s).filter (fun x => x != id) := by
      unfold live_ids
      rw [slot_ids_removed]
      exact filterMap_remove_id _ _
    refine ⟨rfl, ?_, ?_⟩
    · unfold live_count
      rw [hl, ← List.Nodup.erase_eq_filter hu, List.length_erase_of_mem hmem]
      have : 0 < (live_ids s).length := List.length_pos_of_mem hmem
      omega
    · unfold unique_ids
      rw [hl]
      exact List.Nodup.filter _ hu

theorem remove_router_failure {s s1 : registry} {id : Nat} {res : Int}
    (h : remove_router s id = some (res, s1)) (hres : res ≠ SUCCESS) : s1 = s := by
  unfold remove_router at h
  split at h
  · cases h; rfl
  · split at h
    · cases h
    · cases h; exact absurd rfl hres

/-! ## The tests of `run_command` -/

theorem line_text_data (line : command_line) :
    (line_text line).data = List.replicate line.leading ' ' ++ (line.command.getD "").data := by
  simp [line_text]

/-- When `line` reads as a text that does not begin with a blank, no blank
stands before the first token and the first token is that text. -/
theorem line_text_eq {line : command_line} {x : String}
    (hx : ∀ cs, x.data ≠ ' ' :: cs) (hne : x ≠ "") (h : line_text line = x) :
    line.leading = 0 ∧ line.command = some x := by
  have hd := line_text_data line
  rw [h] at hd
  have h0 : line.leading = 0 := by
    cases hl : line.leading with
    | zero => rfl
    | succ k =>
      rw [hl, List.replicate_succ, List.cons_append] at hd
      exact absurd hd (hx _)
  refine ⟨h0, ?_⟩
  rw [h0] at hd
  simp only [List.replicate_zero, List.nil_append] at hd
  cases hc : line.command with
  | none =>
    rw [hc] at hd
    exfalso
    apply hne
    apply String.ext
    rw [hd]; rfl
  | some c =>
    rw [hc] at hd
    simp only [Option.getD_some] at hd
    rw [String.ext hd]

theorem line_text_of_leading_zero {line : command_line} {c : String}
    (h0 : line.leading = 0) (hc : line.command = some c) : line_text line = c := by
  apply String.ext
  rw [line_text_data, h0, hc]
  simp

theorem line_command_vocabulary {line : command_line} {k : String}
    (h : line_command line = some k) : in_vocabulary k := by
  unfold line_command at h
  unfold in_vocabulary
  cases hc : line.command with
  | none => rw [hc] at h; cases h
  | some c =>
    rw [hc] at h
    dsimp only at h
    by_cases c0 : c = "print"
    · rw [if_pos c0] at h; cases h; simp
    rw [if_neg c0] at h
    by_cases c1 : c = "sett_flag"
    · rw [if_pos c1] at h; cases h; simp
    rw [if_neg c1] at h
    by_cases c2 : line_text line = "sett_modell"
    · rw [if_pos c2] at h; cases h; simp
    rw [if_neg c2] at h
    by_cases c3 : line_text line = "legg_til_kobling"
    · rw [if_pos c3] at h; cases h; simp
    rw [if_neg c3] at h
    by_cases c4 : line_text line = "slett_router"
    · rw [if_pos c4] at h; cases h; simp
    rw [if_neg c4] at h
    by_cases c5 : line_text line = "finnes_rute"
    · rw [if_pos c5] at h; cases h; simp
    rw [if_neg c5] at h
    cases h

theorem run_command_none {s : registry} {line : command_line}
    (h : line_command line = none) : run_command s line = some (CRITICAL_FAILURE, s) := by
  unfold line_command at h
  unfold run_command
  cases hc : line.command with
  | none => rfl
  | some c =>
    rw [hc] at h
    dsimp only at h ⊢
    by_cases c0 : c = "print"
    · rw [if_pos c0] at h; cases h
    rw [if_neg c0] at h ⊢
    by_cases c1 : c = "sett_flag"
    · rw [if_pos c1] at h; cases h
    rw [if_neg c1] at h ⊢
    by_cases c2 : line_text line = "sett_modell"
    · rw [if_pos c2] at h; cases h
    rw [if_neg c2] at h ⊢
    by_cases c3 : line_text line = "legg_til_kobling"
    · rw [if_pos c3] at h; cases h
    rw [if_neg c3] at h ⊢
    by_cases c4 : line_text line = "slett_router"
    · rw [if_pos c4] at h; cases h
    rw [if_neg c4] at h ⊢
    by_cases c5 : line_text line = "finnes_rute"
    · rw [if_pos c5] at h; cases h
    rw [if_neg c5] at h ⊢

theorem run_command_print {s : registry} {line : command_line}
    (h : line_command line = some "print") :
    run_command s line =
      if (get_router s (to_uint line.arg1)).isNone then command_result (some (FAILURE, s))
      else command_result
        ((print_router_data s (get_router s (to_uint line.arg1))).map
          (fun _ => (SUCCESS, s))) := by
  unfold line_command at h
  unfold run_command
  cases hc : line.command with
  | none => rw [hc] at h; cases h
  | some c =>
    rw [hc] at h
    dsimp only at h ⊢
    by_cases c0 : c = "print"
    · rw [if_pos c0]
    rw [if_neg c0] at h
    by_cases c1 : c = "sett_flag"
    · rw [if_pos c1] at h; exact absurd h (by decide)
    rw [if_neg c1] at h
    by_cases c2 : line_text line = "sett_modell"
    · rw [if_pos c2] at h; exact absurd h (by decide)
    rw [if_neg c2] at h
    by_cases c3 : line_text line = "legg_til_kobling"
    · rw [if_pos c3] at h; exact absurd h (by decide)
    rw [if_neg c3] at h
    by_cases c4 : line_text line = "slett_router"
    · rw [if_pos c4] at h; exact absurd h (by decide)
    rw [if_neg c4] at h
    by_cases c5 : line_text line = "finnes_rute"
    · rw [if_pos c5] at h; exact absurd h (by decide)
    rw [if_neg c5] at h
    cases h

theorem run_command_sett_flag {s : registry} {line : command_line}
    (h : line_command line = some "sett_flag") :
    run_command s line =
      if (get_router s (to_uint line.arg1)).isNone then command_result (some (FAILURE, s))
      else command_result
        (set_flag s (to_uint line.arg1) (to_uchar line.arg2) (to_uchar line.arg3)) := by
  unfold line_command at h
  unfold run_command
  cases hc : line.command with
  | none => rw [hc] at h; cases h
  | some c =>
    rw [hc] at h
    dsimp only at h ⊢
    by_cases c0 : c = "print"
    · rw [if_pos c0] at h; exact absurd h (by decide)
    rw [if_neg c0] at h ⊢
    by_cases c1 : c = "sett_flag"
    · rw [if_pos c1]
    rw [if_neg c1] at h
    by_cases c2 : line_text line = "sett_modell"
    · rw [if_pos c2] at h; exact absurd h (by decide)
    rw [if_neg c2] at h
    by_cases c3 : line_text line = "legg_til_kobling"
    · rw [if_pos c3] at h; exact absurd h (by decide)
    rw [if_neg c3] at h
    by_cases c4 : line_text line = "slett_router"
    · rw [if_pos c4] at h; exact absurd h (by decide)
    rw [if_neg c4] at h
    by_cases c5 : line_text line = "finnes_rute"
    · rw [if_pos c5] at h; exact absurd h (by decide)
    rw [if_neg c5] at h
    cases h

theorem run_command_sett_modell {s : registry} {line : command_line}
    (h : line_command line = some "sett_modell") :
    run_command s line =
      if (get_router s (to_uint line.arg1)).isNone then command_result (some (FAILURE, s))
      else command_result (set_model s (to_uint line.arg1) line.desc) := by
  unfold line_command at h
  unfold run_command
  cases hc : line.command with
  | none => rw [hc] at h; cases h
  | some c =>
    rw [hc] at h
    dsimp only at h ⊢
    by_cases c0 : c = "print"
    · rw [if_pos c0] at h; exact absurd h (by decide)
    rw [if_neg c0] at h ⊢
    by_cases c1 : c = "sett_flag"
    · rw [if_pos c1] at h; exact absurd h (by decide)
    rw [if_neg c1] at h ⊢
    by_cases c2 : line_text line = "sett_modell"
    · rw [if_pos c2]
    rw [if_neg c2] at h
    by_cases c3 : line_text line = "legg_til_kobling"
    · rw [if_pos c3] at h; exact absurd h (by decide)
    rw [if_neg c3] at h
    by_cases c4 : line_text line = "slett_router"
    · rw [if_pos c4] at h; exact absurd h (by decide)
    rw [if_neg c4] at h
    by_cases c5 : line_text line = "finnes_rute"
    · rw [if_pos c5] at h; exact absurd h (by decide)
    rw [if_neg c5] at h
    cases h

theorem run_command_legg_til_kobling {s : registry} {line : command_line}
    (h : line_command line = some "legg_til_kobling") :
    run_command s line =
      if (get_router s (to_uint line.arg1)).isNone then command_result (some (FAILURE, s))
      else if (get_router s (to_uint line.arg2)).isNone then
        command_result (some (FAILURE, s))
      else command_result (add_connection s (to_uint line.arg1) (to_uint line.arg2)) := by
  unfold line_command at h
  unfold run_command
  cases hc : line.command with
  | none => rw [hc] at h; cases h
  | some c =>
    rw [hc] at h
    dsimp only at h ⊢
    by_cases c0 : c = "print"
    · rw [if_pos c0] at h; exact absurd h (by decide)
    rw [if_neg c0] at h ⊢
    by_cases c1 : c = "sett_flag"
    · rw [if_pos c1] at h; exact absurd h (by decide)
    rw [if_neg c1] at h ⊢
    by_cases c2 : line_text line = "sett_modell"
    · rw [if_pos c2] at h; exact absurd h (by decide)
    rw [if_neg c2] at h ⊢
    by_cases c3 : line_text line = "legg_til_kobling"
    · rw [if_pos c3]
    rw [if_neg c3] at h
    by_cases c4 : line_text line = "slett_router"
    · rw [if_pos c4] at h; exact absurd h (by decide)
    rw [if_neg c4] at h
    by_cases c5 : line_text line = "finnes_rute"
    · rw [if_pos c5] at h; exact absurd h (by decide)
    rw [if_neg c5] at h
    cases h

theorem run_command_slett_router {s : registry} {line : command_line}
    (h : line_command line = some "slett_router") :
    run_command s line =
      if (get_router s (to_uint line.arg1)).isNone then command_result (some (FAILURE, s))
      else command_result (remove_router s (to_uint line.arg1)) := by
  unfold line_command at h
  unfold run_command
  cases hc : line.command with
  | none => rw [hc] at h; cases h
  | some c =>
    rw [hc] at h
    dsimp only at h ⊢
    by_cases c0 : c = "print"
    · rw [if_pos c0] at h; exact absurd h (by decide)
    rw [if_neg c0] at h ⊢
    by_cases c1 : c = "sett_flag"
    · rw [if_pos c1] at h; exact absurd h (by decide)
    rw [if_neg c1] at h ⊢
    by_cases c2 : line_text line = "sett_modell"
    · rw [if_pos c2] at h; exact absurd h (by decide)
    rw [if_neg c2] at h ⊢
    by_cases c3 : line_text line = "legg_til_kobling"
    · rw [if_pos c3] at h; exact absurd h (by decide)
    rw [if_neg c3] at h ⊢
    by_cases c4 : line_text line = "slett_router"
    · rw [if_pos c4]
    rw [if_neg c4] at h
    by_cases c5 : line_text line = "finnes_rute"
    · rw [if_pos c5] at h; exact absurd h (by decide)
    rw [if_neg c5] at h
    cases h

theorem run_command_finnes_rute {s : registry} {line : command_line}
    (h : line_command line = some "finnes_rute") :
    run_command s line =
      if (get_router s (to_uint line.arg1)).isNone then command_result (some (FAILURE, s))
      else if (get_router s (to_uint line.arg2)).isNone then
        command_result (some (FAILURE, s))
      else command_result
        ((exists_path s (to_uint line.arg1) (to_uint line.arg2)).map (fun x => (x.1, s))) := by
  unfold line_command at h
  unfold run_command
  cases hc : line.command with
  | none => rw [hc] at h; cases h
  | some c =>
    rw [hc] at h
    dsimp only at h ⊢
    by_cases c0 : c = "print"
    · rw [if_pos c0] at h; exact absurd h (by decide)
    rw [if_neg c0] at h ⊢
    by_cases c1 : c = "sett_flag"
    · rw [if_pos c1] at h; exact absurd h (by decide)
    rw [if_neg c1] at h ⊢
    by_cases c2 : line_text line = "sett_modell"
    · rw [if_pos c2] at h; exact absurd h (by decide)
    rw [if_neg c2] at h ⊢
    by_cases c3 : line_text line = "legg_til_kobling"
    · rw [if_pos c3] at h; exact absurd h (by decide)
    rw [if_neg c3] at h ⊢
    by_cases c4 : line_text line = "slett_router"
    · rw [if_pos c4] at h; exact absurd h (by decide)
    rw [if_neg c4] at h ⊢
    by_cases c5 : line_text line = "finnes_rute"
    · rw [if_pos c5]
    rw [if_neg c5] at h
    cases h


theorem line_command_of_token {line : command_line} {c : String}
    (h0 : line.leading = 0) (hc : line.command = some c) (hv : in_vocabulary c) :
    line_command line = some c := by
  have ht := line_text_of_leading_zero h0 hc
  unfold line_command
  rw [hc]
  dsimp only
  rw [ht]
  rcases hv with h | h | h | h | h | h <;> (subst h; decide)

theorem not_blank_first (x : String) (c : Char) (cs : List Char) (hx : x.data = c :: cs)
    (hc : c ≠ ' ') : ∀ ds, x.data ≠ ' ' :: ds := by
  intro ds h
  rw [hx] at h
  injection h with h1 _
  exact hc h1

theorem line_command_unknown {line : command_line}
    (h : ∀ c, line.command = some c → ¬ in_vocabulary c) : line_command line = none := by
  unfold line_command
  cases hc : line.command with
  | none => rfl
  | some c =>
    have hv := h c hc
    unfold in_vocabulary at hv
    dsimp only
    rw [if_neg (fun e => hv (Or.inl e)), if_neg (fun e => hv (Or.inr (Or.inl e)))]
    have h2 : ¬ line_text line = "sett_modell" := by
      intro e
      have := (line_text_eq (not_blank_first _ 's' _ rfl (by decide)) (by decide) e).2
      rw [hc] at this
      exact hv (Or.inr (Or.inr (Or.inl (Option.some.inj this))))
    have h3 : ¬ line_text line = "legg_til_kobling" := by
      intro e
      have := (line_text_eq (not_blank_first _ 'l' _ rfl (by decide)) (by decide) e).2
      rw [hc] at this
      exact hv (Or.inr (Or.inr (Or.inr (Or.inl (Option.some.inj this)))))
    have h4 : ¬ line_text line = "slett_router" := by
      intro e
      have := (line_text_eq (not_blank_first _ 's' _ rfl (by decide)) (by decide) e).2
      rw [hc] at this
      exact hv (Or.inr (Or.inr (Or.inr (Or.inr (Or.inl (Option.some.inj this))))))
    have h5 : ¬ line_text line = "finnes_rute" := by
      intro e
      have := (line_text_eq (not_blank_first _ 'f' _ rfl (by decide)) (by decide) e).2
      rw [hc] at this
      exact hv (Or.inr (Or.inr (Or.inr (Or.inr (Or.inr (Option.some.inj this))))))
    rw [if_neg h2, if_neg h3, if_neg h4, if_neg h5]

/-! ## The live count after loading and under commands -/

theorem create_all_routers_slots {n : Nat} {fh fh2 : FILE} {slots : List (Option router)}
    (h : create_all_routers n fh = some (slots, fh2)) :
    slots.length = n ∧ ∀ o ∈ slots, ∃ r, o = some r := by
  induction n generalizing fh slots with
  | zero =>
    simp [create_all_routers] at h
    obtain ⟨rfl, -⟩ := h
    simp
  | succ n ih =>
    simp only [create_all_routers] at h
    split at h
    · cases h
    · rename_i r fh1 hr
      simp only [Option.map_eq_some'] at h
      obtain ⟨⟨rs, fh3⟩, h1, h2⟩ := h
      cases h2
      obtain ⟨hl, hall⟩ := ih h1
      refine ⟨by simp [hl], ?_⟩
      intro o ho
      rcases List.mem_cons.mp ho with h3 | h3
      · exact ⟨r, h3⟩
      · exact hall o h3

theorem live_count_all_occupied {slots : List (Option router)} {n : Int}
    (h : ∀ o ∈ slots, ∃ r, o = some r) :
    live_count { router_array := slots, N_ROUTERS := n } = slots.length := by
  unfold live_count live_ids slot_ids
  simp only
  induction slots with
  | nil => rfl
  | cons o rest ih =>
    obtain ⟨r, rfl⟩ := h o (List.mem_cons_self _ _)
    have := ih (fun o ho => h o (List.mem_cons_of_mem _ ho))
    simp only [List.map_cons, Option.map_some', List.filterMap_cons, id, List.length_cons]
    exact congrArg (· + 1) this

theorem set_all_connections_turn_frame {s s1 : registry} {fh fh1 : FILE}
    (h : set_all_connections_turn s fh = some (Sum.inr (s1, fh1))) :
    slot_ids s1 = slot_ids s ∧ s1.N_ROUTERS = s.N_ROUTERS := by
  unfold set_all_connections_turn at h
  generalize get_num_from_stream fh = g1 at h
  obtain ⟨res1, fromID, fh2⟩ := g1
  dsimp only at h
  by_cases c1 : res1 ≠ SUCCESS
  · rw [if_pos c1] at h
    split_ifs at h <;> cases h
  rw [if_neg c1] at h
  generalize get_num_from_stream fh2 = g2 at h
  obtain ⟨res2, toID, fh3⟩ := g2
  dsimp only at h
  by_cases c2 : res2 ≠ SUCCESS
  · rw [if_pos c2] at h
    split_ifs at h <;> cases h
  rw [if_neg c2] at h
  split at h
  · split at h
    · cases h
    · rename_i r2 s2 h2
      have hf := set_connection_frame h2
      generalize fgetc (fgetc fh3).2 = g3 at h
      obtain ⟨c, fh4⟩ := g3
      dsimp only at h
      split_ifs at h
      · split at h <;> (cases h; exact hf)
      · cases h; exact hf
  · cases h

theorem set_all_connections_loop_frame {fuel : Nat} {s s1 : registry} {fh : FILE} {res : Int}
    (h : set_all_connections_loop fuel s fh = some (res, s1)) :
    slot_ids s1 = slot_ids s ∧ s1.N_ROUTERS = s.N_ROUTERS := by
  induction fuel generalizing s fh with
  | zero => simp [set_all_connections_loop] at h
  | succ fuel ih =>
    rw [set_all_connections_loop] at h
    split_ifs at h
    · cases h; exact ⟨rfl, rfl⟩
    · split at h
      · cases h
      · cases h; exact ⟨rfl, rfl⟩
      · rename_i s2 fh2 h2
        obtain ⟨e1, e2⟩ := set_all_connections_turn_frame h2
        obtain ⟨e3, e4⟩ := ih h
        exact ⟨e3.trans e1, e4.trans e2⟩

theorem load_live_count {bytes : List Nat} {res : Int} {s0 : registry}
    (h : load bytes = some (res, s0)) (hN : 0 ≤ s0.N_ROUTERS) :
    s0.N_ROUTERS = live_count s0 := by
  unfold load at h
  simp only at h
  split_ifs at h
  split at h
  · cases h
  · rename_i slots fh2 hc
    obtain ⟨hl, hall⟩ := create_all_routers_slots hc
    have hlc := live_count_all_occupied
      (n := int_of_bytes (fread 4 { data := bytes, eof := false }).1) hall
    unfold set_all_connections at h
    split_ifs at h
    · cases h
      rw [hlc, hl]
      dsimp only at hN ⊢
      omega
    · obtain ⟨e1, e2⟩ := set_all_connections_loop_frame h
      rw [e2] at hN ⊢
      dsimp only at hN ⊢
      have : live_count s0 = slots.length := by
        rw [← hlc]
        unfold live_count live_ids
        rw [e1]
      rw [this, hl]
      omega

theorem command_result_eq {r : Option (Int × registry)} {res : Int} {s1 : registry}
    (h : command_result r = some (res, s1)) :
    ∃ res0, r = some (res0, s1) ∧ (res = SUCCESS ↔ res0 = SUCCESS) ∧
      (res = SUCCESS ∨ res = FAILURE) := by
  unfold command_result at h
  simp only [Option.map_eq_some'] at h
  obtain ⟨⟨res0, s2⟩, h1, h2⟩ := h
  dsimp only at h2
  split_ifs at h2 with c
  · cases h2
    refine ⟨res0, h1, ?_, Or.inr rfl⟩
    simp only [SUCCESS, FAILURE]
    constructor
    · intro h3; cases h3
    · intro h3; exact absurd h3 c
  · cases h2
    refine ⟨res0, h1, ?_, Or.inl rfl⟩
    simp only [SUCCESS]
    constructor
    · intro _; exact not_not.mp c
    · intro _; trivial

theorem command_result_failure (s : registry) :
    command_result (some (FAILURE, s)) = some (FAILURE, s) := by
  simp [command_result, FAILURE]

theorem run_command_frame {s s1 : registry} {line : command_line} {res : Int}
    (h : run_command s line = some (res, s1)) :
    (line_command line = some "slett_router" ∧ res = SUCCESS ∧
      remove_router s (to_uint line.arg1) = some (SUCCESS, s1)) ∨
    (¬ (line_command line = some "slett_router" ∧ res = SUCCESS) ∧
      slot_ids s1 = slot_ids s ∧ s1.N_ROUTERS = s.N_ROUTERS) := by
  cases hk : line_command line with
  | none =>
    rw [run_command_none hk] at h
    cases h
    exact Or.inr ⟨fun hc => (by cases hc.1), rfl, rfl⟩
  | some k =>
    rcases line_command_vocabulary hk with e | e | e | e | e | e
    · subst e
      rw [run_command_print hk] at h
      right
      refine ⟨fun hc => absurd hc.1 (by decide), ?_⟩
      split_ifs at h
      · obtain ⟨res0, h1, -⟩ := command_result_eq h
        cases h1; exact ⟨rfl, rfl⟩
      · obtain ⟨res0, h1, -⟩ := command_result_eq h
        simp only [Option.map_eq_some'] at h1
        obtain ⟨_, -, h2⟩ := h1
        cases h2; exact ⟨rfl, rfl⟩
    · subst e
      rw [run_command_sett_flag hk] at h
      right
      refine ⟨fun hc => absurd hc.1 (by decide), ?_⟩
      split_ifs at h
      · obtain ⟨res0, h1, -⟩ := command_result_eq h
        cases h1; exact ⟨rfl, rfl⟩
      · obtain ⟨res0, h1, -⟩ := command_result_eq h
        exact set_flag_frame h1
    · subst e
      rw [run_command_sett_modell hk] at h
      right
      refine ⟨fun hc => absurd hc.1 (by decide), ?_⟩
      split_ifs at h
      · obtain ⟨res0, h1, -⟩ := command_result_eq h
        cases h1; exact ⟨rfl, rfl⟩
      · obtain ⟨res0, h1, -⟩ := command_result_eq h
        exact set_model_frame h1
    · subst e
      rw [run_command_legg_til_kobling hk] at h
      right
      refine ⟨fun hc => absurd hc.1 (by decide), ?_⟩
      split_ifs at h
      · obtain ⟨res0, h1, -⟩ := command_result_eq h
        cases h1; exact ⟨rfl, rfl⟩
      · obtain ⟨res0, h1, -⟩ := command_result_eq h
        cases h1; exact ⟨rfl, rfl⟩
      · obtain ⟨res0, h1, -⟩ := command_result_eq h
        exact add_connection_frame h1
    · subst e
      rw [run_command_slett_router hk] at h
      split_ifs at h
      · obtain ⟨res0, h1, h2, -⟩ := command_result_eq h
        cases h1
        right
        refine ⟨fun hc => ?_, rfl, rfl⟩
        have := h2.mp hc.2
        simp [SUCCESS, FAILURE] at this
      · obtain ⟨res0, h1, h2, -⟩ := command_result_eq h
        by_cases hres : res0 = SUCCESS
        · left
          subst hres
          exact ⟨rfl, h2.mpr rfl, h1⟩
        · right
          have := remove_router_failure h1 hres
          subst this
          exact ⟨fun hc => hres (h2.mp hc.2), rfl, rfl⟩
    · subst e
      rw [run_command_finnes_rute hk] at h
      right
      refine ⟨fun hc => absurd hc.1 (by decide), ?_⟩
      split_ifs at h
      · obtain ⟨res0, h1, -⟩ := command_result_eq h
        cases h1; exact ⟨rfl, rfl⟩
      · obtain ⟨res0, h1, -⟩ := command_result_eq h
        cases h1; exact ⟨rfl, rfl⟩
      · obtain ⟨res0, h1, -⟩ := command_result_eq h
        simp only [Option.map_eq_some'] at h1
        obtain ⟨_, -, h2⟩ := h1
        cases h2; exact ⟨rfl, rfl⟩

theorem live_ids_of_slot_ids {s s1 : registry} (h : slot_ids s1 = slot_ids s) :
    live_ids s1 = live_ids s := by
  unfold live_ids; rw [h]

/-- The live-count invariant is kept by every command. -/
theorem run_command_live_count {s s1 : registry} {line : command_line} {res : Int}
    (h : run_command s line = some (res, s1))
    (hinv : s.N_ROUTERS = live_count s) (hu : unique_ids s) :
    s1.N_ROUTERS = live_count s1 ∧ unique_ids s1 := by
  rcases run_command_frame h with ⟨-, -, hrem⟩ | ⟨-, hids, hn⟩
  · obtain ⟨e1, e2, e3⟩ := remove_router_count hrem hu
    refine ⟨?_, e3⟩
    rw [e1, hinv]
    omega
  · have hl := live_ids_of_slot_ids hids
    refine ⟨?_, ?_⟩
    · rw [hn, hinv]; unfold live_count; rw [hl]
    · unfold unique_ids; rw [hl]; exact hu

theorem reachable_live_count {s0 s : registry} (hreach : reachable s0 s)
    (hinv : s0.N_ROUTERS = live_count s0) (hu : unique_ids s0) :
    s.N_ROUTERS = live_count s ∧ unique_ids s := by
  induction hreach with
  | start => exact ⟨hinv, hu⟩
  | step _ hstep ih => exact run_command_live_count hstep ih.1 ih.2

/-- C5 (amended).  Live-count invariant.  In every registry reached by a
sequence of commands from a load whose count field is not negative as an
`int` and whose router ids are unique, `N_ROUTERS` is the number of occupied
slots.  From such a registry each command again gives one; a `slett_router`
that succeeds lowers `N_ROUTERS` by exactly 1 and every other command leaves
it unchanged; a `remove_router` that returns `SUCCESS` lowers `N_ROUTERS` and
the number of occupied slots by exactly 1, and one that does not leaves the
registry as it is. -/
theorem live_count_invariant (bytes : List Nat) (res0 : Int) (s0 s : registry)
    (hload : load bytes = some (res0, s0)) (hN : 0 ≤ s0.N_ROUTERS)
    (hu : unique_ids s0) (hreach : reachable s0 s) :
    s.N_ROUTERS = live_count s ∧
    (∀ line res s1, run_command s line = some (res, s1) →
      s1.N_ROUTERS = live_count s1 ∧
      (line_command line = some "slett_router" ∧ res = SUCCESS → s1.N_ROUTERS = s.N_ROUTERS - 1) ∧
      (¬ (line_command line = some "slett_router" ∧ res = SUCCESS) → s1.N_ROUTERS = s.N_ROUTERS)) ∧
    (∀ id s1, remove_router s id = some (SUCCESS, s1) →
      s1.N_ROUTERS = s.N_ROUTERS - 1 ∧ live_count s1 + 1 = live_count s) ∧
    (∀ id res s1, remove_router s id = some (res, s1) → res ≠ SUCCESS → s1 = s) := by
  obtain ⟨hinv, hus⟩ := reachable_live_count hreach (load_live_count hload hN) hu
  refine ⟨hinv, ?_, ?_, ?_⟩
  · intro line res s1 h
    refine ⟨(run_command_live_count h hinv hus).1, ?_, ?_⟩
    · intro hc
      rcases run_command_frame h with ⟨-, -, hrem⟩ | ⟨hn, -, -⟩
      · exact (remove_router_count hrem hus).1
      · exact absurd hc hn
    · intro hc
      rcases run_command_frame h with ⟨h1, h2, -⟩ | ⟨-, -, hn⟩
      · exact absurd ⟨h1, h2⟩ hc
      · exact hn
  · intro id s1 h
    obtain ⟨e1, e2, -⟩ := remove_router_count h hus
    exact ⟨e1, e2⟩
  · intro id res s1 h hres
    exact remove_router_failure h hres

theorem load_chain_file : load chain_file = some (SUCCESS, chain_registry) := by decide

/-- Witness for C5: the chain file is loaded and `slett_router 2` is run. -/
theorem live_count_invariant_witness :
    (removed chain_registry 2).N_ROUTERS = live_count (removed chain_registry 2) ∧
    (∀ line res s1, run_command (removed chain_registry 2) line = some (res, s1) →
      s1.N_ROUTERS = live_count s1 ∧
      (line_command line = some "slett_router" ∧ res = SUCCESS →
        s1.N_ROUTERS = (removed chain_registry 2).N_ROUTERS - 1) ∧
      (¬ (line_command line = some "slett_router" ∧ res = SUCCESS) →
        s1.N_ROUTERS = (removed chain_registry 2).N_ROUTERS)) ∧
    (∀ id s1, remove_router (removed chain_registry 2) id = some (SUCCESS, s1) →
      s1.N_ROUTERS = (removed chain_registry 2).N_ROUTERS - 1 ∧
      live_count s1 + 1 = live_count (removed chain_registry 2)) ∧
    (∀ id res s1, remove_router (removed chain_registry 2) id = some (res, s1) →
      res ≠ SUCCESS → s1 = removed chain_registry 2) :=
  live_count_invariant chain_file SUCCESS chain_registry (removed chain_registry 2)
    load_chain_file (by decide) (by decide)
    (@reachable.step chain_registry chain_registry (removed chain_registry 2)
      ⟨0, some "slett_router", 2, 0, 0, []⟩ SUCCESS reachable.start (by decide))

/-- Counterexample for C5 as stated: the file that holds only the count field
`ff ff ff ff` is loaded without a failure; the count is -1 as an `int`, so
`N_ROUTERS` is -1 while no slot is occupied. -/
theorem live_count_negative_count :
    load [255, 255, 255, 255] = some (SUCCESS, { router_array := [], N_ROUTERS := -1 }) ∧
    unique_ids { router_array := [], N_ROUTERS := -1 } ∧
    (-1 : Int) ≠ live_count { router_array := [], N_ROUTERS := -1 } := by
  refine ⟨by decide, by decide, by decide⟩

/-! ## The eleventh connection and the length of a new description -/

/-- C6.  From a router without connections the first ten `add_connection`
calls to distinct live targets return `SUCCESS` and fill the ten outgoing
slots.  The eleventh call finds no free slot: `set_connection` returns
`FAILURE`, yet `add_connection` returns `SUCCESS`; the registry is unchanged
and the eleventh target is not connected. -/
theorem add_connection_eleventh_returns_success :
    add_connections 1 star_registry [2, 3, 4, 5, 6, 7, 8, 9, 10, 11] =
      some (List.replicate 10 SUCCESS, full_registry) ∧
    set_connection full_registry (get_router full_registry 1) (get_router full_registry 12) =
      some (FAILURE, full_registry) ∧
    add_connection full_registry 1 12 = some (SUCCESS, full_registry) ∧
    is_connected full_registry (get_router full_registry 1) 12 = some false := by
  refine ⟨by decide, by decide, by decide, by decide⟩

set_option maxRecDepth 20000 in
/-- C7.  `set_model` with a new description of 249 bytes copies 248 bytes and
records the length 249, which is not `min 248 249`; `write_to_file` then
reads past the end of `description`. -/
theorem set_model_length_not_clamped :
    ∃ s1 r1, set_model chain_registry 1 (List.replicate 249 97) = some (SUCCESS, s1) ∧
      run_command chain_registry
        { leading := 0, command := some "sett_modell", arg1 := 1, arg2 := 0, arg3 := 0,
          desc := List.replicate 249 97 } = some (SUCCESS, s1) ∧
      deref s1 0 = some r1 ∧ r1.desc_len = 249 ∧ r1.description.length = 248 ∧
      r1.desc_len ≠ min 248 (List.replicate 249 97).length ∧
      write_to_file s1 = none := by
  refine ⟨_, _, rfl, ?_, rfl, ?_, ?_, ?_, ?_⟩
  · decide
  · rfl
  · decide
  · decide
  · decide

/-! ## Walks -/

theorem avoiding_mono {s : registry} {V W : Nat → Prop} (h : ∀ x, W x → V x) {p q : Nat}
    (hw : avoiding s V p q) : avoiding s W p q := by
  induction hw with
  | here p hp => exact avoiding.here p (fun hc => hp (h p hc))
  | step p p1 q hp he _ ih => exact avoiding.step p p1 q (fun hc => hp (h p hc)) he ih

theorem avoiding_start {s : registry} {V : Nat → Prop} {p q : Nat}
    (hw : avoiding s V p q) : ¬ V p := by
  cases hw with
  | here _ hp => exact hp
  | step _ _ _ hp _ _ => exact hp

/-- A walk that avoids `V` either avoids `x` too, or passes `x` a last time
and from there on avoids `x`. -/
theorem avoiding_split {s : registry} {V : Nat → Prop} {u q : Nat}
    (hw : avoiding s V u q) (x : Nat) :
    avoiding s (fun y => y = x ∨ V y) u q ∨
      (x = q ∨ ∃ x1, edge s x x1 ∧ avoiding s (fun y => y = x ∨ V y) x1 q) := by
  induction hw with
  | here p hp =>
    by_cases hx : p = x
    · right; left; exact hx.symm
    · left; exact avoiding.here p (fun hc => hc.elim hx hp)
  | step p p1 q hp he _ ih =>
    rcases ih with h1 | h2
    · by_cases hx : p = x
      · right; right; subst hx; exact ⟨p1, he, h1⟩
      · left; exact avoiding.step p p1 q (fun hc => hc.elim hx hp) he h1
    · right; exact h2

/-- The first step of a walk can be taken so that the rest avoids the start. -/
theorem avoiding_first_step {s : registry} {V : Nat → Prop} {p q : Nat}
    (hw : avoiding s V p q) :
    p = q ∨ ∃ p1, edge s p p1 ∧ avoiding s (fun y => y = p ∨ V y) p1 q := by
  rcases avoiding_split hw p with h1 | h2
  · exact absurd (Or.inl rfl) (avoiding_start h1)
  · exact h2

/-! ## Unique ids and the index into `visited` -/

theorem nodup_filterMap_index {l : List (Option Nat)} (h : (l.filterMap id).Nodup)
    {i j x : Nat} (hi : l[i]? = some (some x)) (hj : l[j]? = some (some x)) : i = j := by
  induction l generalizing i j with
  | nil => simp at hi
  | cons o rest ih =>
    have hmem : ∀ k : Nat, rest[k]? = some (some x) → x ∈ rest.filterMap id := by
      intro k hk
      exact List.mem_filterMap.mpr ⟨some x, List.getElem?_mem hk, rfl⟩
    cases o with
    | none =>
      have h2 : (rest.filterMap id).Nodup := by simpa using h
      cases i with
      | zero => simp at hi
      | succ i1 =>
        cases j with
        | zero => simp at hj
        | succ j1 =>
          simp only [List.getElem?_cons_succ] at hi hj
          rw [ih h2 hi hj]
    | some y =>
      have h2 : y ∉ rest.filterMap id ∧ (rest.filterMap id).Nodup := by
        simpa [List.filterMap_cons] using h
      cases i with
      | zero =>
        cases j with
        | zero => rfl
        | succ j1 =>
          simp only [List.getElem?_cons_zero, List.getElem?_cons_succ] at hi hj
          cases hi
          exact absurd (hmem j1 hj) h2.1
      | succ i1 =>
        cases j with
        | zero =>
          simp only [List.getElem?_cons_zero, List.getElem?_cons_succ] at hi hj
          cases hj
          exact absurd (hmem i1 hi) h2.1
        | succ j1 =>
          simp only [List.getElem?_cons_succ] at hi hj
          rw [ih h2.2 hi hj]

/-- With unique ids a router is found by its id in its own slot only. -/
theorem unique_ids_slot {s : registry} (hu : unique_ids s) {p q : Nat} {r t : router}
    (hp : deref s p = some r) (hq : deref s q = some t) (hid : r.routerID = t.routerID) :
    p = q := by
  rw [deref_eq_some] at hp hq
  apply nodup_filterMap_index hu (x := r.routerID)
  · simp [slot_ids, hp]
  · simp [slot_ids, hq, hid]

theorem get_router_of_deref {s : registry} (hu : unique_ids s) {p : Nat} {r : router}
    (hp : deref s p = some r) : get_router s r.routerID = some p := by
  cases hg : get_router s r.routerID with
  | none =>
    have hmem : r.routerID ∈ live_ids s := by
      rw [deref_eq_some] at hp
      exact List.mem_filterMap.mpr
        ⟨some r.routerID, List.mem_map.mpr ⟨some r, List.getElem?_mem hp, rfl⟩, rfl⟩
    exfalso
    have : ∀ slots : List (Option router), get_router_scan r.routerID slots = none →
        ∀ r1, some r1 ∈ slots → r1.routerID ≠ r.routerID := by
      intro slots
      induction slots with
      | nil => intro _ r1 h1; cases h1
      | cons o rest ih =>
        intro h r1 h1
        cases o with
        | none =>
          simp only [get_router_scan, Option.map_eq_none'] at h
          rcases List.mem_cons.mp h1 with h2 | h2
          · cases h2
          · exact ih h r1 h2
        | some r0 =>
          simp only [get_router_scan] at h
          split_ifs at h with hc
          simp only [Option.map_eq_none'] at h
          rcases List.mem_cons.mp h1 with h2 | h2
          · cases h2; exact fun hh => hc hh.symm
          · exact ih h r1 h2
    rw [deref_eq_some] at hp
    exact this s.router_array hg r (List.getElem?_mem hp) rfl
  | some q =>
    obtain ⟨t, ht, hid⟩ := get_router_deref hg
    rw [unique_ids_slot hu hp ht hid.symm]

theorem mem_occupied_from {slots : List (Option router)} {i p : Nat} :
    p ∈ occupied_from i slots ↔ ∃ j r, p = i + j ∧ slots[j]? = some (some r) := by
  induction slots generalizing i with
  | nil => simp [occupied_from]
  | cons o rest ih =>
    cases o with
    | none =>
      simp only [occupied_from, ih]
      constructor
      · rintro ⟨j, r, rfl, hj⟩
        exact ⟨j + 1, r, by omega, by simpa using hj⟩
      · rintro ⟨j, r, rfl, hj⟩
        cases j with
        | zero => simp at hj
        | succ j1 => exact ⟨j1, r, by omega, by simpa using hj⟩
    | some r0 =>
      simp only [occupied_from, List.mem_cons, ih]
      constructor
      · rintro (rfl | ⟨j, r, rfl, hj⟩)
        · exact ⟨0, r0, rfl, by simp⟩
        · exact ⟨j + 1, r, by omega, by simpa using hj⟩
      · rintro ⟨j, r, rfl, hj⟩
        cases j with
        | zero => left; rfl
        | succ j1 => right; exact ⟨j1, r, by omega, by simpa using hj⟩

theorem mem_ptr_array {s : registry} {p : Nat} :
    p ∈ occupied_from 0 s.router_array ↔ ∃ r, deref s p = some r := by
  rw [mem_occupied_from]
  constructor
  · rintro ⟨j, r, rfl, hj⟩
    exact ⟨r, deref_eq_some.mpr (by simpa using hj)⟩
  · rintro ⟨r, hr⟩
    exact ⟨p, r, by omega, deref_eq_some.mp hr⟩

theorem length_occupied_from (slots : List (Option router)) (i : Nat) :
    (occupied_from i slots).length =
      ((slots.map (Option.map router.routerID)).filterMap id).length := by
  induction slots generalizing i with
  | nil => rfl
  | cons o rest ih =>
    cases o with
    | none => simpa [occupied_from] using ih (i + 1)
    | some r0 => simpa [occupied_from, List.filterMap_cons] using ih (i + 1)

theorem length_ptr_array (s : registry) :
    (occupied_from 0 s.router_array).length = live_count s :=
  length_occupied_from s.router_array 0

theorem get_idx_scan_found (s : registry) (id p : Nat) (pa : List Nat)
    (hocc : ∀ p1, p1 ∈ pa → ∃ r1, deref s p1 = some r1)
    (huniq : ∀ p1 r1, deref s p1 = some r1 → r1.routerID = id → p1 = p)
    {r : router} (hp : deref s p = some r) (hid : r.routerID = id) :
    ∀ n i, i + n = pa.length → (∃ k, i ≤ k ∧ pa[k]? = some p) →
      ∃ k : Nat, get_idx_scan s id pa n i = some (k : Int) ∧ pa[k]? = some p ∧
        k < pa.length := by
  intro n
  induction n with
  | zero =>
    intro i hi ⟨k, hk, hpk⟩
    have : k < pa.length := by
      by_contra hc
      rw [List.getElem?_eq_none (not_lt.mp hc)] at hpk
      cases hpk
    omega
  | succ n ih =>
    intro i hi ⟨k, hk, hpk⟩
    have hlt : i < pa.length := by omega
    have hget : pa[i]? = some pa[i] := List.getElem?_eq_getElem hlt
    obtain ⟨r0, hr0⟩ := hocc pa[i] (List.getElem_mem hlt)
    by_cases hc : r0.routerID = id
    · have : pa[i] = p := huniq _ _ hr0 hc
      refine ⟨i, ?_, by rw [hget, this], hlt⟩
      simp [get_idx_scan, hget, hr0, hc]
    · have hne : k ≠ i := by
        intro hki
        subst hki
        rw [hget] at hpk
        cases hpk
        rw [hp] at hr0
        cases hr0
        exact hc hid
      obtain ⟨k1, h1, h2, h3⟩ := ih (i + 1) (by omega) ⟨k, by omega, hpk⟩
      refine ⟨k1, ?_, h2, h3⟩
      simp [get_idx_scan, hget, hr0, hc, h1]

/-- The index of a router in `visited`: a position of `ptr_array` that holds
the router's slot. -/
theorem slot_index_spec {s : registry} (hu : unique_ids s)
    (hN : s.N_ROUTERS = live_count s) {p : Nat} {r : router} (hp : deref s p = some r) :
    ∃ k : Nat, slot_index s p = some (k : Int) ∧
      (occupied_from 0 s.router_array)[k]? = some p ∧ k < s.N_ROUTERS.toNat := by
  have hlen : s.N_ROUTERS.toNat = (occupied_from 0 s.router_array).length := by
    rw [length_ptr_array, hN]; simp
  obtain ⟨k0, hk0⟩ := List.getElem?_of_mem (mem_ptr_array.mpr ⟨r, hp⟩)
  obtain ⟨k, h1, h2, h3⟩ := get_idx_scan_found s r.routerID p
    (occupied_from 0 s.router_array)
    (fun p1 h1 => mem_ptr_array.mp h1)
    (fun p1 r1 h1 h2 => unique_ids_slot hu h1 hp h2) hp rfl
    s.N_ROUTERS.toNat 0 (by omega) ⟨k0, by omega, hk0⟩
  refine ⟨k, ?_, h2, by omega⟩
  simp [slot_index, hp, get_idx_in_visited, h1]

theorem slot_index_inj {s : registry} (hu : unique_ids s)
    (hN : s.N_ROUTERS = live_count s) {p q : Nat} {r t : router}
    (hp : deref s p = some r) (hq : deref s q = some t) {k : Int}
    (h1 : slot_index s p = some k) (h2 : slot_index s q = some k) : p = q := by
  obtain ⟨k1, e1, e2, -⟩ := slot_index_spec hu hN hp
  obtain ⟨k2, e3, e4, -⟩ := slot_index_spec hu hN hq
  rw [h1] at e1
  rw [h2] at e3
  have : k1 = k2 := by
    have := Option.some.inj (e1.symm.trans e3)
    omega
  subst this
  rw [e2] at e4
  exact Option.some.inj e4

/-! ## The search -/

theorem is_connected_scan_spec (s : registry) (id : Nat) {cs : List (Option Nat)}
    (h : ∀ t, some t ∈ cs → ∃ tr, deref s t = some tr) :
    ∃ b, is_connected_scan s id cs = some b ∧
      (b = true ↔ ∃ t tr, some t ∈ cs ∧ deref s t = some tr ∧ tr.routerID = id) := by
  induction cs with
  | nil => exact ⟨false, rfl, by simp⟩
  | cons c rest ih =>
    obtain ⟨b, hb, hiff⟩ := ih (fun t ht => h t (List.mem_cons_of_mem _ ht))
    cases c with
    | none =>
      refine ⟨b, by simpa [is_connected_scan] using hb, ?_⟩
      rw [hiff]
      constructor
      · rintro ⟨t, tr, h1, h2⟩
        exact ⟨t, tr, List.mem_cons_of_mem _ h1, h2⟩
      · rintro ⟨t, tr, h1, h2⟩
        rcases List.mem_cons.mp h1 with h3 | h3
        · cases h3
        · exact ⟨t, tr, h3, h2⟩
    | some p =>
      obtain ⟨tr, htr⟩ := h p (List.mem_cons_self _ _)
      by_cases hc : tr.routerID = id
      · refine ⟨true, by simp [is_connected_scan, htr, hc], ?_⟩
        simp only [true_iff]
        exact ⟨p, tr, List.mem_cons_self _ _, htr, hc⟩
      · refine ⟨b, by simp [is_connected_scan, htr, hc, hb], ?_⟩
        rw [hiff]
        constructor
        · rintro ⟨t, tr1, h1, h2⟩
          exact ⟨t, tr1, List.mem_cons_of_mem _ h1, h2⟩
        · rintro ⟨t, tr1, h1, h2, h3⟩
          rcases List.mem_cons.mp h1 with h4 | h4
          · cases h4
            rw [htr] at h2
            cases h2
            exact absurd h3 hc
          · exact ⟨t, tr1, h4, h2, h3⟩

theorem is_connected_spec {s : registry} (hnd : no_dangling s) {p : Nat} {r : router}
    (hp : deref s p = some r) (id : Nat) :
    ∃ b, is_connected s (some p) id = some b ∧ (b = true ↔ target_connected s p id) := by
  obtain ⟨b, hb, hiff⟩ := is_connected_scan_spec s id (hnd p r hp)
  refine ⟨b, by simp [is_connected, hp, hb], ?_⟩
  rw [hiff]
  constructor
  · rintro ⟨t, tr, h1, h2, h3⟩
    exact ⟨r, t, tr, hp, h1, h2, h3⟩
  · rintro ⟨r1, t, tr, h0, h1, h2, h3⟩
    rw [hp] at h0
    cases h0
    exact ⟨t, tr, h1, h2, h3⟩

theorem visited_get_nat (V : List Bool) (k : Nat) : visited_get V (k : Int) = V[k]? := by
  simp [visited_get]

theorem visited_set_nat (V : List Bool) (k : Nat) (v : Bool) (hk : k < V.length) :
    visited_set V (k : Int) v = some (V.set k v) := by
  simp [visited_set, hk]

theorem count_false_set_true {V : List Bool} {k : Nat} (h : V[k]? = some false) :
    (V.set k true).count false + 1 = V.count false := by
  induction V generalizing k with
  | nil => simp at h
  | cons b rest ih =>
    cases k with
    | zero =>
      simp at h
      subst h
      simp
    | succ k1 =>
      simp at h
      have := ih h
      cases b <;> simp [List.count_cons] <;> omega

theorem set_true_set_false {V : List Bool} {k : Nat} (h : V[k]? = some false) :
    (V.set k true).set k false = V := by
  rw [List.set_set]
  exact list_set_same h

theorem grow_path_spec (st : search_state) (h1 : st.path.length = st.path_size)
    (h2 : st.path_cur < st.path_size) :
    (grow_path st).visited = st.visited ∧ (grow_path st).path_cur = st.path_cur ∧
    (grow_path st).path.length = (grow_path st).path_size ∧
    st.path_size ≤ (grow_path st).path_size ∧
    (grow_path st).path_cur + 1 < (grow_path st).path_size := by
  unfold grow_path
  split_ifs with hc
  · refine ⟨rfl, rfl, ?_, ?_, ?_⟩
    · simp only [List.length_append, List.length_replicate]; omega
    · simp only; omega
    · simp only; omega
  · refine ⟨rfl, rfl, h1, le_refl _, ?_⟩
    omega

theorem slot_index_deref {s : registry} {p : Nat} {k : Int} (h : slot_index s p = some k) :
    ∃ r, deref s p = some r := by
  unfold slot_index at h
  split at h
  · cases h
  · rename_i r hr; exact ⟨r, hr⟩

theorem marked_set_true {s : registry} (hu : unique_ids s) (hN : s.N_ROUTERS = live_count s)
    {V : List Bool} {p k : Nat} {r : router} (hp : deref s p = some r)
    (hk : slot_index s p = some (k : Int)) (hlen : k < V.length) (x : Nat) :
    marked s (V.set k true) x ↔ x = p ∨ marked s V x := by
  constructor
  · rintro ⟨k1, h1, h2⟩
    by_cases hkk : k1 = k
    · subst hkk
      obtain ⟨t, ht⟩ := slot_index_deref h1
      left
      exact slot_index_inj hu hN ht hp h1 hk
    · right
      refine ⟨k1, h1, ?_⟩
      rwa [List.getElem?_set_ne (Ne.symm hkk)] at h2
  · rintro (rfl | ⟨k1, h1, h2⟩)
    · exact ⟨k, hk, by simp [hlen]⟩
    · refine ⟨k1, h1, ?_⟩
      by_cases hkk : k1 = k
      · subst hkk; simp [hlen]
      · rwa [List.getElem?_set_ne (Ne.symm hkk)]

theorem not_marked_get {s : registry} {V : List Bool} {p k : Nat}
    (hk : slot_index s p = some (k : Int)) (hlen : k < V.length) (hm : ¬ marked s V p) :
    V[k]? = some false := by
  rw [List.getElem?_eq_getElem hlen]
  cases hb : V[k] with
  | false => rfl
  | true =>
    exfalso
    apply hm
    exact ⟨k, hk, by rw [List.getElem?_eq_getElem hlen, hb]⟩

theorem marked_of_get {s : registry} {V : List Bool} {p k : Nat}
    (hk : slot_index s p = some (k : Int)) (hv : V[k]? = some false) : ¬ marked s V p := by
  rintro ⟨k1, h1, h2⟩
  rw [hk] at h1
  have : k = k1 := by
    have := Option.some.inj h1
    omega
  subst this
  rw [hv] at h2
  cases h2

/-- The loop of `recursive_search`, given calls that meet their
specification while the `visited` array is `V1`. -/
theorem search_loop_correct {s : registry} (hu : unique_ids s)
    (hN : s.N_ROUTERS = live_count s) (findID : Nat) (V1 : List Bool)
    (hV1 : V1.length = s.N_ROUTERS.toNat)
    (call : Nat → search_state → Option (Bool × search_state))
    (hcall : ∀ t tr st, deref s t = some tr → ¬ marked s V1 t → st.visited = V1 →
      st.path.length = st.path_size → st.path_cur < st.path_size →
      search_post st (∃ q, avoiding s (marked s V1) t q ∧ target_connected s q findID)
        (call t st)) :
    ∀ cs st, (∀ t, some t ∈ cs → ∃ tr, deref s t = some tr) → st.visited = V1 →
      st.path.length = st.path_size → st.path_cur < st.path_size →
      search_post st
        (∃ t, some t ∈ cs ∧ ∃ q, avoiding s (marked s V1) t q ∧ target_connected s q findID)
        (search_loop s (occupied_from 0 s.router_array) call cs st) := by
  intro cs
  induction cs with
  | nil =>
    intro st _ _ h1 _
    exact ⟨false, st, rfl, h1, le_refl _, fun _ => ⟨rfl, rfl⟩, by simp⟩
  | cons c rest ih =>
    intro st hcs hV h1 h2
    have hrest : ∀ t, some t ∈ rest → ∃ tr, deref s t = some tr :=
      fun t ht => hcs t (List.mem_cons_of_mem _ ht)
    cases c with
    | none =>
      obtain ⟨b, st1, e1, e2, e3, e4, e5⟩ := ih st hrest hV h1 h2
      refine ⟨b, st1, by simpa [search_loop] using e1, e2, e3, e4, ?_⟩
      rw [e5]
      constructor
      · rintro ⟨t, ht, hq⟩
        exact ⟨t, List.mem_cons_of_mem _ ht, hq⟩
      · rintro ⟨t, ht, hq⟩
        rcases List.mem_cons.mp ht with h3 | h3
        · cases h3
        · exact ⟨t, h3, hq⟩
    | some t =>
      obtain ⟨tr, htr⟩ := hcs t (List.mem_cons_self _ _)
      obtain ⟨k, hk, -, hkn⟩ := slot_index_spec hu hN htr
      have hklen : k < V1.length := by omega
      have hidx : get_idx_in_visited s tr.routerID (occupied_from 0 s.router_array) =
          some (k : Int) := by
        simpa [slot_index, htr] using hk
      have hget : visited_get st.visited (k : Int) = some V1[k] := by
        rw [visited_get_nat, hV, List.getElem?_eq_getElem hklen]
      cases hb : V1[k] with
      | true =>
        rw [hb] at hget
        have hm : marked s V1 t := ⟨k, hk, by rw [List.getElem?_eq_getElem hklen, hb]⟩
        obtain ⟨b, st1, e1, e2, e3, e4, e5⟩ := ih st hrest hV h1 h2
        refine ⟨b, st1, by simpa [search_loop, htr, hidx, hget] using e1, e2, e3, e4, ?_⟩
        rw [e5]
        constructor
        · rintro ⟨t1, ht, hq⟩
          exact ⟨t1, List.mem_cons_of_mem _ ht, hq⟩
        · rintro ⟨t1, ht, q, hq, htc⟩
          rcases List.mem_cons.mp ht with h3 | h3
          · cases h3
            exact absurd hm (avoiding_start hq)
          · exact ⟨t1, h3, q, hq, htc⟩
      | false =>
        rw [hb] at hget
        have hm : ¬ marked s V1 t :=
          marked_of_get hk (by rw [List.getElem?_eq_getElem hklen, hb])
        obtain ⟨b0, st0, c1, c2, c3, c4, c5⟩ := hcall t tr st htr hm hV h1 h2
        cases b0 with
        | true =>
          refine ⟨true, st0, (by simp [search_loop, htr, hidx, hget, c1]), c2, c3,
            (fun h => by cases h), ?_⟩
          simp only [true_iff]
          obtain ⟨q, hq, htc⟩ := c5.mp rfl
          exact ⟨t, List.mem_cons_self _ _, q, hq, htc⟩
        | false =>
          obtain ⟨d1, d2⟩ := c4 rfl
          obtain ⟨b, st1, e1, e2, e3, e4, e5⟩ :=
            ih st0 hrest (d1.trans hV) c2 (by omega)
          refine ⟨b, st1, (by simp [search_loop, htr, hidx, hget, c1, e1]), e2, (by omega),
            ?_, ?_⟩
          · intro hbf
            obtain ⟨f1, f2⟩ := e4 hbf
            exact ⟨f1.trans d1, f2.trans d2⟩
          · rw [e5]
            constructor
            · rintro ⟨t1, ht, hq⟩
              exact ⟨t1, List.mem_cons_of_mem _ ht, hq⟩
            · rintro ⟨t1, ht, q, hq, htc⟩
              rcases List.mem_cons.mp ht with h3 | h3
              · cases h3
                have := c5.mpr ⟨q, hq, htc⟩
                cases this
              · exact ⟨t1, h3, q, hq, htc⟩

theorem path_write_spec (st : search_state) (id : Nat) (h : st.path_cur < st.path.length) :
    path_write st id = some { st with path := st.path.set st.path_cur id } := by
  simp [path_write, h]

/-- A call of `recursive_search` on an unmarked router returns when the fuel
is at least the number of unmarked routers; it succeeds exactly when a walk through
unmarked routers leads to a router that is connected to the target. -/
theorem recursive_search_correct {s : registry} (hnd : no_dangling s) (hu : unique_ids s)
    (hN : s.N_ROUTERS = live_count s) (findID : Nat) :
    ∀ fuel p r st, deref s p = some r → ¬ marked s st.visited p →
      st.visited.length = s.N_ROUTERS.toNat →
      st.path.length = st.path_size → st.path_cur < st.path_size →
      st.visited.count false ≤ fuel →
      search_post st
        (∃ q, avoiding s (marked s st.visited) p q ∧ target_connected s q findID)
        (recursive_search s (occupied_from 0 s.router_array) findID fuel p st) := by
  intro fuel
  induction fuel with
  | zero =>
    intro p r st hp hm hlen _ _ hc
    exfalso
    obtain ⟨k, hk, -, hkn⟩ := slot_index_spec hu hN hp
    have hVk : st.visited[k]? = some false := not_marked_get hk (by omega) hm
    have hpos : 0 < st.visited.count false :=
      List.count_pos_iff.mpr (List.getElem?_mem hVk)
    omega
  | succ fuel ih =>
    intro p r st hp hm hlen h1 h2 hfuel
    obtain ⟨g1, g2, g3, g4, g5⟩ := grow_path_spec st h1 h2
    obtain ⟨k, hk, -, hkn⟩ := slot_index_spec hu hN hp
    have hidx : get_idx_in_visited s r.routerID (occupied_from 0 s.router_array) =
        some (k : Int) := by
      simpa [slot_index, hp] using hk
    have hklen : k < st.visited.length := by omega
    have hVk : st.visited[k]? = some false := not_marked_get hk hklen hm
    have hset : visited_set (grow_path st).visited (k : Int) true =
        some (st.visited.set k true) := by
      rw [g1]; exact visited_set_nat _ _ _ hklen
    obtain ⟨b0, hb0, hb0iff⟩ := is_connected_spec hnd hp findID
    have hmark := marked_set_true hu hN (V := st.visited) hp hk hklen
    -- the state after marking and writing the id
    set st2 : search_state :=
      { visited := st.visited.set k true
        path := (grow_path st).path.set (grow_path st).path_cur r.routerID
        path_size := (grow_path st).path_size
        path_cur := (grow_path st).path_cur + 1 } with hst2
    have hw1 : path_write { grow_path st with visited := st.visited.set k true } r.routerID =
        some { grow_path st with
          visited := st.visited.set k true
          path := (grow_path st).path.set (grow_path st).path_cur r.routerID } := by
      apply path_write_spec
      show (grow_path st).path_cur < (grow_path st).path.length
      omega
    have hunfold : recursive_search s (occupied_from 0 s.router_array) findID (fuel + 1) p st =
        match is_connected s (some p) findID with
        | none => none
        | some true => (path_write st2 findID).map (fun st1 => (true, st1))
        | some false =>
            match search_loop s (occupied_from 0 s.router_array)
                (recursive_search s (occupied_from 0 s.router_array) findID fuel)
                r.connections st2 with
            | none => none
            | some (true, st1) => some (true, st1)
            | some (false, st1) =>
                match visited_set st1.visited (k : Int) false with
                | none => none
                | some visited2 =>
                    some (false, { st1 with path_cur := st1.path_cur - 1, visited := visited2 }) := by
      rw [recursive_search]
      simp only [hp, hidx, hset, hw1]
    rw [hunfold, hb0]
    cases b0 with
    | true =>
      have hw2 : path_write st2 findID =
          some { st2 with path := st2.path.set st2.path_cur findID } := by
        apply path_write_spec
        show (grow_path st).path_cur + 1 < ((grow_path st).path.set _ _).length
        rw [List.length_set]; omega
      refine ⟨true, { st2 with path := st2.path.set st2.path_cur findID },
        (by rw [hw2]; rfl), ?_, ?_, (fun h => by cases h), ?_⟩
      · show ((st2.path.set st2.path_cur findID)).length = (grow_path st).path_size
        simp only [hst2, List.length_set]; exact g3
      · exact g4
      · simp only [true_iff]
        exact ⟨p, avoiding.here p hm, hb0iff.mp rfl⟩
    | false =>
      have hcount : (st.visited.set k true).count false ≤ fuel := by
        have := count_false_set_true hVk
        omega
      have hloop := search_loop_correct hu hN findID (st.visited.set k true)
        (by rw [List.length_set]; exact hlen)
        (recursive_search s (occupied_from 0 s.router_array) findID fuel)
        (fun t tr st3 ht hmt hV e1 e2 => by
          have := ih t tr st3 ht (by rw [hV]; exact hmt)
            (by rw [hV, List.length_set]; exact hlen) e1 e2 (by rw [hV]; exact hcount)
          rw [hV] at this
          exact this)
        r.connections st2 (hnd p r hp) rfl
        (by show ((grow_path st).path.set _ _).length = (grow_path st).path_size
            rw [List.length_set]; exact g3)
        (by show (grow_path st).path_cur + 1 < (grow_path st).path_size
            exact g5)
      obtain ⟨b, st1, e1, e2, e3, e4, e5⟩ := hloop
      rw [e1]
      cases b with
      | true =>
        refine ⟨true, st1, rfl, e2, (by show st.path_size ≤ st1.path_size
                                        have : st2.path_size = (grow_path st).path_size := rfl
                                        omega), (fun h => by cases h), ?_⟩
        simp only [true_iff]
        obtain ⟨t, ht, q, hq, htc⟩ := e5.mp rfl
        refine ⟨q, avoiding.step p t q hm ⟨r, hp, ht⟩ ?_, htc⟩
        exact avoiding_mono (fun x hx => (hmark x).mpr (Or.inr hx)) hq
      | false =>
        obtain ⟨f1, f2⟩ := e4 rfl
        have hback : visited_set st1.visited (k : Int) false = some st.visited := by
          rw [f1]
          show visited_set (st.visited.set k true) (k : Int) false = some st.visited
          rw [visited_set_nat _ _ _ (by rw [List.length_set]; exact hklen),
            set_true_set_false hVk]
        simp only [hback]
        refine ⟨false, _, rfl, e2, (by show st.path_size ≤ st1.path_size
                                       have : st2.path_size = (grow_path st).path_size := rfl
                                       omega), (fun _ => ⟨rfl, ?_⟩), ?_⟩
        · show st1.path_cur - 1 = st.path_cur
          rw [f2]
          show (grow_path st).path_cur + 1 - 1 = st.path_cur
          omega
        · constructor
          · intro h; cases h
          · rintro ⟨q, hq, htc⟩
            exfalso
            rcases avoiding_first_step hq with h3 | ⟨p1, ⟨r1, hr1, hmem⟩, hq1⟩
            · subst h3
              have := hb0iff.mpr htc
              cases this
            · rw [hp] at hr1
              cases hr1
              have : avoiding s (marked s (st.visited.set k true)) p1 q :=
                avoiding_mono (fun x hx => (hmark x).mp hx) hq1
              have := e5.mpr ⟨p1, hmem, q, this, htc⟩
              cases this

/-! ## Path search and reachability -/

theorem not_marked_replicate (s : registry) (n p : Nat) :
    ¬ marked s (List.replicate n false) p := by
  rintro ⟨k, -, h⟩
  rw [List.getElem?_replicate] at h
  split_ifs at h
  cases h

theorem trans_of_avoiding {s : registry} (hnd : no_dangling s) {V : Nat → Prop} {p q b : Nat}
    (hw : avoiding s V p q) (htc : target_connected s q b) :
    ∀ r, deref s p = some r → Relation.TransGen (connected_ids s) r.routerID b := by
  induction hw with
  | here p _ =>
    intro r hr
    exact Relation.TransGen.single ⟨p, r, hr, rfl, htc⟩
  | step p p1 q _ he _ ih =>
    intro r hr
    obtain ⟨r0, hr0, hmem⟩ := he
    rw [hr] at hr0
    cases hr0
    obtain ⟨r1, hr1⟩ := hnd p r hr p1 hmem
    exact Relation.TransGen.head ⟨p, r, hr, rfl, r, p1, r1, hr, hmem, hr1, rfl⟩ (ih htc r1 hr1)

theorem avoiding_of_trans {s : registry} (hu : unique_ids s) {a b : Nat}
    (h : Relation.TransGen (connected_ids s) a b) :
    ∀ pa, get_router s a = some pa →
      ∃ q, avoiding s (fun _ => False) pa q ∧ target_connected s q b := by
  induction h using Relation.TransGen.head_induction_on with
  | base h =>
    intro pa hpa
    obtain ⟨p, r, hr, hid, htc⟩ := h
    have := get_router_of_deref hu hr
    rw [hid, hpa] at this
    cases this
    exact ⟨pa, avoiding.here pa (fun hf => hf), htc⟩
  | ih h _ ih =>
    intro pa hpa
    obtain ⟨p, r, hr, hid, r1, t, tr, hr1, hmem, htr, hc⟩ := h
    have := get_router_of_deref hu hr
    rw [hid, hpa] at this
    cases this
    have ht := get_router_of_deref hu htr
    rw [hc] at ht
    obtain ⟨q, hq, htc⟩ := ih t ht
    exact ⟨q, avoiding.step pa t q (fun hf => hf) ⟨r1, hr1, hmem⟩ hq, htc⟩

theorem exists_path_search_spec {s : registry} (hnd : no_dangling s) (hu : unique_ids s)
    (hN : s.N_ROUTERS = live_count s) {a pa : Nat} (ha : get_router s a = some pa) (b : Nat) :
    ∃ found st, exists_path_search s a b = some (found, st) ∧
      (found = true ↔ Relation.TransGen (connected_ids s) a b) := by
  obtain ⟨r, hr, hid⟩ := get_router_deref ha
  have hlen : (occupied_from 0 s.router_array).length = s.N_ROUTERS.toNat := by
    rw [length_ptr_array, hN]; simp
  have hpost := recursive_search_correct hnd hu hN b (s.N_ROUTERS.toNat + 1) pa r
    { visited := List.replicate s.N_ROUTERS.toNat false
      path := List.replicate 16 0
      path_size := 16
      path_cur := 0 }
    hr (not_marked_replicate s _ pa) (by simp) (by simp) (by simp)
    (by simp [List.count_replicate])
  obtain ⟨found, st, e1, -, -, -, e5⟩ := hpost
  refine ⟨found, st, ?_, ?_⟩
  · unfold exists_path_search
    have h0 : ¬ s.N_ROUTERS < 0 := by rw [hN]; omega
    rw [if_neg h0]
    simp only
    rw [if_neg (by omega), ha]
    exact e1
  · rw [e5]
    constructor
    · rintro ⟨q, hq, htc⟩
      have := trans_of_avoiding hnd hq htc r hr
      rwa [hid] at this
    · intro h
      obtain ⟨q, hq, htc⟩ := avoiding_of_trans hu h pa ha
      exact ⟨q, avoiding_mono (fun x hx => absurd hx (not_marked_replicate s _ x)) hq, htc⟩

/-- C2.  Path search, existence.  On a registry without dangling connections,
with unique live ids and with `N_ROUTERS` equal to the number of occupied
slots, `exists_path` from a live id `a` to an id `b` returns, and it reports a
found path exactly when `b` is reached from `a` by following directed edges
(a walk of at least one edge; an edge leads from id `x` to id `y` when a
router with id `x` has an occupied outgoing slot whose target has id `y`). -/
theorem exists_path_iff_reachable (s : registry) (a b pa : Nat)
    (hnd : no_dangling s) (hu : unique_ids s) (hN : s.N_ROUTERS = live_count s)
    (ha : get_router s a = some pa) :
    ∃ report, exists_path s a b = some (SUCCESS, report) ∧
      (report.isSome = true ↔ Relation.TransGen (connected_ids s) a b) := by
  obtain ⟨found, st, e1, e2⟩ := exists_path_search_spec hnd hu hN ha b
  cases found with
  | true =>
    refine ⟨some (print_path st.path st.path_cur), by simp [exists_path, e1], ?_⟩
    simp only [Option.isSome_some, true_iff]
    exact e2.mp rfl
  | false =>
    refine ⟨none, by simp [exists_path, e1], ?_⟩
    simp only [Option.isSome_none, Bool.false_eq_true, false_iff]
    intro h
    have := e2.mpr h
    cases this

/-- Witness for C2: the search from 1 to 3 in the chain 1 → 2 → 3. -/
theorem exists_path_iff_reachable_witness :
    ∃ report, exists_path chain_registry 1 3 = some (SUCCESS, report) ∧
      (report.isSome = true ↔ Relation.TransGen (connected_ids chain_registry) 1 3) :=
  exists_path_iff_reachable chain_registry 1 3 0 chain_no_dangling (by decide) (by decide)
    (by decide)

/-- C3.  In the chain 1 → 2 → 3 the search from 1 to 3 succeeds.  The target
id 3 is written into the path buffer at the current position, but the
position is not advanced past it: `print_path` is handed the ids `[1, 2]`,
which do not end at the target. -/
theorem reported_path_omits_target :
    ∃ st, exists_path_search chain_registry 1 3 = some (true, st) ∧
      st.path_cur = 2 ∧ st.path.take 3 = [1, 2, 3] ∧
      exists_path chain_registry 1 3 = some (SUCCESS, some [1, 2]) ∧
      List.getLast? [1, 2] ≠ some 3 := by
  refine ⟨_, rfl, ?_, ?_, ?_, ?_⟩ <;> decide

/-! ## Adding an edge -/

theorem set_first_empty_spec (t : Option Nat) {cs : List (Option Nat)} (h : none ∈ cs) :
    ∃ j, cs[j]? = some none ∧ (∀ i, i < j → cs[i]? ≠ some none) ∧
      set_first_empty t cs = some (cs.set j t) := by
  induction cs with
  | nil => cases h
  | cons c rest ih =>
    cases c with
    | none => exact ⟨0, by simp, fun i hi => absurd hi (Nat.not_lt_zero i), rfl⟩
    | some p =>
      have h1 : none ∈ rest := by
        rcases List.mem_cons.mp h with h2 | h2
        · cases h2
        · exact h2
      obtain ⟨j, e1, e2, e3⟩ := ih h1
      refine ⟨j + 1, by simpa using e1, ?_, by simp [set_first_empty, e3]⟩
      intro i hi
      cases i with
      | zero => simp
      | succ k => simpa using e2 k (by omega)

theorem set_first_empty_full (t : Option Nat) {cs : List (Option Nat)} (h : none ∉ cs) :
    set_first_empty t cs = none := by
  induction cs with
  | nil => rfl
  | cons c rest ih =>
    cases c with
    | none => exact absurd (List.mem_cons_self _ _) h
    | some p =>
      have h1 : none ∉ rest := fun hc => h (List.mem_cons_of_mem _ hc)
      simp [set_first_empty, ih h1]

theorem mem_set_cases {α : Type} {l : List α} {j : Nat} {a x : α} (h : x ∈ l.set j a) :
    x = a ∨ x ∈ l := by
  rcases List.mem_or_eq_of_mem_set h with h1 | h1
  · exact Or.inr h1
  · exact Or.inl h1

theorem mem_set_self {α : Type} {l : List α} {j : Nat} {a b : α} (h : l[j]? = some b) :
    a ∈ l.set j a := by
  have hj : j < l.length := by
    by_contra hc
    rw [List.getElem?_eq_none (by omega)] at h
    cases h
  apply List.mem_iff_getElem?.mpr
  exact ⟨j, by simp [List.getElem?_set, hj]⟩

/-- A store that keeps the id keeps every slot occupied and keeps its id. -/
theorem deref_store_some {s : registry} {p : Nat} {r x : router} (r1 : router) (q : Nat)
    (hr : deref s p = some r) (hid : r1.routerID = r.routerID) (hx : deref s q = some x) :
    ∃ x1, deref (store s p r1) q = some x1 ∧ x1.routerID = x.routerID := by
  by_cases hq : q = p
  · subst hq
    rw [hr] at hx
    cases hx
    exact ⟨r1, deref_store_same hr, hid⟩
  · exact ⟨x, by rw [deref_store_other hq]; exact hx, rfl⟩

theorem not_target_connected_of_is_connected {s : registry} {p id : Nat} {r : router}
    (hp : deref s p = some r) (hnd : ∀ t, some t ∈ r.connections → ∃ tr, deref s t = some tr)
    (h : is_connected s (some p) id = some false) : ¬ target_connected s p id := by
  obtain ⟨b, hb, hiff⟩ := is_connected_scan_spec s id hnd
  have hb2 : is_connected s (some p) id = some b := by simp [is_connected, hp, hb]
  rw [hb2] at h
  cases h
  rintro ⟨r1, t, tr, h0, h1, h2, h3⟩
  rw [hp] at h0
  cases h0
  have := hiff.mpr ⟨t, tr, h1, h2, h3⟩
  cases this

theorem is_connected_of_local {s : registry} {p : Nat} {r : router}
    (hp : deref s p = some r) (hnd : ∀ t, some t ∈ r.connections → ∃ tr, deref s t = some tr)
    (id : Nat) :
    ∃ b, is_connected s (some p) id = some b ∧ (b = true ↔ target_connected s p id) := by
  obtain ⟨b, hb, hiff⟩ := is_connected_scan_spec s id hnd
  refine ⟨b, by simp [is_connected, hp, hb], ?_⟩
  rw [hiff]
  constructor
  · rintro ⟨t, tr, h1, h2, h3⟩
    exact ⟨r, t, tr, hp, h1, h2, h3⟩
  · rintro ⟨r1, t, tr, h0, h1, h2, h3⟩
    rw [hp] at h0
    cases h0
    exact ⟨t, tr, h1, h2, h3⟩

/-- What `add_connection` does for a live `from`, in closed form. -/
theorem add_connection_eq {s : registry} {fromID pf : Nat} {r : router} (toID : Nat)
    (hfrom : get_router s fromID = some pf) (hr : deref s pf = some r)
    (hnd : ∀ t, some t ∈ r.connections → ∃ tr, deref s t = some tr) :
    (target_connected s pf toID ∧ add_connection s fromID toID = some (FAILURE, s)) ∨
    (¬ target_connected s pf toID ∧ none ∉ r.connections ∧
      add_connection s fromID toID = some (SUCCESS, s)) ∨
    (¬ target_connected s pf toID ∧
      ∃ j, r.connections[j]? = some none ∧ (∀ i, i < j → r.connections[i]? ≠ some none) ∧
        add_connection s fromID toID = some (SUCCESS,
          store s pf { r with connections := r.connections.set j (get_router s toID) })) := by
  obtain ⟨b, hb, hiff⟩ := is_connected_of_local hr hnd toID
  cases b with
  | true =>
    left
    refine ⟨hiff.mp rfl, ?_⟩
    unfold add_connection
    simp only [hfrom, hb]
  | false =>
    right
    have hnc : ¬ target_connected s pf toID := fun hc => by
      have := hiff.mpr hc
      cases this
    by_cases hfree : none ∈ r.connections
    · right
      obtain ⟨j, e1, e2, e3⟩ := set_first_empty_spec (get_router s toID) hfree
      refine ⟨hnc, j, e1, e2, ?_⟩
      unfold add_connection
      simp only [hfrom, hb]
      simp only [set_connection, hr, e3]
    · left
      refine ⟨hnc, hfree, ?_⟩
      unfold add_connection
      simp only [hfrom, hb]
      simp only [set_connection, hr, set_first_empty_full _ hfree]

/-- C11.  Adding an edge.  Let `fromID` and `toID` be live ids, let every
occupied outgoing slot of the router `fromID` point to an occupied slot, let
none of them target a router with the id `toID`, and let one outgoing slot
of `fromID` be empty.  Then `add_connection` returns `SUCCESS`; the registry
after it is the one before it with the lowest-indexed empty outgoing slot
`j` of `fromID` now pointing to the router `toID`; `is_connected` from
`fromID` to `toID` is then `TRUE`; every router keeps its id, flag, length
and description, and every outgoing slot other than slot `j` of `fromID`
keeps its content. -/
theorem add_connection_success (s : registry) (fromID toID pf pt : Nat) (r : router)
    (hfrom : get_router s fromID = some pf) (hr : deref s pf = some r)
    (hto : get_router s toID = some pt)
    (hnd : ∀ t, some t ∈ r.connections → ∃ tr, deref s t = some tr)
    (hnc : ¬ target_connected s pf toID)
    (hfree : none ∈ r.connections) :
    ∃ j s1, r.connections[j]? = some none ∧ (∀ i, i < j → r.connections[i]? ≠ some none) ∧
      add_connection s fromID toID = some (SUCCESS, s1) ∧
      s1 = store s pf { r with connections := r.connections.set j (some pt) } ∧
      is_connected s1 (some pf) toID = some true ∧
      s1.N_ROUTERS = s.N_ROUTERS ∧
      (∀ q, deref s q = none → deref s1 q = none) ∧
      (∀ q x, deref s q = some x → ∃ x1, deref s1 q = some x1 ∧
        x1.routerID = x.routerID ∧ x1.flag = x.flag ∧ x1.desc_len = x.desc_len ∧
        x1.description = x.description ∧
        ∀ i, x1.connections[i]? =
          if q = pf ∧ i = j then some (some pt) else x.connections[i]?) := by
  rcases add_connection_eq toID hfrom hr hnd with h | h | h
  · exact absurd h.1 hnc
  · exact absurd hfree h.2.1
  · obtain ⟨-, j, e1, e2, e3⟩ := h
    rw [hto] at e3
    have hj : j < r.connections.length := by
      by_contra hc
      rw [List.getElem?_eq_none (by omega)] at e1
      cases e1
    have hs1 : deref (store s pf { r with connections := r.connections.set j (some pt) }) pf =
        some { r with connections := r.connections.set j (some pt) } := deref_store_same hr
    obtain ⟨tr, htr, htid⟩ := get_router_deref hto
    obtain ⟨tr1, htr1, htid1⟩ := deref_store_some
      { r with connections := r.connections.set j (some pt) } pt hr rfl htr
    refine ⟨j, _, e1, e2, e3, rfl, ?_, rfl, ?_, ?_⟩
    · have hloc : ∀ t, some t ∈ r.connections.set j (some pt) →
          ∃ x, deref (store s pf { r with connections := r.connections.set j (some pt) }) t =
            some x := by
        intro t ht
        rcases mem_set_cases ht with h1 | h1
        · cases h1
          exact ⟨tr1, htr1⟩
        · obtain ⟨x, hx⟩ := hnd t h1
          obtain ⟨x1, hx1, -⟩ := deref_store_some
            { r with connections := r.connections.set j (some pt) } t hr rfl hx
          exact ⟨x1, hx1⟩
      obtain ⟨b, hb, hiff⟩ := is_connected_of_local hs1 hloc toID
      have : b = true :=
        hiff.mpr ⟨_, pt, tr1, hs1, mem_set_self e1, htr1, by rw [htid1, htid]⟩
      rw [hb, this]
    · intro q hq
      have hne : q ≠ pf := by
        intro hc
        rw [hc, hr] at hq
        cases hq
      rw [deref_store_other hne]
      exact hq
    · intro q x hx
      by_cases hq : q = pf
      · subst hq
        rw [hr] at hx
        cases hx
        refine ⟨_, hs1, rfl, rfl, rfl, rfl, ?_⟩
        intro i
        by_cases hi : i = j
        · subst hi
          simp [List.getElem?_set, hj]
        · have hji : ¬ j = i := fun hc => hi hc.symm
          simp [List.getElem?_set, hi, hji]
      · refine ⟨x, by rw [deref_store_other hq]; exact hx, rfl, rfl, rfl, rfl, ?_⟩
        intro i
        simp [hq]

/-- Witness for C11: the edge 1 → 3 is added to the chain 1 → 2 → 3; it goes
into the outgoing slot 1 of router 1, slot 0 holding the edge 1 → 2. -/
theorem add_connection_success_witness :
    ∃ j s1, (sample_router 1 [some 1]).connections[j]? = some none ∧
      (∀ i, i < j → (sample_router 1 [some 1]).connections[i]? ≠ some none) ∧
      add_connection chain_registry 1 3 = some (SUCCESS, s1) ∧
      s1 = store chain_registry 0
        { sample_router 1 [some 1] with
          connections := (sample_router 1 [some 1]).connections.set j (some 2) } ∧
      is_connected s1 (some 0) 3 = some true ∧
      s1.N_ROUTERS = chain_registry.N_ROUTERS ∧
      (∀ q, deref chain_registry q = none → deref s1 q = none) ∧
      (∀ q x, deref chain_registry q = some x → ∃ x1, deref s1 q = some x1 ∧
        x1.routerID = x.routerID ∧ x1.flag = x.flag ∧ x1.desc_len = x.desc_len ∧
        x1.description = x.description ∧
        ∀ i, x1.connections[i]? =
          if q = 0 ∧ i = j then some (some 2) else x.connections[i]?) :=
  add_connection_success chain_registry 1 3 0 2 (sample_router 1 [some 1])
    (by decide) (by decide) (by decide)
    (chain_no_dangling 0 (sample_router 1 [some 1]) (by decide))
    (not_target_connected_of_is_connected (r := sample_router 1 [some 1]) (by decide)
      (chain_no_dangling 0 (sample_router 1 [some 1]) (by decide)) (by decide))
    (by decide)

/-- C12.  Duplicate edge.  Let `fromID` and `toID` be live ids, let every
occupied outgoing slot of the router `fromID` point to an occupied slot and
let one of them target a router with the id `toID`.  Then `add_connection`
returns `FAILURE` and the registry is the one before the call, and so does
every `legg_til_kobling` line with these two ids: no outgoing slot is
written, the connection is not added a second time. -/
theorem add_connection_duplicate (s : registry) (fromID toID pf pt : Nat) (r : router)
    (hfrom : get_router s fromID = some pf) (hr : deref s pf = some r)
    (hto : get_router s toID = some pt)
    (hnd : ∀ t, some t ∈ r.connections → ∃ tr, deref s t = some tr)
    (hc : target_connected s pf toID) :
    is_connected s (some pf) toID = some true ∧
    add_connection s fromID toID = some (FAILURE, s) ∧
    ∀ line, line_command line = some "legg_til_kobling" → to_uint line.arg1 = fromID →
      to_uint line.arg2 = toID → run_command s line = some (FAILURE, s) := by
  obtain ⟨b, hb, hiff⟩ := is_connected_of_local hr hnd toID
  have hbt : b = true := hiff.mpr hc
  subst hbt
  have hadd : add_connection s fromID toID = some (FAILURE, s) := by
    rcases add_connection_eq toID hfrom hr hnd with h | h | h
    · exact h.2
    · exact absurd hc h.1
    · exact absurd hc h.1
  refine ⟨hb, hadd, ?_⟩
  intro line hk h1 h2
  rw [run_command_legg_til_kobling hk]
  simp only [h1, h2, hfrom, hto, hadd, Option.isNone_some]
  exact command_result_failure s

/-- Witness for C12: the edge 1 → 2 of the chain is added once more. -/
theorem add_connection_duplicate_witness :
    is_connected chain_registry (some 0) 2 = some true ∧
    add_connection chain_registry 1 2 = some (FAILURE, chain_registry) ∧
    ∀ line, line_command line = some "legg_til_kobling" → to_uint line.arg1 = 1 →
      to_uint line.arg2 = 2 → run_command chain_registry line = some (FAILURE, chain_registry) :=
  add_connection_duplicate chain_registry 1 2 0 1 (sample_router 1 [some 1])
    (by decide) (by decide) (by decide)
    (chain_no_dangling 0 (sample_router 1 [some 1]) (by decide))
    ⟨sample_router 1 [some 1], 1, sample_router 2 [some 2], by decide, by decide, by decide,
      by decide⟩

/-! ## A new description -/

/-- C19.  A new description is stored.  For a live id and a new description
of at most 248 bytes `set_model` returns `SUCCESS`; afterwards the router's
`desc_len` is the length of the new description and the first `desc_len`
bytes of its `description` are the new description (the rest of the 248
bytes is zero); the router is still found under its id and keeps its id,
flag and outgoing slots; every other slot and `N_ROUTERS` are unchanged. -/
theorem set_model_stores (s : registry) (id p : Nat) (r : router) (new_name : List Nat)
    (hlive : get_router s id = some p) (hr : deref s p = some r)
    (hlen : new_name.length ≤ 248) :
    ∃ s1 r1, set_model s id new_name = some (SUCCESS, s1) ∧
      get_router s1 id = some p ∧ deref s1 p = some r1 ∧
      r1.desc_len = new_name.length ∧
      r1.description.take r1.desc_len = new_name ∧
      r1.description = new_name ++ List.replicate (248 - new_name.length) 0 ∧
      r1.routerID = r.routerID ∧ r1.flag = r.flag ∧ r1.connections = r.connections ∧
      (∀ q, q ≠ p → deref s1 q = deref s q) ∧
      s1.N_ROUTERS = s.N_ROUTERS := by
  have hmod : new_name.length % 256 = new_name.length := Nat.mod_eq_of_lt (by omega)
  have htake : new_name.take DESC_MAX_LEN = new_name :=
    List.take_of_length_le (by simp only [DESC_MAX_LEN]; omega)
  refine ⟨store s p { r with
      description := new_name.take DESC_MAX_LEN ++
        List.replicate (DESC_MAX_LEN - new_name.length) 0
      desc_len := new_name.length % 256 }, _, ?_, ?_, deref_store_same hr, hmod, ?_, ?_,
    rfl, rfl, rfl, ?_, rfl⟩
  · simp only [set_model, hlive, hr]
  · exact (get_router_store hr (by exact rfl)).trans hlive
  · simp only [hmod, htake]
    exact List.take_left' rfl
  · have h2 : new_name.take 248 = new_name := htake
    simp only [DESC_MAX_LEN, h2]
  · intro q hq
    exact deref_store_other hq

/-- Witness for C19: router 1 of the chain gets the description `xyz`. -/
theorem set_model_stores_witness :
    ∃ s1 r1, set_model chain_registry 1 [120, 121, 122] = some (SUCCESS, s1) ∧
      get_router s1 1 = some 0 ∧ deref s1 0 = some r1 ∧
      r1.desc_len = [120, 121, 122].length ∧
      r1.description.take r1.desc_len = [120, 121, 122] ∧
      r1.description = [120, 121, 122] ++ List.replicate (248 - [120, 121, 122].length) 0 ∧
      r1.routerID = (sample_router 1 [some 1]).routerID ∧
      r1.flag = (sample_router 1 [some 1]).flag ∧
      r1.connections = (sample_router 1 [some 1]).connections ∧
      (∀ q, q ≠ 0 → deref s1 q = deref chain_registry q) ∧
      s1.N_ROUTERS = chain_registry.N_ROUTERS :=
  set_model_stores chain_registry 1 0 (sample_router 1 [some 1]) [120, 121, 122]
    (by decide) (by decide) (by decide)

/-! ## What a command changes -/

theorem set_first_empty_eq {t : Option Nat} {cs cs1 : List (Option Nat)}
    (h : set_first_empty t cs = some cs1) : ∃ j, cs[j]? = some none ∧ cs1 = cs.set j t := by
  by_cases hfree : none ∈ cs
  · obtain ⟨j, e1, -, e3⟩ := set_first_empty_spec t hfree
    rw [e3] at h
    cases h
    exact ⟨j, e1, rfl⟩
  · rw [set_first_empty_full t hfree] at h
    cases h

theorem assign_flag_effect {s s1 : registry} {r : Option Nat} {f : Nat → Option Nat}
    (h : assign_flag s r f = some s1) :
    ∃ p rr fl, deref s p = some rr ∧ s1 = store s p { rr with flag := fl } := by
  unfold assign_flag at h
  split at h
  · cases h
  · split at h
    · cases h
    · split at h
      · cases h
      · rename_i _ p _ rr hrr _ fl hfl
        cases h
        exact ⟨p, rr, fl, hrr, rfl⟩

theorem set_flag_effect {s s1 : registry} {id b v : Nat} {res : Int}
    (h : set_flag s id b v = some (res, s1)) :
    s1 = s ∨ ∃ p rr fl, deref s p = some rr ∧ s1 = store s p { rr with flag := fl } := by
  unfold set_flag at h
  simp only at h
  split_ifs at h <;>
    first
    | (cases h; exact Or.inl rfl)
    | (simp only [Option.map_eq_some'] at h
       obtain ⟨s2, h2, h3⟩ := h
       cases h3
       exact Or.inr (assign_flag_effect h2))

theorem set_model_effect {s s1 : registry} {id : Nat} {name : List Nat} {res : Int}
    (h : set_model s id name = some (res, s1)) :
    ∃ p rr, deref s p = some rr ∧
      s1 = store s p { rr with
        description := name.take DESC_MAX_LEN ++ List.replicate (DESC_MAX_LEN - name.length) 0
        desc_len := name.length % 256 } := by
  unfold set_model at h
  split at h
  · cases h
  · split at h
    · cases h
    · rename_i _ p hp _ rr hrr
      cases h
      exact ⟨p, rr, hrr, rfl⟩

theorem set_connection_effect {s s1 : registry} {f t : Option Nat} {res : Int}
    (h : set_connection s f t = some (res, s1)) :
    s1 = s ∨ ∃ p rr j, deref s p = some rr ∧ rr.connections[j]? = some none ∧
      s1 = store s p { rr with connections := rr.connections.set j t } := by
  unfold set_connection at h
  split at h
  · cases h; exact Or.inl rfl
  · split at h
    · cases h
    · split at h
      · cases h; exact Or.inl rfl
      · rename_i _ p _ rr hrr _ cs hcs
        cases h
        obtain ⟨j, e1, e2⟩ := set_first_empty_eq hcs
        subst e2
        exact Or.inr ⟨p, rr, j, hrr, e1, rfl⟩

theorem add_connection_effect {s s1 : registry} {a b : Nat} {res : Int}
    (h : add_connection s a b = some (res, s1)) :
    s1 = s ∨ ∃ p rr j, deref s p = some rr ∧ rr.connections[j]? = some none ∧
      s1 = store s p { rr with connections := rr.connections.set j (get_router s b) } := by
  unfold add_connection at h
  simp only at h
  split at h
  · cases h
  · split at h
    · cases h
    · rename_i r2 s2 h2
      cases h
      exact set_connection_effect h2
  · cases h; exact Or.inl rfl

theorem remove_router_effect {s s1 : registry} {id : Nat} {res : Int}
    (h : remove_router s id = some (res, s1)) :
    s1 = s ∨ (no_dangling s ∧ s1 = removed s id) := by
  by_cases hres : res = SUCCESS
  · subst hres
    have hnd := remove_router_no_dangling h
    cases hg : get_router s id with
    | none => simp [remove_router, hg, SUCCESS, FAILURE] at h
    | some p =>
      rw [remove_router_eq hg hnd] at h
      simp only [Option.some.injEq, Prod.mk.injEq, true_and] at h
      exact Or.inr ⟨hnd, h.symm⟩
  · exact Or.inl (remove_router_failure h hres)

/-! ## Invariants of a registry -/

theorem no_dangling_store {s : registry} {p : Nat} {r r1 : router} (hnd : no_dangling s)
    (hr : deref s p = some r) (hid : r1.routerID = r.routerID)
    (hc : ∀ t, some t ∈ r1.connections → ∃ tr, deref s t = some tr) :
    no_dangling (store s p r1) := by
  intro q x hx t ht
  have key : ∃ tr, deref s t = some tr := by
    by_cases hq : q = p
    · subst hq
      rw [deref_store_same hr] at hx
      cases hx
      exact hc t ht
    · rw [deref_store_other hq] at hx
      exact hnd q x hx t ht
  obtain ⟨tr, htr⟩ := key
  obtain ⟨x1, hx1, -⟩ := deref_store_some r1 t hr hid htr
  exact ⟨x1, hx1⟩

theorem desc_bounded_store {s : registry} {p : Nat} {r r1 : router} (hb : desc_bounded s)
    (hr : deref s p = some r) (h1 : r1.desc_len ≤ r1.description.length) :
    desc_bounded (store s p r1) := by
  intro q x hx
  by_cases hq : q = p
  · subst hq
    rw [deref_store_same hr] at hx
    cases hx
    exact h1
  · rw [deref_store_other hq] at hx
    exact hb q x hx

theorem no_dangling_removed {s : registry} (hnd : no_dangling s) (id : Nat) :
    no_dangling (removed s id) := by
  intro q r hr t ht
  obtain ⟨r0, h0, -, rfl⟩ := deref_removed hr
  obtain ⟨hmem, hid⟩ := mem_cleared ht
  obtain ⟨tr, htr⟩ := hnd q r0 h0 t hmem
  exact ⟨_, deref_removed_of htr (hid tr htr)⟩

theorem desc_bounded_removed {s : registry} (hb : desc_bounded s) (id : Nat) :
    desc_bounded (removed s id) := by
  intro q r hr
  obtain ⟨r0, h0, -, rfl⟩ := deref_removed hr
  exact hb q r0 h0

theorem mem_set_target {s : registry} {cs : List (Option Nat)} {j b t : Nat}
    (hcs : ∀ x, some x ∈ cs → ∃ tr, deref s x = some tr)
    (ht : some t ∈ cs.set j (get_router s b)) : ∃ tr, deref s t = some tr := by
  rcases mem_set_cases ht with h1 | h1
  · obtain ⟨tr, htr, -⟩ := get_router_deref h1.symm
    exact ⟨tr, htr⟩
  · exact hcs t h1

theorem set_flag_no_dangling {s s1 : registry} {id b v : Nat} {res : Int}
    (hnd : no_dangling s) (h : set_flag s id b v = some (res, s1)) : no_dangling s1 := by
  rcases set_flag_effect h with e | ⟨p, rr, fl, hrr, e⟩
  · rw [e]; exact hnd
  · rw [e]
    exact no_dangling_store hnd hrr rfl (hnd p rr hrr)

theorem set_model_no_dangling {s s1 : registry} {id : Nat} {name : List Nat} {res : Int}
    (hnd : no_dangling s) (h : set_model s id name = some (res, s1)) : no_dangling s1 := by
  obtain ⟨p, rr, hrr, e⟩ := set_model_effect h
  rw [e]
  exact no_dangling_store hnd hrr rfl (hnd p rr hrr)

theorem set_connection_no_dangling {s s1 : registry} {f : Option Nat} {b : Nat} {res : Int}
    (hnd : no_dangling s) (h : set_connection s f (get_router s b) = some (res, s1)) :
    no_dangling s1 := by
  rcases set_connection_effect h with e | ⟨p, rr, j, hrr, -, e⟩
  · rw [e]; exact hnd
  · rw [e]
    exact no_dangling_store hnd hrr rfl (fun t ht => mem_set_target (hnd p rr hrr) ht)

theorem add_connection_no_dangling {s s1 : registry} {a b : Nat} {res : Int}
    (hnd : no_dangling s) (h : add_connection s a b = some (res, s1)) : no_dangling s1 := by
  rcases add_connection_effect h with e | ⟨p, rr, j, hrr, -, e⟩
  · rw [e]; exact hnd
  · rw [e]
    exact no_dangling_store hnd hrr rfl (fun t ht => mem_set_target (hnd p rr hrr) ht)

theorem remove_router_keeps_no_dangling {s s1 : registry} {id : Nat} {res : Int}
    (hnd : no_dangling s) (h : remove_router s id = some (res, s1)) : no_dangling s1 := by
  rcases remove_router_effect h with e | ⟨-, e⟩
  · rw [e]; exact hnd
  · rw [e]; exact no_dangling_removed hnd id

theorem set_flag_desc_bounded {s s1 : registry} {id b v : Nat} {res : Int}
    (hb : desc_bounded s) (h : set_flag s id b v = some (res, s1)) : desc_bounded s1 := by
  rcases set_flag_effect h with e | ⟨p, rr, fl, hrr, e⟩
  · rw [e]; exact hb
  · rw [e]
    exact desc_bounded_store hb hrr (hb p rr hrr)

theorem set_model_desc_bounded {s s1 : registry} {id : Nat} {name : List Nat} {res : Int}
    (hb : desc_bounded s) (hlen : name.length ≤ 248)
    (h : set_model s id name = some (res, s1)) : desc_bounded s1 := by
  obtain ⟨p, rr, hrr, e⟩ := set_model_effect h
  rw [e]
  apply desc_bounded_store hb hrr
  simp only [List.length_append, List.length_take, List.length_replicate, DESC_MAX_LEN]
  omega

theorem set_connection_desc_bounded {s s1 : registry} {f t : Option Nat} {res : Int}
    (hb : desc_bounded s) (h : set_connection s f t = some (res, s1)) : desc_bounded s1 := by
  rcases set_connection_effect h with e | ⟨p, rr, j, hrr, -, e⟩
  · rw [e]; exact hb
  · rw [e]
    exact desc_bounded_store hb hrr (hb p rr hrr)

theorem add_connection_desc_bounded {s s1 : registry} {a b : Nat} {res : Int}
    (hb : desc_bounded s) (h : add_connection s a b = some (res, s1)) : desc_bounded s1 := by
  rcases add_connection_effect h with e | ⟨p, rr, j, hrr, -, e⟩
  · rw [e]; exact hb
  · rw [e]
    exact desc_bounded_store hb hrr (hb p rr hrr)

theorem remove_router_desc_bounded {s s1 : registry} {id : Nat} {res : Int}
    (hb : desc_bounded s) (h : remove_router s id = some (res, s1)) : desc_bounded s1 := by
  rcases remove_router_effect h with e | ⟨-, e⟩
  · rw [e]; exact hb
  · rw [e]; exact desc_bounded_removed hb id

/-! ## Commands on a sound registry -/

theorem line_command_some {line : command_line} {k : String}
    (h : line_command line = some k) :
    line.command = some k ∧ (line.leading = 0 ∨ k = "print" ∨ k = "sett_flag") := by
  unfold line_command at h
  cases hc : line.command with
  | none => rw [hc] at h; cases h
  | some c =>
    rw [hc] at h
    dsimp only at h
    by_cases c1 : c = "print"
    · rw [if_pos c1] at h
      cases h
      exact ⟨by rw [c1], Or.inr (Or.inl rfl)⟩
    rw [if_neg c1] at h
    by_cases c2 : c = "sett_flag"
    · rw [if_pos c2] at h
      cases h
      exact ⟨by rw [c2], Or.inr (Or.inr rfl)⟩
    rw [if_neg c2] at h
    by_cases c3 : line_text line = "sett_modell"
    · rw [if_pos c3] at h
      cases h
      obtain ⟨e1, e2⟩ := line_text_eq (not_blank_first _ 's' _ rfl (by decide)) (by decide) c3
      exact ⟨by rw [← hc, e2], Or.inl e1⟩
    rw [if_neg c3] at h
    by_cases c4 : line_text line = "legg_til_kobling"
    · rw [if_pos c4] at h
      cases h
      obtain ⟨e1, e2⟩ := line_text_eq (not_blank_first _ 'l' _ rfl (by decide)) (by decide) c4
      exact ⟨by rw [← hc, e2], Or.inl e1⟩
    rw [if_neg c4] at h
    by_cases c5 : line_text line = "slett_router"
    · rw [if_pos c5] at h
      cases h
      obtain ⟨e1, e2⟩ := line_text_eq (not_blank_first _ 's' _ rfl (by decide)) (by decide) c5
      exact ⟨by rw [← hc, e2], Or.inl e1⟩
    rw [if_neg c5] at h
    by_cases c6 : line_text line = "finnes_rute"
    · rw [if_pos c6] at h
      cases h
      obtain ⟨e1, e2⟩ := line_text_eq (not_blank_first _ 'f' _ rfl (by decide)) (by decide) c6
      exact ⟨by rw [← hc, e2], Or.inl e1⟩
    rw [if_neg c6] at h
    cases h

theorem line_command_recognised {line : command_line} {c : String}
    (hc : line.command = some c) (hrec : recognised line) : line_command line = some c := by
  unfold recognised at hrec
  rw [hc] at hrec
  obtain ⟨hv, h0 | h0 | h0⟩ := hrec
  · exact line_command_of_token h0 hc hv
  · subst h0
    unfold line_command
    rw [hc]
    rfl
  · subst h0
    unfold line_command
    rw [hc]
    rfl

theorem recognised_of_line_command {line : command_line} {k : String}
    (h : line_command line = some k) : recognised line := by
  obtain ⟨e1, e2⟩ := line_command_some h
  unfold recognised
  rw [e1]
  exact ⟨line_command_vocabulary h, e2⟩

theorem command_result_some (res0 : Int) (s1 : registry) :
    ∃ res, command_result (some (res0, s1)) = some (res, s1) ∧
      (res = SUCCESS ∨ res = FAILURE) := by
  unfold command_result
  by_cases c : res0 ≠ 0
  · exact ⟨FAILURE, by simp [c], Or.inr rfl⟩
  · exact ⟨SUCCESS, by simp [c], Or.inl rfl⟩

theorem write_connections_some (s : registry) (fromID : Nat) {cs : List (Option Nat)}
    (h : ∀ t, some t ∈ cs → ∃ tr, deref s t = some tr) :
    ∃ out, write_connections s fromID cs = some out := by
  induction cs with
  | nil => exact ⟨[], rfl⟩
  | cons c rest ih =>
    obtain ⟨out, hout⟩ := ih (fun t ht => h t (List.mem_cons_of_mem _ ht))
    cases c with
    | none => exact ⟨out, by simpa [write_connections] using hout⟩
    | some p =>
      obtain ⟨tr, htr⟩ := h p (List.mem_cons_self _ _)
      exact ⟨uint_bytes fromID ++ uint_bytes tr.routerID ++ [0] ++ out,
        by simp [write_connections, htr, hout]⟩

theorem set_flag_total {s : registry} {id p : Nat} (hlive : get_router s id = some p)
    (b v : Nat) : ∃ res s1, set_flag s id b v = some (res, s1) := by
  obtain ⟨r, hr, -⟩ := get_router_deref hlive
  unfold set_flag
  simp only [hlive]
  by_cases hb : b = 0 ∨ b = 1 ∨ b = 2
  · rw [if_pos hb]
    have hb3 : b < 3 := by omega
    by_cases hv0 : v = 0
    · rw [if_pos hv0]
      obtain ⟨fl, hfl, -⟩ := bit_pos_off_spec r.flag b hb3
      rw [assign_flag_live hr hfl]
      exact ⟨_, _, rfl⟩
    · rw [if_neg hv0]
      by_cases hv1 : v = 1
      · rw [if_pos hv1]
        obtain ⟨fl, hfl, -⟩ := bit_pos_on_spec r.flag b hb3
        rw [assign_flag_live hr hfl]
        exact ⟨_, _, rfl⟩
      · rw [if_neg hv1]
        exact ⟨_, _, rfl⟩
  · rw [if_neg hb]
    by_cases hb4 : b = 4
    · rw [if_pos hb4]
      by_cases hv : 0 ≤ v ∧ v ≤ 15
      · rw [if_pos hv]
        rw [assign_flag_live (f := fun fl => some (change_top_four_bits fl v)) hr rfl]
        exact ⟨_, _, rfl⟩
      · rw [if_neg hv]
        exact ⟨_, _, rfl⟩
    · rw [if_neg hb4]
      exact ⟨_, _, rfl⟩

theorem set_model_total {s : registry} {id p : Nat} (hlive : get_router s id = some p)
    (name : List Nat) : ∃ res s1, set_model s id name = some (res, s1) := by
  obtain ⟨r, hr, -⟩ := get_router_deref hlive
  refine ⟨SUCCESS, store s p { r with
    description := name.take DESC_MAX_LEN ++ List.replicate (DESC_MAX_LEN - name.length) 0
    desc_len := name.length % 256 }, ?_⟩
  simp only [set_model, hlive, hr]

theorem add_connection_total {s : registry} (hnd : no_dangling s) {a p : Nat}
    (hlive : get_router s a = some p) (b : Nat) :
    ∃ res s1, add_connection s a b = some (res, s1) := by
  obtain ⟨r, hr, -⟩ := get_router_deref hlive
  rcases add_connection_eq b hlive hr (hnd p r hr) with h | h | h
  · exact ⟨_, _, h.2⟩
  · exact ⟨_, _, h.2.2⟩
  · obtain ⟨-, j, -, -, e⟩ := h
    exact ⟨_, _, e⟩

theorem print_router_data_total {s : registry} (hnd : no_dangling s) (hb : desc_bounded s)
    {id p : Nat} (hlive : get_router s id = some p) :
    print_router_data s (get_router s id) = some () := by
  obtain ⟨r, hr, -⟩ := get_router_deref hlive
  obtain ⟨out, hout⟩ := write_connections_some s r.routerID (hnd p r hr)
  simp [print_router_data, hlive, hr, hb p r hr, hout]

theorem isNone_eq_false_of_some {α : Type} {o : Option α} {a : α} (h : o = some a) :
    o.isNone = false := by
  rw [h]; rfl

/-- On a registry without dangling connections every line that is taken for
a command runs, and it returns `SUCCESS` or `FAILURE`; `print` and
`finnes_rute` on a sound registry. -/
theorem run_command_runs {s : registry} (hnd : no_dangling s) {line : command_line}
    {k : String} (hk : line_command line = some k)
    (hfull : k = "print" ∨ k = "finnes_rute" → sound_registry s) :
    ∃ res s1, run_command s line = some (res, s1) ∧ (res = SUCCESS ∨ res = FAILURE) := by
  have hfail : ∃ res s1, command_result (some (FAILURE, s)) = some (res, s1) ∧
      (res = SUCCESS ∨ res = FAILURE) := ⟨FAILURE, s, command_result_failure s, Or.inr rfl⟩
  have hwrap : ∀ r : Option (Int × registry), (∃ res0 s1, r = some (res0, s1)) →
      ∃ res s1, command_result r = some (res, s1) ∧ (res = SUCCESS ∨ res = FAILURE) := by
    rintro r ⟨res0, s1, rfl⟩
    obtain ⟨res, e1, e2⟩ := command_result_some res0 s1
    exact ⟨res, s1, e1, e2⟩
  rcases line_command_vocabulary hk with e | e | e | e | e | e
  · subst e
    obtain ⟨-, hu, hN, hb⟩ := hfull (Or.inl rfl)
    rw [run_command_print hk]
    cases h1 : get_router s (to_uint line.arg1) with
    | none => simpa using hfail
    | some p =>
      rw [← h1, print_router_data_total hnd hb h1, h1]
      simp only [Option.isNone_some, Bool.false_eq_true, if_false, Option.map_some']
      exact hwrap _ ⟨_, _, rfl⟩
  · subst e
    rw [run_command_sett_flag hk]
    cases h1 : get_router s (to_uint line.arg1) with
    | none => simpa using hfail
    | some p =>
      simp only [Option.isNone_some, Bool.false_eq_true, if_false]
      exact hwrap _ (set_flag_total h1 _ _)
  · subst e
    rw [run_command_sett_modell hk]
    cases h1 : get_router s (to_uint line.arg1) with
    | none => simpa using hfail
    | some p =>
      simp only [Option.isNone_some, Bool.false_eq_true, if_false]
      exact hwrap _ (set_model_total h1 _)
  · subst e
    rw [run_command_legg_til_kobling hk]
    cases h1 : get_router s (to_uint line.arg1) with
    | none => simpa using hfail
    | some p =>
      simp only [Option.isNone_some, Bool.false_eq_true, if_false]
      cases h2 : get_router s (to_uint line.arg2) with
      | none => simpa using hfail
      | some q =>
        simp only [Option.isNone_some, Bool.false_eq_true, if_false]
        exact hwrap _ (add_connection_total hnd h1 _)
  · subst e
    rw [run_command_slett_router hk]
    cases h1 : get_router s (to_uint line.arg1) with
    | none => simpa using hfail
    | some p =>
      simp only [Option.isNone_some, Bool.false_eq_true, if_false]
      exact hwrap _ ⟨_, _, remove_router_eq h1 hnd⟩
  · subst e
    obtain ⟨-, hu, hN, hb⟩ := hfull (Or.inr rfl)
    rw [run_command_finnes_rute hk]
    cases h1 : get_router s (to_uint line.arg1) with
    | none => simpa using hfail
    | some p =>
      simp only [Option.isNone_some, Bool.false_eq_true, if_false]
      cases h2 : get_router s (to_uint line.arg2) with
      | none => simpa using hfail
      | some q =>
        simp only [Option.isNone_some, Bool.false_eq_true, if_false]
        obtain ⟨found, st, e1, -⟩ := exists_path_search_spec hnd hu hN h1 (to_uint line.arg2)
        apply hwrap
        cases found with
        | true => exact ⟨SUCCESS, s, by simp [exists_path, e1]⟩
        | false => exact ⟨SUCCESS, s, by simp [exists_path, e1]⟩

/-- On a sound registry every line that is taken for a command runs, and it
returns `SUCCESS` or `FAILURE`. -/
theorem run_command_total {s : registry} (hs : sound_registry s) {line : command_line}
    {k : String} (hk : line_command line = some k) :
    ∃ res s1, run_command s line = some (res, s1) ∧ (res = SUCCESS ∨ res = FAILURE) :=
  run_command_runs hs.1 hk (fun _ => hs)

/-- Every command keeps the registry free of dangling connections. -/
theorem run_command_no_dangling {s s1 : registry} {line : command_line} {res : Int}
    (hnd : no_dangling s) (h : run_command s line = some (res, s1)) : no_dangling s1 := by
  have hsame : ∀ {r : Option (Int × registry)}, command_result r = some (res, s1) →
      (∀ res0, r = some (res0, s1) → no_dangling s1) → no_dangling s1 := by
    intro r hr himp
    obtain ⟨res0, h1, -⟩ := command_result_eq hr
    exact himp res0 h1
  have hkeep : ∀ res0, some (FAILURE, s) = some (res0, s1) → no_dangling s1 := by
    intro res0 h1
    cases h1
    exact hnd
  cases hk : line_command line with
  | none =>
    rw [run_command_none hk] at h
    cases h
    exact hnd
  | some k =>
    rcases line_command_vocabulary hk with e | e | e | e | e | e
    · subst e
      rw [run_command_print hk] at h
      split_ifs at h
      · exact hsame h hkeep
      · refine hsame h (fun res0 h1 => ?_)
        simp only [Option.map_eq_some'] at h1
        obtain ⟨_, -, h2⟩ := h1
        cases h2
        exact hnd
    · subst e
      rw [run_command_sett_flag hk] at h
      split_ifs at h
      · exact hsame h hkeep
      · exact hsame h (fun res0 h1 => set_flag_no_dangling hnd h1)
    · subst e
      rw [run_command_sett_modell hk] at h
      split_ifs at h
      · exact hsame h hkeep
      · exact hsame h (fun res0 h1 => set_model_no_dangling hnd h1)
    · subst e
      rw [run_command_legg_til_kobling hk] at h
      split_ifs at h
      · exact hsame h hkeep
      · exact hsame h hkeep
      · exact hsame h (fun res0 h1 => add_connection_no_dangling hnd h1)
    · subst e
      rw [run_command_slett_router hk] at h
      split_ifs at h
      · exact hsame h hkeep
      · exact hsame h (fun res0 h1 => remove_router_keeps_no_dangling hnd h1)
    · subst e
      rw [run_command_finnes_rute hk] at h
      split_ifs at h
      · exact hsame h hkeep
      · exact hsame h hkeep
      · refine hsame h (fun res0 h1 => ?_)
        simp only [Option.map_eq_some'] at h1
        obtain ⟨_, -, h2⟩ := h1
        cases h2
        exact hnd

/-- Every command keeps `desc_len` within the description held, a
`sett_modell` when its new description has at most 248 bytes. -/
theorem run_command_desc_bounded {s s1 : registry} {line : command_line} {res : Int}
    (hb : desc_bounded s)
    (hlen : line.command = some "sett_modell" → line.desc.length ≤ 248)
    (h : run_command s line = some (res, s1)) : desc_bounded s1 := by
  have hsame : ∀ {r : Option (Int × registry)}, command_result r = some (res, s1) →
      (∀ res0, r = some (res0, s1) → desc_bounded s1) → desc_bounded s1 := by
    intro r hr himp
    obtain ⟨res0, h1, -⟩ := command_result_eq hr
    exact himp res0 h1
  have hkeep : ∀ res0, some (FAILURE, s) = some (res0, s1) → desc_bounded s1 := by
    intro res0 h1
    cases h1
    exact hb
  cases hk : line_command line with
  | none =>
    rw [run_command_none hk] at h
    cases h
    exact hb
  | some k =>
    rcases line_command_vocabulary hk with e | e | e | e | e | e
    · subst e
      rw [run_command_print hk] at h
      split_ifs at h
      · exact hsame h hkeep
      · refine hsame h (fun res0 h1 => ?_)
        simp only [Option.map_eq_some'] at h1
        obtain ⟨_, -, h2⟩ := h1
        cases h2
        exact hb
    · subst e
      rw [run_command_sett_flag hk] at h
      split_ifs at h
      · exact hsame h hkeep
      · exact hsame h (fun res0 h1 => set_flag_desc_bounded hb h1)
    · subst e
      rw [run_command_sett_modell hk] at h
      split_ifs at h
      · exact hsame h hkeep
      · exact hsame h (fun res0 h1 =>
          set_model_desc_bounded hb (hlen (line_command_some hk).1) h1)
    · subst e
      rw [run_command_legg_til_kobling hk] at h
      split_ifs at h
      · exact hsame h hkeep
      · exact hsame h hkeep
      · exact hsame h (fun res0 h1 => add_connection_desc_bounded hb h1)
    · subst e
      rw [run_command_slett_router hk] at h
      split_ifs at h
      · exact hsame h hkeep
      · exact hsame h (fun res0 h1 => remove_router_desc_bounded hb h1)
    · subst e
      rw [run_command_finnes_rute hk] at h
      split_ifs at h
      · exact hsame h hkeep
      · exact hsame h hkeep
      · refine hsame h (fun res0 h1 => ?_)
        simp only [Option.map_eq_some'] at h1
        obtain ⟨_, -, h2⟩ := h1
        cases h2
        exact hb

/-- A command that is run on a sound registry leaves a sound registry. -/
theorem run_command_sound {s s1 : registry} {line : command_line} {res : Int}
    (hs : sound_registry s)
    (hlen : line.command = some "sett_modell" → line.desc.length ≤ 248)
    (h : run_command s line = some (res, s1)) : sound_registry s1 := by
  obtain ⟨hnd, hu, hN, hb⟩ := hs
  obtain ⟨e1, e2⟩ := run_command_live_count h hN hu
  exact ⟨run_command_no_dangling hnd h, e2, e1, run_command_desc_bounded hb hlen h⟩

theorem run_command_unique_ids {s s1 : registry} {line : command_line} {res : Int}
    (hu : unique_ids s) (h : run_command s line = some (res, s1)) : unique_ids s1 := by
  rcases run_command_frame h with ⟨-, -, hrem⟩ | ⟨-, hids, -⟩
  · exact (remove_router_count hrem hu).2.2
  · unfold unique_ids
    rw [live_ids_of_slot_ids hids]
    exact hu

theorem run_lines_append {s0 s : registry} {pre : List command_line}
    (h : run_lines s0 pre = some (SUCCESS, s)) (rest : List command_line) :
    run_lines s0 (pre ++ rest) = run_lines s rest := by
  induction pre generalizing s0 with
  | nil =>
    simp only [run_lines, Option.some.injEq, Prod.mk.injEq, true_and] at h
    rw [h]
    rfl
  | cons l pre ih =>
    simp only [run_lines, List.cons_append] at h ⊢
    cases hr : run_command s0 l with
    | none => rw [hr] at h; cases h
    | some x =>
      obtain ⟨result, s1⟩ := x
      rw [hr] at h
      dsimp only at h ⊢
      by_cases hc : result = CRITICAL_FAILURE
      · rw [if_pos hc] at h
        subst hc
        simp [CRITICAL_FAILURE, SUCCESS] at h
      · rw [if_neg hc] at h ⊢
        exact ih h

theorem run_all_commands_cons (s : registry) (line : command_line)
    (rest : List command_line) :
    run_all_commands s (line :: rest) = run_lines s (line :: rest) := rfl

theorem run_all_commands_append (s : registry) (pre : List command_line)
    (line : command_line) (post : List command_line) :
    run_all_commands s (pre ++ line :: post) = run_lines s (pre ++ line :: post) := by
  cases pre with
  | nil => rfl
  | cons l pre => rfl

/-! ## Unknown routers, unknown commands, dangling connections -/

/-- Unknown router, on the lines that `run_command` takes for a command.
Let the first token of a line be `print` or `sett_flag`, or let the line
start, with no blank in front, with one of `sett_modell`,
`legg_til_kobling`, `slett_router`, `finnes_rute`, and let a router id it
refers to be not live: its first number, or its second number when the
command is `legg_til_kobling` or `finnes_rute`.  Then `run_command` returns
`FAILURE`, which is not `CRITICAL_FAILURE`, and the registry is the one
before the call.  Likewise `remove_router` with an id that is not live
returns `FAILURE` and leaves the registry as it is. -/
theorem unknown_router_not_fatal (s : registry) (line : command_line) (c : String)
    (hc : line.command = some c) (hrec : recognised line)
    (hunknown : get_router s (to_uint line.arg1) = none ∨
      ((c = "legg_til_kobling" ∨ c = "finnes_rute") ∧
        get_router s (to_uint line.arg2) = none)) :
    run_command s line = some (FAILURE, s) ∧ FAILURE ≠ CRITICAL_FAILURE ∧
    ∀ id, get_router s id = none → remove_router s id = some (FAILURE, s) := by
  have hk := line_command_recognised hc hrec
  refine ⟨?_, by decide, ?_⟩
  · have hf := command_result_failure s
    rcases line_command_vocabulary hk with e | e | e | e | e | e
    · subst e
      rw [run_command_print hk]
      rcases hunknown with h1 | ⟨h0, -⟩
      · simp only [h1, Option.isNone_none, if_true]
        exact hf
      · rcases h0 with h0 | h0 <;> exact absurd h0 (by decide)
    · subst e
      rw [run_command_sett_flag hk]
      rcases hunknown with h1 | ⟨h0, -⟩
      · simp only [h1, Option.isNone_none, if_true]
        exact hf
      · rcases h0 with h0 | h0 <;> exact absurd h0 (by decide)
    · subst e
      rw [run_command_sett_modell hk]
      rcases hunknown with h1 | ⟨h0, -⟩
      · simp only [h1, Option.isNone_none, if_true]
        exact hf
      · rcases h0 with h0 | h0 <;> exact absurd h0 (by decide)
    · subst e
      rw [run_command_legg_til_kobling hk]
      rcases hunknown with h1 | ⟨-, h2⟩
      · simp only [h1, Option.isNone_none, if_true]
        exact hf
      · simp only [h2, Option.isNone_none, if_true]
        split_ifs <;> exact hf
    · subst e
      rw [run_command_slett_router hk]
      rcases hunknown with h1 | ⟨h0, -⟩
      · simp only [h1, Option.isNone_none, if_true]
        exact hf
      · rcases h0 with h0 | h0 <;> exact absurd h0 (by decide)
    · subst e
      rw [run_command_finnes_rute hk]
      rcases hunknown with h1 | ⟨-, h2⟩
      · simp only [h1, Option.isNone_none, if_true]
        exact hf
      · simp only [h2, Option.isNone_none, if_true]
        split_ifs <;> exact hf
  · intro id hid
    simp only [remove_router, hid]

/-- The line `slett_router 9` on the chain 1 → 2 → 3 returns `FAILURE`. -/
theorem unknown_router_not_fatal_witness :
    run_command chain_registry (sample_line "slett_router" 9 0 0) =
      some (FAILURE, chain_registry) ∧
    FAILURE ≠ CRITICAL_FAILURE ∧
    ∀ id, get_router chain_registry id = none →
      remove_router chain_registry id = some (FAILURE, chain_registry) :=
  unknown_router_not_fatal chain_registry (sample_line "slett_router" 9 0 0) "slett_router"
    rfl (by decide) (Or.inl (by decide))

/-- C13 (code bug).  Unknown router on a line with a blank in front.  No
router of the chain 1 → 2 → 3 has the id 9.  The lines ` sett_modell 9`,
` legg_til_kobling 9 1`, ` slett_router 9` and ` finnes_rute 1 9`, each with
one blank in front, have a first token of the vocabulary and refer to the id
9, yet `run_command` returns `CRITICAL_FAILURE` for them, not `FAILURE`: the
tests for these four commands compare `line`, which starts with the blank,
and not the token `command`.  The tests for `print` and `sett_flag` compare
the token: ` print 9` and ` sett_flag 9 0 0` return `FAILURE`, as does
`slett_router 9` with no blank in front.  `run_all_commands` stops at such a
line and `main` returns `EXIT_FAILURE` and writes no file. -/
theorem unknown_router_blank_first_fatal :
    get_router chain_registry 9 = none ∧
    (∀ c ∈ ["sett_modell", "legg_til_kobling", "slett_router", "finnes_rute", "print",
      "sett_flag"], in_vocabulary c) ∧
    run_command chain_registry { sample_line "sett_modell" 9 0 0 with leading := 1 } =
      some (CRITICAL_FAILURE, chain_registry) ∧
    run_command chain_registry { sample_line "legg_til_kobling" 9 1 0 with leading := 1 } =
      some (CRITICAL_FAILURE, chain_registry) ∧
    run_command chain_registry { sample_line "slett_router" 9 0 0 with leading := 1 } =
      some (CRITICAL_FAILURE, chain_registry) ∧
    run_command chain_registry { sample_line "finnes_rute" 1 9 0 with leading := 1 } =
      some (CRITICAL_FAILURE, chain_registry) ∧
    CRITICAL_FAILURE ≠ FAILURE ∧
    run_command chain_registry { sample_line "print" 9 0 0 with leading := 1 } =
      some (FAILURE, chain_registry) ∧
    run_command chain_registry { sample_line "sett_flag" 9 0 0 with leading := 1 } =
      some (FAILURE, chain_registry) ∧
    run_command chain_registry (sample_line "slett_router" 9 0 0) =
      some (FAILURE, chain_registry) ∧
    run_all_commands chain_registry
        [{ sample_line "slett_router" 9 0 0 with leading := 1 },
          sample_line "sett_flag" 1 1 1] =
      some (CRITICAL_FAILURE, chain_registry) ∧
    main chain_file
        [{ sample_line "slett_router" 9 0 0 with leading := 1 },
          sample_line "sett_flag" 1 1 1] =
      some (EXIT_FAILURE, none) := by
  refine ⟨by decide, by decide, by decide, by decide, by decide, by decide, by decide,
    by decide, by decide, by decide, by decide, by decide⟩

/-- C15.  Unrecognised command.  Let the first token of a line be none of
the six commands of the vocabulary (or let the line hold no token).  Then
`run_command` returns `CRITICAL_FAILURE` and the registry is the one before
the call.  When the lines before it ran, leaving the registry `s`,
`run_all_commands` returns `CRITICAL_FAILURE` with the registry `s`:
whatever lines follow, none of them is applied.  `main` then returns
`EXIT_FAILURE` and writes no file. -/
theorem unrecognised_command_fatal (s0 s : registry) (pre post : List command_line)
    (line : command_line)
    (hbad : ∀ c, line.command = some c → ¬ in_vocabulary c)
    (hpre : run_lines s0 pre = some (SUCCESS, s)) :
    run_command s line = some (CRITICAL_FAILURE, s) ∧
    run_all_commands s0 (pre ++ line :: post) = some (CRITICAL_FAILURE, s) ∧
    ∀ bytes res0, load bytes = some (res0, s0) →
      main bytes (pre ++ line :: post) = some (EXIT_FAILURE, none) := by
  have h1 : run_command s line = some (CRITICAL_FAILURE, s) :=
    run_command_none (line_command_unknown hbad)
  have h2 : run_all_commands s0 (pre ++ line :: post) = some (CRITICAL_FAILURE, s) := by
    rw [run_all_commands_append, run_lines_append hpre]
    simp only [run_lines, h1, if_true]
  refine ⟨h1, h2, ?_⟩
  intro bytes res0 hload
  unfold main
  rw [hload]
  dsimp only
  by_cases hc : res0 = CRITICAL_FAILURE
  · rw [if_pos hc]
  · rw [if_neg hc, h2]
    rfl

/-- Witness for C15: the line `skriv 1` between `sett_flag 1 1 1` and
`slett_router 2`, on the chain 1 → 2 → 3. -/
theorem unrecognised_command_fatal_witness :
    run_command (store chain_registry 0 { sample_router 1 [some 1] with flag := 7 })
        (sample_line "skriv" 1 0 0) =
      some (CRITICAL_FAILURE,
        store chain_registry 0 { sample_router 1 [some 1] with flag := 7 }) ∧
    run_all_commands chain_registry
        ([sample_line "sett_flag" 1 1 1] ++ sample_line "skriv" 1 0 0 ::
          [sample_line "slett_router" 2 0 0]) =
      some (CRITICAL_FAILURE,
        store chain_registry 0 { sample_router 1 [some 1] with flag := 7 }) ∧
    ∀ bytes res0, load bytes = some (res0, chain_registry) →
      main bytes ([sample_line "sett_flag" 1 1 1] ++ sample_line "skriv" 1 0 0 ::
          [sample_line "slett_router" 2 0 0]) = some (EXIT_FAILURE, none) :=
  unrecognised_command_fatal chain_registry
    (store chain_registry 0 { sample_router 1 [some 1] with flag := 7 })
    [sample_line "sett_flag" 1 1 1] [sample_line "slett_router" 2 0 0]
    (sample_line "skriv" 1 0 0)
    (fun c hc => by cases hc; decide) (by decide)

/-- C20.  No dangling edges.  Let the live ids of a registry be unique and
let every occupied outgoing slot of every occupied router point to an
occupied slot.  Then every `sett_flag`, `sett_modell`, `legg_til_kobling` and
`slett_router` line runs and returns `SUCCESS` or `FAILURE`; after every
line, whatever it returns, and after every call of `set_flag`, `set_model`,
`add_connection` and `remove_router`, again every occupied outgoing slot of
every occupied router points to an occupied slot, and the live ids are still
unique. -/
theorem no_dangling_invariant (s : registry) (hu : unique_ids s) (hnd : no_dangling s) :
    (∀ line c, line.command = some c → recognised line →
      c = "sett_flag" ∨ c = "sett_modell" ∨ c = "legg_til_kobling" ∨ c = "slett_router" →
      ∃ res s1, run_command s line = some (res, s1) ∧ (res = SUCCESS ∨ res = FAILURE)) ∧
    (∀ line res s1, run_command s line = some (res, s1) →
      no_dangling s1 ∧ unique_ids s1) ∧
    (∀ id b v res s1, set_flag s id b v = some (res, s1) → no_dangling s1) ∧
    (∀ id name res s1, set_model s id name = some (res, s1) → no_dangling s1) ∧
    (∀ a b res s1, add_connection s a b = some (res, s1) → no_dangling s1) ∧
    (∀ id res s1, remove_router s id = some (res, s1) → no_dangling s1) := by
  refine ⟨?_, ?_, ?_, ?_, ?_, ?_⟩
  · intro line c hc hrec hmut
    apply run_command_runs hnd (line_command_recognised hc hrec)
    intro hpf
    rcases hmut with h | h | h | h <;> subst h <;>
      rcases hpf with h1 | h1 <;> exact absurd h1 (by decide)
  · intro line res s1 h
    exact ⟨run_command_no_dangling hnd h, run_command_unique_ids hu h⟩
  · intro id b v res s1 h
    exact set_flag_no_dangling hnd h
  · intro id name res s1 h
    exact set_model_no_dangling hnd h
  · intro a b res s1 h
    exact add_connection_no_dangling hnd h
  · intro id res s1 h
    exact remove_router_keeps_no_dangling hnd h

/-- Witness for C20: the chain 1 → 2 → 3. -/
theorem no_dangling_invariant_witness :
    (∀ line c, line.command = some c → recognised line →
      c = "sett_flag" ∨ c = "sett_modell" ∨ c = "legg_til_kobling" ∨ c = "slett_router" →
      ∃ res s1, run_command chain_registry line = some (res, s1) ∧
        (res = SUCCESS ∨ res = FAILURE)) ∧
    (∀ line res s1, run_command chain_registry line = some (res, s1) →
      no_dangling s1 ∧ unique_ids s1) ∧
    (∀ id b v res s1, set_flag chain_registry id b v = some (res, s1) → no_dangling s1) ∧
    (∀ id name res s1, set_model chain_registry id name = some (res, s1) →
      no_dangling s1) ∧
    (∀ a b res s1, add_connection chain_registry a b = some (res, s1) → no_dangling s1) ∧
    (∀ id res s1, remove_router chain_registry id = some (res, s1) → no_dangling s1) :=
  no_dangling_invariant chain_registry (by decide) chain_no_dangling

/-! ## The registry after loading -/

theorem create_router_fresh {fh fh1 : FILE} {r : router}
    (h : create_router fh = some (r, fh1)) :
    r.connections = List.replicate MAX_CONNECTIONS none ∧
      r.desc_len ≤ r.description.length := by
  unfold create_router at h
  split at h
  · rename_i b0 b1 b2 b3 flag desc_len fh2 hfr
    split_ifs at h with hlen
    unfold fread at h
    split_ifs at h with hd
    · simp only [Option.map_eq_some'] at h
      obtain ⟨fh3, -, h3⟩ := h
      cases h3
      refine ⟨rfl, ?_⟩
      simp only [List.length_take]
      omega
    · simp [get_to_next_router_info_block, skip_to_zero] at h
  · cases h

theorem create_all_routers_fresh {n : Nat} {fh fh2 : FILE} {slots : List (Option router)}
    (h : create_all_routers n fh = some (slots, fh2)) :
    ∀ r, some r ∈ slots →
      r.connections = List.replicate MAX_CONNECTIONS none ∧
        r.desc_len ≤ r.description.length := by
  induction n generalizing fh slots with
  | zero =>
    simp [create_all_routers] at h
    obtain ⟨rfl, -⟩ := h
    intro r hr
    cases hr
  | succ n ih =>
    simp only [create_all_routers] at h
    split at h
    · cases h
    · rename_i r fh1 hr
      simp only [Option.map_eq_some'] at h
      obtain ⟨⟨rs, fh3⟩, h1, h2⟩ := h
      cases h2
      intro r1 hr1
      rcases List.mem_cons.mp hr1 with h3 | h3
      · cases h3
        exact create_router_fresh hr
      · exact ih h1 r1 h3

theorem set_all_connections_turn_keeps {P : registry → Prop}
    (hP : ∀ s f b res s1, P s → set_connection s f (get_router s b) = some (res, s1) → P s1)
    {s s1 : registry} {fh fh1 : FILE} (hs : P s)
    (h : set_all_connections_turn s fh = some (Sum.inr (s1, fh1))) : P s1 := by
  unfold set_all_connections_turn at h
  generalize get_num_from_stream fh = g1 at h
  obtain ⟨res1, fromID, fh2⟩ := g1
  dsimp only at h
  by_cases c1 : res1 ≠ SUCCESS
  · rw [if_pos c1] at h
    split_ifs at h <;> cases h
  rw [if_neg c1] at h
  generalize get_num_from_stream fh2 = g2 at h
  obtain ⟨res2, toID, fh3⟩ := g2
  dsimp only at h
  by_cases c2 : res2 ≠ SUCCESS
  · rw [if_pos c2] at h
    split_ifs at h <;> cases h
  rw [if_neg c2] at h
  split at h
  · split at h
    · cases h
    · rename_i r2 s2 h2
      have hf := hP _ _ _ _ _ hs h2
      generalize fgetc (fgetc fh3).2 = g3 at h
      obtain ⟨c, fh4⟩ := g3
      dsimp only at h
      split_ifs at h
      · split at h <;> (cases h; exact hf)
      · cases h; exact hf
  · cases h

theorem set_all_connections_loop_keeps {P : registry → Prop}
    (hP : ∀ s f b res s1, P s → set_connection s f (get_router s b) = some (res, s1) → P s1)
    {fuel : Nat} {s s1 : registry} {fh : FILE} {res : Int} (hs : P s)
    (h : set_all_connections_loop fuel s fh = some (res, s1)) : P s1 := by
  induction fuel generalizing s fh with
  | zero => simp [set_all_connections_loop] at h
  | succ fuel ih =>
    rw [set_all_connections_loop] at h
    split_ifs at h
    · cases h; exact hs
    · split at h
      · cases h
      · cases h; exact hs
      · rename_i s2 fh2 h2
        exact ih (set_all_connections_turn_keeps hP hs h2) h

/-- After loading no outgoing slot points to an empty slot and no `desc_len`
exceeds the description read. -/
theorem load_no_dangling {bytes : List Nat} {res : Int} {s0 : registry}
    (h : load bytes = some (res, s0)) : no_dangling s0 ∧ desc_bounded s0 := by
  unfold load at h
  simp only at h
  split_ifs at h
  split at h
  · cases h
  · rename_i slots fh2 hc
    have hfresh := create_all_routers_fresh hc
    have hinit : no_dangling
          { router_array := slots
            N_ROUTERS := int_of_bytes (fread 4 { data := bytes, eof := false }).1 } ∧
        desc_bounded
          { router_array := slots
            N_ROUTERS := int_of_bytes (fread 4 { data := bytes, eof := false }).1 } := by
      refine ⟨?_, ?_⟩
      · intro q r hr t ht
        rw [(hfresh r (deref_mem hr)).1] at ht
        have := List.eq_of_mem_replicate ht
        cases this
      · intro q r hr
        exact (hfresh r (deref_mem hr)).2
    unfold set_all_connections at h
    split_ifs at h
    · cases h
      exact hinit
    · exact set_all_connections_loop_keeps
        (P := fun s => no_dangling s ∧ desc_bounded s)
        (fun s f b res s1 hs hset =>
          ⟨set_connection_no_dangling hs.1 hset, set_connection_desc_bounded hs.2 hset⟩)
        hinit h

/-- A load whose count field is not negative as an `int` and whose router ids
are unique gives a sound registry. -/
theorem load_sound {bytes : List Nat} {res : Int} {s0 : registry}
    (h : load bytes = some (res, s0)) (hN : 0 ≤ s0.N_ROUTERS) (hu : unique_ids s0) :
    sound_registry s0 :=
  ⟨(load_no_dangling h).1, hu, load_live_count h hN, (load_no_dangling h).2⟩

/-! ## The bytes written -/

theorem write_router_eq {r : router} {out : List Nat} (h : write_router r = some out) :
    out = reference_router_record r := by
  unfold write_router at h
  split_ifs at h
  cases h
  simp [reference_router_record]

theorem write_router_bounded {r : router} (h : r.desc_len ≤ r.description.length) :
    write_router r = some (reference_router_record r) := by
  unfold write_router
  rw [if_pos h]
  simp [reference_router_record]

theorem write_routers_eq {slots : List (Option router)} {out : List Nat}
    (h : write_routers slots = some out) :
    out = ((slots.filterMap id).map reference_router_record).flatten := by
  induction slots generalizing out with
  | nil =>
    simp only [write_routers, Option.some.injEq] at h
    rw [← h]
    rfl
  | cons o rest ih =>
    cases o with
    | none =>
      simp only [write_routers] at h
      simpa using ih h
    | some r =>
      simp only [write_routers] at h
      cases hr : write_router r with
      | none => rw [hr] at h; cases h
      | some bs =>
        rw [hr] at h
        simp only [Option.map_eq_some'] at h
        obtain ⟨out1, h1, h2⟩ := h
        rw [← h2, ih h1, write_router_eq hr]
        simp

theorem write_routers_bounded {slots : List (Option router)}
    (h : ∀ r, some r ∈ slots → r.desc_len ≤ r.description.length) :
    write_routers slots = some ((slots.filterMap id).map reference_router_record).flatten := by
  induction slots with
  | nil => rfl
  | cons o rest ih =>
    have h2 := ih (fun r hr => h r (List.mem_cons_of_mem _ hr))
    cases o with
    | none =>
      simp only [write_routers]
      simpa using h2
    | some r =>
      simp only [write_routers, write_router_bounded (h r (List.mem_cons_self _ _)), h2]
      simp

theorem write_connections_eq {s : registry} {fromID : Nat} {cs : List (Option Nat)}
    {out : List Nat} (h : write_connections s fromID cs = some out) :
    out = ((cs.filterMap id).map
      (fun t => encode_connection_record (fromID, target_id s t))).flatten := by
  induction cs generalizing out with
  | nil =>
    simp only [write_connections, Option.some.injEq] at h
    rw [← h]
    rfl
  | cons c rest ih =>
    cases c with
    | none =>
      simp only [write_connections] at h
      simpa using ih h
    | some p =>
      simp only [write_connections] at h
      cases hp : deref s p with
      | none => rw [hp] at h; cases h
      | some tr =>
        rw [hp] at h
        simp only [Option.map_eq_some'] at h
        obtain ⟨out1, h1, h2⟩ := h
        rw [← h2, ih h1]
        simp [encode_connection_record, target_id, hp]

theorem write_connections_local {s : registry} (fromID : Nat) {cs : List (Option Nat)}
    (h : ∀ t, some t ∈ cs → ∃ tr, deref s t = some tr) :
    write_connections s fromID cs = some ((cs.filterMap id).map
      (fun t => encode_connection_record (fromID, target_id s t))).flatten := by
  obtain ⟨out, hout⟩ := write_connections_some s fromID h
  rw [hout, write_connections_eq hout]

theorem write_connections_scan_eq {s : registry} {slots : List (Option router)}
    {out : List Nat} (h : write_connections_scan s slots = some out) :
    out = ((slots.filterMap id).map (reference_connection_records s)).flatten := by
  induction slots generalizing out with
  | nil =>
    simp only [write_connections_scan, Option.some.injEq] at h
    rw [← h]
    rfl
  | cons o rest ih =>
    cases o with
    | none =>
      simp only [write_connections_scan] at h
      simpa using ih h
    | some r =>
      simp only [write_connections_scan] at h
      cases hr : write_connections s r.routerID r.connections with
      | none => rw [hr] at h; cases h
      | some bs =>
        rw [hr] at h
        simp only [Option.map_eq_some'] at h
        obtain ⟨out1, h1, h2⟩ := h
        rw [← h2, ih h1, write_connections_eq hr]
        simp [reference_connection_records]

theorem write_connections_scan_local {s : registry} {slots : List (Option router)}
    (h : ∀ r, some r ∈ slots → ∀ t, some t ∈ r.connections → ∃ tr, deref s t = some tr) :
    write_connections_scan s slots =
      some ((slots.filterMap id).map (reference_connection_records s)).flatten := by
  induction slots with
  | nil => rfl
  | cons o rest ih =>
    have h2 := ih (fun r hr => h r (List.mem_cons_of_mem _ hr))
    cases o with
    | none =>
      simp only [write_connections_scan]
      simpa using h2
    | some r =>
      simp only [write_connections_scan,
        write_connections_local r.routerID (h r (List.mem_cons_self _ _)), h2]
      simp [reference_connection_records]

theorem write_to_file_eq {s : registry} {out : List Nat} (h : write_to_file s = some out) :
    out = encode_reference s := by
  unfold write_to_file at h
  cases h1 : write_routers s.router_array with
  | none => rw [h1] at h; cases h
  | some rs =>
    rw [h1] at h
    simp only [Option.map_eq_some', write_connections_to_file] at h
    obtain ⟨cs, h2, h3⟩ := h
    rw [← h3, write_routers_eq h1, write_connections_scan_eq h2]
    rfl

theorem write_to_file_sound {s : registry} (hnd : no_dangling s) (hb : desc_bounded s) :
    write_to_file s = some (encode_reference s) := by
  have h1 := @write_routers_bounded s.router_array (fun r hr => by
    obtain ⟨q, hq⟩ := List.getElem?_of_mem hr
    exact hb q r (deref_eq_some.mpr hq))
  have h2 := @write_connections_scan_local s s.router_array
    (fun r hr t ht => by
      obtain ⟨q, hq⟩ := List.getElem?_of_mem hr
      exact hnd q r (deref_eq_some.mpr hq) t ht)
  unfold write_to_file write_connections_to_file
  rw [h1, h2]
  rfl

theorem chain_desc_bounded : desc_bounded chain_registry :=
  (load_no_dangling load_chain_file).2

theorem chain_sound : sound_registry chain_registry :=
  load_sound load_chain_file (by decide) (by decide)

/-! ## A whole command file -/

theorem run_lines_sound (lines : List command_line) :
    ∀ s, sound_registry s → (∀ line ∈ lines, recognised line) →
      (∀ line ∈ lines, line.command = some "sett_modell" → line.desc.length ≤ 248) →
      ∃ s1, apply_each s lines = some s1 ∧ run_lines s lines = some (SUCCESS, s1) ∧
        sound_registry s1 := by
  induction lines with
  | nil =>
    intro s hs _ _
    exact ⟨s, rfl, rfl, hs⟩
  | cons l rest ih =>
    intro s hs hrec hlen
    have hl : recognised l := hrec l (List.mem_cons_self _ _)
    cases hc : l.command with
    | none =>
      unfold recognised at hl
      rw [hc] at hl
      exact hl.elim
    | some c =>
      have hk := line_command_recognised hc hl
      obtain ⟨res, s1, hrun, hres⟩ := run_command_total hs hk
      have hs1 := run_command_sound hs (hlen l (List.mem_cons_self _ _)) hrun
      obtain ⟨s2, e1, e2, e3⟩ := ih s1 hs1
        (fun x hx => hrec x (List.mem_cons_of_mem _ hx))
        (fun x hx => hlen x (List.mem_cons_of_mem _ hx))
      have hnc : res ≠ CRITICAL_FAILURE := by
        rcases hres with h | h <;> (rw [h]; decide)
      refine ⟨s2, ?_, ?_, e3⟩
      · simp only [apply_each, hrun]
        exact e1
      · simp only [run_lines, hrun, if_neg hnc]
        exact e2

/-- C14 (amended).  Failures that are not critical do not stop the run.  Let
the registry be sound (as after a load with unique router ids and a count
field that is not negative), let the command list be not empty, let every
line be taken for a command of the vocabulary (its first token is `print` or
`sett_flag`, or the line starts with one of the other four commands), and
let the new description of every `sett_modell` line have at most 248 bytes.
Then every line is run in order, each on the registry the line before it
left, whatever the lines return; `run_all_commands` returns `SUCCESS` with
the registry after the last line; `write_to_file` writes the encoding of
that registry; and `main`, when the load gave this registry without a
critical failure, returns `EXIT_SUCCESS` having written these bytes. -/
theorem run_all_commands_continues (s : registry) (lines : List command_line)
    (hs : sound_registry s) (hne : lines ≠ [])
    (hrec : ∀ line ∈ lines, recognised line)
    (hlen : ∀ line ∈ lines, line.command = some "sett_modell" → line.desc.length ≤ 248) :
    ∃ s1 out, apply_each s lines = some s1 ∧
      run_all_commands s lines = some (SUCCESS, s1) ∧
      write_to_file s1 = some out ∧ out = encode_reference s1 ∧
      ∀ bytes res0, load bytes = some (res0, s) → res0 ≠ CRITICAL_FAILURE →
        main bytes lines = some (EXIT_SUCCESS, some out) := by
  obtain ⟨s1, e1, e2, e3⟩ := run_lines_sound lines s hs hrec hlen
  have hw := write_to_file_sound e3.1 e3.2.2.2
  have hall : run_all_commands s lines = some (SUCCESS, s1) := by
    cases lines with
    | nil => exact absurd rfl hne
    | cons l rest => exact e2
  refine ⟨s1, encode_reference s1, e1, hall, hw, rfl, ?_⟩
  intro bytes res0 hload hres
  unfold main
  rw [hload]
  dsimp only
  rw [if_neg hres, hall]
  dsimp only
  rw [if_neg (by decide), hw]
  rfl

/-- Witness for C14: `sett_flag 1 4 16` followed by `sett_flag 1 1 1` on the
chain 1 → 2 → 3. -/
theorem run_all_commands_continues_witness :
    (∃ s1 out,
      apply_each chain_registry
        [sample_line "sett_flag" 1 4 16, sample_line "sett_flag" 1 1 1] = some s1 ∧
      run_all_commands chain_registry
        [sample_line "sett_flag" 1 4 16, sample_line "sett_flag" 1 1 1] =
          some (SUCCESS, s1) ∧
      write_to_file s1 = some out ∧ out = encode_reference s1 ∧
      ∀ bytes res0, load bytes = some (res0, chain_registry) → res0 ≠ CRITICAL_FAILURE →
        main bytes [sample_line "sett_flag" 1 4 16, sample_line "sett_flag" 1 1 1] =
          some (EXIT_SUCCESS, some out)) ∧
    run_command chain_registry (sample_line "sett_flag" 1 4 16) =
      some (FAILURE, chain_registry) ∧
    run_all_commands chain_registry
        [sample_line "sett_flag" 1 4 16, sample_line "sett_flag" 1 1 1] =
      some (SUCCESS, store chain_registry 0 { sample_router 1 [some 1] with flag := 7 }) :=
  ⟨run_all_commands_continues chain_registry
      [sample_line "sett_flag" 1 4 16, sample_line "sett_flag" 1 1 1]
      chain_sound (by decide) (by decide) (by decide),
    by decide, by decide⟩

/-- Counterexample for C14 as stated.  In the empty command list every first
token is a recognised command, yet `run_all_commands` returns `FAILURE`, not
`SUCCESS` (`main` still writes the file).  And the line ` slett_router 2`,
with a blank in front, has the recognised first token `slett_router`, yet
`run_command` compares the whole line and returns `CRITICAL_FAILURE`, so
`main` returns `EXIT_FAILURE` and writes no file. -/
theorem run_all_commands_not_success :
    (∀ line ∈ ([] : List command_line), ∃ c, line.command = some c ∧ in_vocabulary c) ∧
    run_all_commands chain_registry [] = some (FAILURE, chain_registry) ∧
    FAILURE ≠ SUCCESS ∧
    main chain_file [] = some (EXIT_SUCCESS, some chain_file) ∧
    (∀ line ∈ [({ sample_line "slett_router" 2 0 0 with leading := 1 } : command_line)],
      ∃ c, line.command = some c ∧ in_vocabulary c) ∧
    run_all_commands chain_registry [{ sample_line "slett_router" 2 0 0 with leading := 1 }] =
      some (CRITICAL_FAILURE, chain_registry) ∧
    main chain_file [{ sample_line "slett_router" 2 0 0 with leading := 1 }] =
      some (EXIT_FAILURE, none) := by
  refine ⟨?_, by decide, by decide, by decide, ?_, by decide, by decide⟩
  · intro line hl
    cases hl
  · intro line hl
    rw [List.mem_singleton] at hl
    subst hl
    exact ⟨"slett_router", rfl, by decide⟩

/-- C16.  The bytes written.  Whenever `write_to_file` writes a registry,
the bytes are those of the reference encoding: the count `N_ROUTERS`
(4 bytes); for each occupied slot in slot order the id (4 bytes), the flag,
`desc_len`, the first `desc_len` description bytes and one `0x00` byte, an
empty slot giving nothing; then for each occupied slot in slot order and
each occupied outgoing slot in outgoing-slot order the id of the router, the
id of the target (4 bytes each) and one `0x00` byte.  And it does write every
registry in which no outgoing slot points to an empty slot and no `desc_len`
exceeds the description held. -/
theorem write_to_file_encodes (s : registry) :
    (∀ out, write_to_file s = some out → out = encode_reference s) ∧
    (no_dangling s → desc_bounded s → write_to_file s = some (encode_reference s)) :=
  ⟨fun _ h => write_to_file_eq h, fun hnd hb => write_to_file_sound hnd hb⟩

/-- Witness for C16: the chain 1 → 2 → 3, and the chain after router 2 was
removed, where the empty slot gives no bytes. -/
theorem write_to_file_encodes_witness :
    write_to_file chain_registry = some (encode_reference chain_registry) ∧
    encode_reference chain_registry = chain_file ∧
    write_to_file (removed chain_registry 2) =
      some (encode_reference (removed chain_registry 2)) ∧
    encode_reference (removed chain_registry 2) =
      [2, 0, 0, 0,
       1, 0, 0, 0, 5, 2, 97, 98, 0,
       3, 0, 0, 0, 5, 2, 97, 98, 0] :=
  ⟨(write_to_file_encodes chain_registry).2 chain_no_dangling chain_desc_bounded,
    by decide,
    (write_to_file_encodes (removed chain_registry 2)).2
      (no_dangling_removed chain_no_dangling 2) (desc_bounded_removed chain_desc_bounded 2),
    by decide⟩

/-! ## The path scenario and the result of `exists_path` -/

/-- C17.  The scenario of the chain 1 → 2 → 3.  `finnes_rute 1 3` runs and
the search finds a path, but the ids handed to `print_path` are `[1, 2]`, not
`[1, 2, 3]`: the target is left out.  `slett_router 2` then removes router 2,
and after it the search of `finnes_rute 1 3` finds no path. -/
theorem scenario_reports_short_path :
    run_command chain_registry (sample_line "finnes_rute" 1 3 0) =
      some (SUCCESS, chain_registry) ∧
    exists_path chain_registry 1 3 = some (SUCCESS, some [1, 2]) ∧
    ([1, 2] : List Nat) ≠ [1, 2, 3] ∧
    run_command chain_registry (sample_line "slett_router" 2 0 0) =
      some (SUCCESS, removed chain_registry 2) ∧
    exists_path (removed chain_registry 2) 1 3 = some (SUCCESS, none) ∧
    run_command (removed chain_registry 2) (sample_line "finnes_rute" 1 3 0) =
      some (SUCCESS, removed chain_registry 2) := by
  refine ⟨by decide, by decide, by decide, by decide, by decide, by decide⟩

/-- C18.  The result of `exists_path`.  Whenever `exists_path` returns, it
returns `SUCCESS`, which is 0 and so `FALSE`, whether a path was found or
not: in the chain 1 → 2 → 3 a path from 1 to 3 is found and the result is
`SUCCESS`, not `TRUE`; after router 2 was removed no path is found and the
result is `SUCCESS` again. -/
theorem exists_path_result_is_success :
    (∀ s fromID toID res report,
      exists_path s fromID toID = some (res, report) → res = SUCCESS) ∧
    SUCCESS = FALSE ∧ SUCCESS ≠ TRUE ∧
    (∃ report, exists_path chain_registry 1 3 = some (SUCCESS, some report)) ∧
    exists_path (removed chain_registry 2) 1 3 = some (SUCCESS, none) := by
  refine ⟨?_, by decide, by decide, ⟨[1, 2], by decide⟩, by decide⟩
  intro s fromID toID res report h
  unfold exists_path at h
  split at h
  · cases h
  · cases h; rfl
  · cases h; rfl

/-! ## Decoding the router records -/

theorem uint_of_bytes_uint_bytes (n : Nat) (h : n < 2 ^ 32) :
    uint_of_bytes (uint_bytes n) = n := by
  simp only [uint_bytes, uint_of_bytes]
  omega

theorem int_of_bytes_uint_bytes (n : Nat) (h : n < 2 ^ 31) :
    int_of_bytes (uint_bytes n) = (n : Int) := by
  unfold int_of_bytes
  rw [uint_of_bytes_uint_bytes n (by omega)]
  simp only
  rw [if_pos h]

theorem int_bytes_natCast (n : Nat) (h : n < 2 ^ 32) : int_bytes (n : Int) = uint_bytes n := by
  unfold int_bytes
  congr 1
  have : ((n : Int) % 2 ^ 32) = (n : Int) := Int.emod_eq_of_lt (by omega) (by omega)
  rw [this]
  simp

theorem fread_append (bs rest : List Nat) (e : Bool) :
    fread bs.length { data := bs ++ rest, eof := e } = (bs, { data := rest, eof := e }) := by
  simp [fread]

theorem create_router_encode (r : router_record) (rest : List Nat) (e : Bool)
    (hid : r.id < 2 ^ 32) (hlen : r.description.length ≤ DESC_MAX_LEN) :
    create_router { data := encode_router_record r ++ rest, eof := e } =
      some (loaded_router [r] [] 0, { data := rest, eof := e }) := by
  have h6 : fread 6 { data := encode_router_record r ++ rest, eof := e } =
      (uint_bytes r.id ++ [r.flag, r.description.length],
        { data := r.description ++ 0 :: rest, eof := e }) := by
    have := fread_append (uint_bytes r.id ++ [r.flag, r.description.length])
      (r.description ++ 0 :: rest) e
    simpa [encode_router_record, uint_bytes] using this
  unfold create_router
  rw [h6]
  simp only [uint_bytes, List.cons_append, List.nil_append]
  rw [if_neg (by omega)]
  have hd := fread_append r.description (0 :: rest) e
  rw [hd]
  have := uint_of_bytes_uint_bytes r.id hid
  simp only [uint_bytes] at this
  simp [get_to_next_router_info_block, skip_to_zero, this, loaded_router, targets,
    pad_connections]

theorem create_all_routers_encode (routers : List router_record) (rest : List Nat)
    (h : ∀ r ∈ routers, r.id < 2 ^ 32 ∧ r.description.length ≤ DESC_MAX_LEN) :
    create_all_routers routers.length
        { data := (routers.map encode_router_record).flatten ++ rest, eof := false } =
      some (routers.map (fun r => some (loaded_router [r] [] 0)),
        { data := rest, eof := false }) := by
  induction routers with
  | nil => simp [create_all_routers]
  | cons r rs ih =>
    obtain ⟨h1, h2⟩ := h r (List.mem_cons_self _ _)
    have ih1 := ih (fun r1 hr1 => h r1 (List.mem_cons_of_mem _ hr1))
    simp only [List.length_cons, create_all_routers, List.map_cons, List.flatten_cons,
      List.append_assoc]
    rw [create_router_encode r _ false h1 h2]
    simp only [ih1, Option.map_some']

theorem loaded_router_getD (routers : List router_record) (conns : List (Nat × Nat))
    (p : Nat) (r : router_record) (h : routers[p]? = some r) :
    loaded_router routers conns p =
      { routerID := r.id
        flag := r.flag
        desc_len := r.description.length
        description := r.description
        connections := pad_connections (targets routers conns p) } := by
  unfold loaded_router
  have : routers.getD p { id := 0, flag := 0, description := [] } = r := by
    rw [List.getD_eq_getElem?_getD, h]; rfl
  simp only [this]

theorem loaded_slots_nil (routers : List router_record) :
    routers.map (fun r => some (loaded_router [r] [] 0)) = (loaded routers []).router_array := by
  apply List.ext_getElem?
  intro i
  simp only [loaded, List.getElem?_map, List.getElem?_range]
  by_cases hi : i < routers.length
  · rw [List.getElem?_eq_getElem hi]
    simp only [Option.map_some', List.getElem?_range hi]
    rw [loaded_router_getD routers [] i routers[i] (List.getElem?_eq_getElem hi),
      loaded_router_getD [routers[i]] [] 0 routers[i] rfl]
    simp [targets]
  · rw [List.getElem?_eq_none (not_lt.mp hi),
      List.getElem?_eq_none (by rw [List.length_range]; exact not_lt.mp hi)]
    rfl

theorem deref_loaded (routers : List router_record) (conns : List (Nat × Nat)) (p : Nat)
    (hp : p < routers.length) :
    deref (loaded routers conns) p = some (loaded_router routers conns p) := by
  rw [deref_eq_some]
  simp [loaded, List.getElem?_map, List.getElem?_range hp]

theorem get_router_scan_records (routers : List router_record) (f : router_record → router)
    (hf : ∀ r, (f r).routerID = r.id) (id : Nat) (h : id ∈ routers.map router_record.id) :
    get_router_scan id (routers.map (fun r => some (f r))) =
      some ((routers.map router_record.id).indexOf id) := by
  induction routers with
  | nil => simp at h
  | cons r rs ih =>
    by_cases hc : id = r.id
    · simp [get_router_scan, hf, hc]
    · have hmem : id ∈ rs.map router_record.id := by
        simp only [List.map_cons, List.mem_cons] at h
        rcases h with h | h
        · exact absurd h hc
        · exact h
      simp only [List.map_cons, get_router_scan, hf, if_neg hc, ih hmem, Option.map_some']
      rw [List.indexOf_cons_ne _ (Ne.symm hc)]

theorem get_router_scan_congr (id : Nat) (l1 l2 : List (Option router))
    (h : l1.map (Option.map router.routerID) = l2.map (Option.map router.routerID)) :
    get_router_scan id l1 = get_router_scan id l2 := by
  induction l1 generalizing l2 with
  | nil =>
    cases l2 with
    | nil => rfl
    | cons _ _ => simp at h
  | cons o rest ih =>
    cases l2 with
    | nil => simp at h
    | cons o2 rest2 =>
      simp only [List.map_cons, List.cons.injEq] at h
      obtain ⟨h1, h2⟩ := h
      have := ih rest2 h2
      cases o with
      | none =>
        cases o2 with
        | none => simp [get_router_scan, this]
        | some r2 => simp at h1
      | some r1 =>
        cases o2 with
        | none => simp at h1
        | some r2 =>
          simp only [Option.map_some', Option.some.injEq] at h1
          simp [get_router_scan, this, h1]

theorem slot_ids_loaded (routers : List router_record) (conns : List (Nat × Nat)) :
    (loaded routers conns).router_array.map (Option.map router.routerID) =
      (routers.map (fun r => some (loaded_router [r] [] 0))).map
        (Option.map router.routerID) := by
  apply List.ext_getElem?
  intro i
  simp only [loaded, List.getElem?_map, List.getElem?_range]
  by_cases hi : i < routers.length
  · rw [List.getElem?_eq_getElem hi]
    simp only [Option.map_some', List.getElem?_range hi]
    rw [loaded_router_getD routers conns i routers[i] (List.getElem?_eq_getElem hi),
      loaded_router_getD [routers[i]] [] 0 routers[i] rfl]
  · rw [List.getElem?_eq_none (not_lt.mp hi),
      List.getElem?_eq_none (by rw [List.length_range]; exact not_lt.mp hi)]
    rfl

theorem get_router_loaded (routers : List router_record) (conns : List (Nat × Nat))
    (id : Nat) (h : id ∈ routers.map router_record.id) :
    get_router (loaded routers conns) id = some (slot_of routers id) := by
  unfold get_router
  rw [get_router_scan_congr id _ _ (slot_ids_loaded routers conns)]
  exact get_router_scan_records routers (fun r => loaded_router [r] [] 0)
    (fun r => by
      show (loaded_router [r] [] 0).routerID = r.id
      rw [loaded_router_getD [r] [] 0 r rfl]) id h

theorem slot_of_lt (routers : List router_record) (id : Nat)
    (h : id ∈ routers.map router_record.id) : slot_of routers id < routers.length := by
  have := List.indexOf_lt_length.mpr h
  simpa [slot_of] using this

theorem slot_of_id (routers : List router_record) (id : Nat)
    (h : id ∈ routers.map router_record.id) :
    ∃ r, routers[slot_of routers id]? = some r ∧ r.id = id := by
  have hlt := slot_of_lt routers id h
  refine ⟨routers[slot_of routers id], List.getElem?_eq_getElem hlt, ?_⟩
  have h2 : slot_of routers id < (routers.map router_record.id).length := by simpa using hlt
  have := List.indexOf_get (l := routers.map router_record.id) (a := id) h2
  rw [List.get_eq_getElem] at this
  simp only [List.getElem_map] at this
  exact this

/-! ## Setting the connections of the connection records -/

theorem set_first_empty_append (t : Option Nat) :
    ∀ (m : Nat) (l : List (Option Nat)), (∀ c ∈ l, c ≠ none) → l.length < m →
      set_first_empty t (l ++ List.replicate (m - l.length) none) =
        some ((l ++ [t]) ++ List.replicate (m - (l.length + 1)) none) := by
  intro m l
  induction l generalizing m with
  | nil =>
    intro _ hm
    obtain ⟨m1, rfl⟩ : ∃ m1, m = m1 + 1 := ⟨m - 1, by simp at hm; omega⟩
    simp [List.replicate_succ, set_first_empty]
  | cons c rest ih =>
    intro hall hm
    obtain ⟨m1, rfl⟩ : ∃ m1, m = m1 + 1 := ⟨m - 1, by simp at hm; omega⟩
    have hc := hall c (List.mem_cons_self _ _)
    cases c with
    | none => exact absurd rfl hc
    | some p =>
      have := ih m1 (fun c1 h1 => hall c1 (List.mem_cons_of_mem _ h1))
        (by simp at hm; omega)
      simp only [List.length_cons, Nat.add_sub_add_right, List.cons_append, set_first_empty]
      have h2 : rest.append (List.replicate (m1 - rest.length) none) =
          rest ++ List.replicate (m1 - rest.length) none := rfl
      rw [h2, this]
      rfl

theorem set_first_empty_pad (t : Option Nat) (l : List (Option Nat))
    (hall : ∀ c ∈ l, c ≠ none) (hlen : l.length < MAX_CONNECTIONS) :
    set_first_empty t (pad_connections l) = some (pad_connections (l ++ [t])) := by
  unfold pad_connections
  rw [set_first_empty_append t MAX_CONNECTIONS l hall hlen]
  simp

theorem targets_append (routers : List router_record) (cs : List (Nat × Nat))
    (c : Nat × Nat) (p : Nat) :
    targets routers (cs ++ [c]) p =
      if slot_of routers c.1 = p then targets routers cs p ++ [some (slot_of routers c.2)]
      else targets routers cs p := by
  unfold targets
  by_cases h : slot_of routers c.1 = p
  · simp [List.filter_append, List.filter_cons, h]
  · simp [List.filter_append, List.filter_cons, h]

theorem targets_all_some (routers : List router_record) (cs : List (Nat × Nat)) (p : Nat) :
    ∀ c ∈ targets routers cs p, c ≠ none := by
  intro c hc
  simp only [targets, List.mem_map] at hc
  obtain ⟨_, -, rfl⟩ := hc
  simp

theorem set_connection_loaded (routers : List router_record) (cs : List (Nat × Nat))
    (c : Nat × Nat) (hf : c.1 ∈ routers.map router_record.id)
    (ht : c.2 ∈ routers.map router_record.id)
    (hdeg : (targets routers cs (slot_of routers c.1)).length < MAX_CONNECTIONS) :
    set_connection (loaded routers cs) (get_router (loaded routers cs) c.1)
        (get_router (loaded routers cs) c.2) =
      some (SUCCESS, loaded routers (cs ++ [c])) := by
  have hlt := slot_of_lt routers c.1 hf
  rw [get_router_loaded routers cs c.1 hf, get_router_loaded routers cs c.2 ht]
  unfold set_connection
  simp only [deref_loaded routers cs _ hlt]
  have hsfe : set_first_empty (some (slot_of routers c.2))
      (loaded_router routers cs (slot_of routers c.1)).connections =
      some (pad_connections (targets routers cs (slot_of routers c.1) ++
        [some (slot_of routers c.2)])) :=
    set_first_empty_pad _ _ (targets_all_some routers cs _) hdeg
  rw [hsfe]
  simp only [Option.some.injEq, Prod.mk.injEq, true_and]
  unfold store loaded
  simp only [registry.mk.injEq, and_true]
  apply List.ext_getElem?
  intro i
  by_cases hi : i < routers.length
  · by_cases hip : slot_of routers c.1 = i
    · subst hip
      rw [List.getElem?_set_self (by simpa using hi)]
      simp only [List.getElem?_map, List.getElem?_range hi, Option.map_some',
        Option.some.injEq]
      simp only [loaded_router, targets_append, if_true]
    · rw [List.getElem?_set_ne hip]
      simp only [List.getElem?_map, List.getElem?_range hi, Option.map_some',
        Option.some.injEq]
      simp only [loaded_router, targets_append, if_neg hip]
  · rw [List.getElem?_eq_none (by simpa using not_lt.mp hi),
      List.getElem?_eq_none (by simpa using not_lt.mp hi)]

theorem get_num_encode (n : Nat) (rest : List Nat) (e : Bool) (h : n < 2 ^ 32) :
    get_num_from_stream { data := uint_bytes n ++ rest, eof := e } =
      (SUCCESS, some n, { data := rest, eof := e }) := by
  have hf : fread 4 { data := uint_bytes n ++ rest, eof := e } =
      (uint_bytes n, { data := rest, eof := e }) := fread_append (uint_bytes n) rest e
  unfold get_num_from_stream
  rw [hf]
  simp only [uint_of_bytes_uint_bytes n h]
  simp [uint_bytes]

theorem set_all_connections_turn_encode (s s1 : registry) (res : Int) (c : Nat × Nat)
    (more : List Nat) (hc1 : c.1 < 2 ^ 32) (hc2 : c.2 < 2 ^ 32)
    (hset : set_connection s (get_router s c.1) (get_router s c.2) = some (res, s1)) :
    set_all_connections_turn s { data := encode_connection_record c ++ more, eof := false } =
      some (Sum.inr (s1, { data := more, eof := decide (more = []) })) := by
  unfold set_all_connections_turn
  have e1 : ({ data := encode_connection_record c ++ more, eof := false } : FILE) =
      { data := uint_bytes c.1 ++ (uint_bytes c.2 ++ 0 :: more), eof := false } := by
    simp [encode_connection_record]
  rw [e1, get_num_encode c.1 _ false hc1]
  simp only [ne_eq, not_true_eq_false, if_false]
  rw [get_num_encode c.2 _ false hc2]
  simp only [ne_eq, not_true_eq_false, if_false, hset]
  cases more with
  | nil => simp [fgetc]
  | cons b m => simp [fgetc, ungetc]

theorem set_all_connections_turn_empty (s : registry) :
    set_all_connections_turn s { data := [], eof := false } = some (Sum.inl SUCCESS) := by
  unfold set_all_connections_turn
  have : get_num_from_stream { data := [], eof := false } =
      (FAILURE, none, { data := [], eof := true }) := by
    simp [get_num_from_stream, fread]
  rw [this]
  simp [SUCCESS, FAILURE]

theorem targets_length_append (routers : List router_record) (cs more : List (Nat × Nat))
    (p : Nat) :
    (targets routers cs p).length ≤ (targets routers (cs ++ more) p).length := by
  unfold targets
  simp only [List.length_map, List.filter_append, List.length_append]
  omega

theorem encode_connection_record_ne_nil (c : Nat × Nat) :
    encode_connection_record c ≠ [] := by
  simp [encode_connection_record, uint_bytes]

/-- The loop of `set_all_connections` on the bytes of connection records. -/
theorem set_all_connections_loop_encode (routers : List router_record) :
    ∀ (conns cs0 : List (Nat × Nat)) (fuel : Nat) (e : Bool),
      (e = true → conns = []) → conns.length < fuel →
      (∀ c ∈ conns, c.1 < 2 ^ 32 ∧ c.2 < 2 ^ 32 ∧
        c.1 ∈ routers.map router_record.id ∧ c.2 ∈ routers.map router_record.id) →
      (∀ p, (targets routers (cs0 ++ conns) p).length ≤ MAX_CONNECTIONS) →
      set_all_connections_loop fuel (loaded routers cs0)
          { data := (conns.map encode_connection_record).flatten, eof := e } =
        some (SUCCESS, loaded routers (cs0 ++ conns)) := by
  intro conns
  induction conns with
  | nil =>
    intro cs0 fuel e _ hfuel _ _
    obtain ⟨f1, rfl⟩ : ∃ f1, fuel = f1 + 1 := ⟨fuel - 1, by simp at hfuel; omega⟩
    rw [set_all_connections_loop]
    cases e with
    | true => simp
    | false => simp [set_all_connections_turn_empty]
  | cons c rest ih =>
    intro cs0 fuel e he hfuel hknown hdeg
    obtain ⟨f1, rfl⟩ : ∃ f1, fuel = f1 + 1 := ⟨fuel - 1, by simp at hfuel; omega⟩
    have hne : e = false := by
      cases e with
      | true => exact absurd (he rfl) (by simp)
      | false => rfl
    subst hne
    obtain ⟨k1, k2, k3, k4⟩ := hknown c (List.mem_cons_self _ _)
    have hd : (targets routers cs0 (slot_of routers c.1)).length < MAX_CONNECTIONS := by
      have h1 := hdeg (slot_of routers c.1)
      have h2 := targets_length_append routers (cs0 ++ [c]) rest (slot_of routers c.1)
      rw [List.append_assoc, List.singleton_append] at h2
      rw [targets_append, if_pos rfl, List.length_append, List.length_singleton] at h2
      omega
    have hset := set_connection_loaded routers cs0 c k3 k4 hd
    have hturn := set_all_connections_turn_encode (loaded routers cs0) _ _ c
      (rest.map encode_connection_record).flatten k1 k2 hset
    rw [set_all_connections_loop]
    simp only [List.map_cons, List.flatten_cons, Bool.false_eq_true, if_false, hturn]
    have := ih (cs0 ++ [c]) f1 (decide ((rest.map encode_connection_record).flatten = []))
      (by
        intro hd2
        have hd3 := of_decide_eq_true hd2
        cases rest with
        | nil => rfl
        | cons c2 r2 =>
          exfalso
          simp only [List.map_cons, List.flatten_cons, List.append_eq_nil] at hd3
          exact encode_connection_record_ne_nil c2 hd3.1)
      (by simp at hfuel; omega)
      (fun c1 h1 => hknown c1 (List.mem_cons_of_mem _ h1))
      (by
        intro p
        have := hdeg p
        rwa [List.append_assoc, List.singleton_append])
    rw [this, List.append_assoc, List.singleton_append]

/-! ## Encoding the loaded registry -/

theorem filter_key_split {α : Type} (key : α → Nat) (n : Nat) :
    ∀ cs : List α, cs.Pairwise (fun a b => key a ≤ key b) → (∀ c ∈ cs, key c ≤ n) →
      cs.filter (fun c => key c < n) ++ cs.filter (fun c => key c = n) = cs := by
  intro cs
  induction cs with
  | nil => intro _ _; rfl
  | cons c rest ih =>
    intro hp hle
    rw [List.pairwise_cons] at hp
    have ih1 := ih hp.2 (fun c1 h1 => hle c1 (List.mem_cons_of_mem _ h1))
    by_cases hc : key c < n
    · have hne : ¬ key c = n := by omega
      simp only [List.filter_cons, hc, hne, decide_True, decide_False, if_true,
        Bool.false_eq_true, if_false, List.cons_append, ih1]
    · have hcn : key c = n := by
        have := hle c (List.mem_cons_self _ _)
        omega
      have hall : ∀ c1 ∈ rest, key c1 = n := by
        intro c1 h1
        have := hp.1 c1 h1
        have := hle c1 (List.mem_cons_of_mem _ h1)
        omega
      have h1 : rest.filter (fun c => key c < n) = [] := by
        rw [List.filter_eq_nil_iff]
        intro c1 hc1
        have := hall c1 hc1
        simp only [decide_eq_true_eq]; omega
      have h2 : rest.filter (fun c => key c = n) = rest := by
        rw [List.filter_eq_self]
        intro c1 hc1
        simp only [decide_eq_true_eq]; exact hall c1 hc1
      rw [List.filter_cons, List.filter_cons, h1, h2]
      simp [hcn]

/-- Records ordered by a key are the concatenation of their groups by key. -/
theorem flatten_groups {α : Type} (key : α → Nat) :
    ∀ (n : Nat) (cs : List α), cs.Pairwise (fun a b => key a ≤ key b) →
      (∀ c ∈ cs, key c < n) →
      ((List.range n).map (fun p => cs.filter (fun c => key c = p))).flatten = cs := by
  intro n
  induction n with
  | zero =>
    intro cs _ hlt
    cases cs with
    | nil => rfl
    | cons c _ => exact absurd (hlt c (List.mem_cons_self _ _)) (by omega)
  | succ n ih =>
    intro cs hp hlt
    rw [List.range_succ, List.map_append, List.flatten_append]
    simp only [List.map_cons, List.map_nil, List.flatten_cons, List.flatten_nil,
      List.append_nil]
    have hlo := ih (cs.filter (fun c => key c < n)) (hp.filter _)
      (fun c hc => by
        have := (List.mem_filter.mp hc).2
        simpa using this)
    have hcongr : (List.range n).map (fun p => cs.filter (fun c => key c = p)) =
        (List.range n).map
          (fun p => (cs.filter (fun c => key c < n)).filter (fun c => key c = p)) := by
      apply List.map_congr_left
      intro p hp1
      have hpn : p < n := List.mem_range.mp hp1
      rw [List.filter_filter]
      apply List.filter_congr
      intro c _
      by_cases hk : key c = p
      · simp [hk, hpn]
      · simp [hk]
    rw [hcongr, hlo]
    exact filter_key_split key n cs hp (fun c hc => by have := hlt c hc; omega)

theorem write_router_loaded (routers : List router_record) (cs : List (Nat × Nat)) (p : Nat)
    (r : router_record) (h : routers[p]? = some r) :
    write_router (loaded_router routers cs p) = some (encode_router_record r) := by
  rw [loaded_router_getD routers cs p r h]
  simp [write_router, encode_router_record]

theorem write_routers_loaded (routers : List router_record) (cs : List (Nat × Nat)) :
    ∀ l : List Nat, (∀ p ∈ l, p < routers.length) →
      write_routers (l.map (fun p => some (loaded_router routers cs p))) =
        some ((l.map (fun p => encode_router_record
          (routers.getD p { id := 0, flag := 0, description := [] }))).flatten) := by
  intro l
  induction l with
  | nil => intro _; rfl
  | cons p rest ih =>
    intro h
    have hp := h p (List.mem_cons_self _ _)
    have ih1 := ih (fun q hq => h q (List.mem_cons_of_mem _ hq))
    have hget : routers[p]? = some routers[p] := List.getElem?_eq_getElem hp
    have hD : routers.getD p { id := 0, flag := 0, description := [] } = routers[p] := by
      rw [List.getD_eq_getElem?_getD, hget]; rfl
    simp only [List.map_cons, write_routers, write_router_loaded routers cs p _ hget, ih1,
      Option.map_some', List.flatten_cons, hD]

theorem range_map_getD (routers : List router_record) :
    (List.range routers.length).map
      (fun p => routers.getD p { id := 0, flag := 0, description := [] }) = routers := by
  apply List.ext_getElem?
  intro i
  by_cases hi : i < routers.length
  · simp [List.getElem?_map, List.getElem?_range hi, List.getD_eq_getElem?_getD,
      List.getElem?_eq_getElem hi]
  · rw [List.getElem?_eq_none (by simpa using not_lt.mp hi),
      List.getElem?_eq_none (not_lt.mp hi)]

theorem write_connections_none (s : registry) (f m : Nat) :
    write_connections s f (List.replicate m none) = some [] := by
  induction m with
  | zero => rfl
  | succ m ih => simpa [List.replicate_succ, write_connections] using ih

theorem write_connections_loaded (routers : List router_record) (cs : List (Nat × Nat))
    (f m : Nat) :
    ∀ cl : List (Nat × Nat), (∀ c ∈ cl, c.2 ∈ routers.map router_record.id) →
      write_connections (loaded routers cs) f
          (cl.map (fun c => some (slot_of routers c.2)) ++ List.replicate m none) =
        some ((cl.map (fun c => uint_bytes f ++ uint_bytes c.2 ++ [0])).flatten) := by
  intro cl
  induction cl with
  | nil => intro _; simpa using write_connections_none _ f m
  | cons c rest ih =>
    intro h
    have hc := h c (List.mem_cons_self _ _)
    have ih1 := ih (fun q hq => h q (List.mem_cons_of_mem _ hq))
    obtain ⟨r, hr, hid⟩ := slot_of_id routers c.2 hc
    have hd := deref_loaded routers cs _ (slot_of_lt routers c.2 hc)
    rw [loaded_router_getD routers cs _ r hr] at hd
    simp only [List.map_cons, List.cons_append, write_connections, hd, List.flatten_cons, hid]
    have h2 : (List.map (fun c => some (slot_of routers c.2)) rest).append
        (List.replicate m none) =
        List.map (fun c => some (slot_of routers c.2)) rest ++ List.replicate m none := rfl
    rw [h2, ih1]
    rfl

theorem write_connections_scan_loaded (routers : List router_record) (cs : List (Nat × Nat))
    (hknown : ∀ c ∈ cs, c.1 ∈ routers.map router_record.id ∧
      c.2 ∈ routers.map router_record.id) :
    ∀ l : List Nat, (∀ p ∈ l, p < routers.length) →
      write_connections_scan (loaded routers cs)
          (l.map (fun p => some (loaded_router routers cs p))) =
        some ((l.map (fun p => ((cs.filter (fun c => slot_of routers c.1 = p)).map
          encode_connection_record).flatten)).flatten) := by
  intro l
  induction l with
  | nil => intro _; rfl
  | cons p rest ih =>
    intro h
    have hp := h p (List.mem_cons_self _ _)
    have ih1 := ih (fun q hq => h q (List.mem_cons_of_mem _ hq))
    have hget : routers[p]? = some routers[p] := List.getElem?_eq_getElem hp
    have hw : write_connections (loaded routers cs) (loaded_router routers cs p).routerID
        (loaded_router routers cs p).connections =
        some (((cs.filter (fun c => slot_of routers c.1 = p)).map
          encode_connection_record).flatten) := by
      rw [loaded_router_getD routers cs p _ hget]
      simp only [pad_connections, targets]
      rw [write_connections_loaded routers cs routers[p].id _
        (cs.filter (fun c => slot_of routers c.1 = p))
        (fun c hc => (hknown c (List.mem_filter.mp hc).1).2)]
      congr 2
      apply List.map_congr_left
      intro c hc
      obtain ⟨hc1, hc2⟩ := List.mem_filter.mp hc
      have hslot : slot_of routers c.1 = p := by simpa using hc2
      obtain ⟨r, hr, hid⟩ := slot_of_id routers c.1 (hknown c hc1).1
      rw [hslot, hget] at hr
      cases hr
      simp only [encode_connection_record, hid]
    simp only [List.map_cons, write_connections_scan, hw, ih1, Option.map_some',
      List.flatten_cons]

theorem write_to_file_loaded (routers : List router_record) (cs : List (Nat × Nat))
    (hn : routers.length < 2 ^ 32)
    (hknown : ∀ c ∈ cs, c.1 ∈ routers.map router_record.id ∧
      c.2 ∈ routers.map router_record.id) :
    write_to_file (loaded routers cs) =
      some (encode_stream routers
        ((List.range routers.length).map
          (fun p => cs.filter (fun c => slot_of routers c.1 = p))).flatten) := by
  have h1 := write_routers_loaded routers cs (List.range routers.length)
    (fun p hp => List.mem_range.mp hp)
  have h2 := write_connections_scan_loaded routers cs hknown (List.range routers.length)
    (fun p hp => List.mem_range.mp hp)
  have h3 : (List.range routers.length).map (fun p => encode_router_record
      (routers.getD p { id := 0, flag := 0, description := [] })) =
      routers.map encode_router_record := by
    conv_rhs => rw [← range_map_getD routers]
    rw [List.map_map]
    rfl
  rw [h3] at h1
  unfold write_to_file write_connections_to_file
  have e1 : (loaded routers cs).router_array =
      (List.range routers.length).map (fun p => some (loaded_router routers cs p)) := rfl
  have e2 : (loaded routers cs).N_ROUTERS = (routers.length : Int) := rfl
  rw [e1, h1, h2, e2, int_bytes_natCast _ hn]
  simp only [Option.map_some', encode_stream, Option.some.injEq]
  congr 1
  rw [List.map_flatten, List.flatten_flatten]
  congr 1
  simp only [List.map_map, Function.comp_def]

theorem length_encode_connections (conns : List (Nat × Nat)) :
    ((conns.map encode_connection_record).flatten).length = 9 * conns.length := by
  induction conns with
  | nil => rfl
  | cons c rest ih =>
    simp only [List.map_cons, List.flatten_cons, List.length_append, ih, List.length_cons]
    simp [encode_connection_record, uint_bytes]
    omega

/-- Loading the bytes of router records and connection records. -/
theorem load_encode_stream (routers : List router_record) (conns : List (Nat × Nat))
    (hwf : well_formed_stream routers conns) (hcount : routers.length < 2 ^ 31)
    (hknown : ∀ c ∈ conns, c.1 ∈ routers.map router_record.id ∧
      c.2 ∈ routers.map router_record.id)
    (hdeg : ∀ p, (targets routers conns p).length ≤ MAX_CONNECTIONS) :
    load (encode_stream routers conns) = some (SUCCESS, loaded routers conns) := by
  obtain ⟨-, hr, hc⟩ := hwf
  unfold load
  have hf : fread 4 { data := encode_stream routers conns, eof := false } =
      (uint_bytes routers.length,
        { data := (routers.map encode_router_record).flatten ++
            (conns.map encode_connection_record).flatten, eof := false }) := by
    have := fread_append (uint_bytes routers.length)
      ((routers.map encode_router_record).flatten ++
        (conns.map encode_connection_record).flatten) false
    simpa [encode_stream, uint_bytes] using this
  rw [hf]
  simp only
  rw [if_neg (by simp [uint_bytes]), int_of_bytes_uint_bytes _ hcount]
  simp only [Int.toNat_ofNat]
  rw [create_all_routers_encode routers _ (fun r h => ⟨(hr r h).1, (hr r h).2.2.1⟩),
    loaded_slots_nil]
  simp only
  have hreg : (⟨(loaded routers []).router_array, (routers.length : Int)⟩ : registry) =
      loaded routers [] := rfl
  rw [hreg]
  unfold set_all_connections
  by_cases h0 : (loaded routers []).N ≤ 0
  · rw [if_pos h0]
    have hlen : routers.length = 0 := by
      have : (loaded routers []).N = routers.length := by simp [registry.N, loaded]
      omega
    have hnil : routers = [] := List.length_eq_zero.mp hlen
    have hconns : conns = [] := by
      cases conns with
      | nil => rfl
      | cons c _ =>
        have := (hknown c (List.mem_cons_self _ _)).1
        rw [hnil] at this
        simp at this
    rw [hconns]
    rfl
  · rw [if_neg h0]
    have := set_all_connections_loop_encode routers conns []
      ((conns.map encode_connection_record).flatten.length + 1) false (by simp)
      (by rw [length_encode_connections]; omega)
      (fun c h => ⟨(hc c h).1, (hc c h).2, (hknown c h).1, (hknown c h).2⟩)
      (by simpa using hdeg)
    simpa using this

/-! ## Round trip -/

theorem int_of_bytes_uint_bytes_high (n : Nat) (h1 : 2 ^ 31 ≤ n) (h2 : n < 2 ^ 32) :
    int_of_bytes (uint_bytes n) = (n : Int) - 2 ^ 32 := by
  unfold int_of_bytes
  rw [uint_of_bytes_uint_bytes n h2]
  simp only
  rw [if_neg (by omega)]

theorem int_bytes_high (n : Nat) (h2 : n < 2 ^ 32) :
    int_bytes ((n : Int) - 2 ^ 32) = uint_bytes n := by
  unfold int_bytes
  congr 1
  omega

/-- A stream whose count field is 2 ^ 31 or more: no router record is read
and only the count is written back. -/
theorem load_many_records (n : Nat) (h1 : 2 ^ 31 ≤ n) (h2 : n < 2 ^ 32) :
    well_formed_stream (many_records n) [] ∧
    (load (encode_stream (many_records n) [])).bind (fun x => write_to_file x.2) =
      some (uint_bytes n) ∧
    uint_bytes n ≠ encode_stream (many_records n) [] := by
  have hlen : (many_records n).length = n := List.length_replicate _ _
  have henc : encode_stream (many_records n) [] =
      uint_bytes n ++ (((many_records n).map encode_router_record).flatten ++ []) := by
    unfold encode_stream
    rw [hlen]
    simp
  refine ⟨⟨by rw [hlen]; exact h2, ?_, ?_⟩, ?_, ?_⟩
  · intro r hr
    have := List.eq_of_mem_replicate hr
    subst this
    decide
  · intro c hc; cases hc
  · unfold load
    rw [henc]
    have hf := fread_append (uint_bytes n)
      (((many_records n).map encode_router_record).flatten ++ []) false
    have h4 : (uint_bytes n).length = 4 := rfl
    rw [h4] at hf
    rw [hf]
    simp only
    rw [if_neg (by rw [h4]; simp), int_of_bytes_uint_bytes_high n h1 h2]
    have hz : ((n : Int) - 2 ^ 32).toNat = 0 := by omega
    rw [hz]
    simp only [create_all_routers, set_all_connections, registry.N, List.length_nil,
      le_refl, if_true, Option.bind_some]
    simp only [Option.bind, write_to_file, write_routers, write_connections_to_file,
      write_connections_scan, Option.map_some', int_bytes_high n h2, List.append_nil]
  · rw [henc]
    obtain ⟨m, rfl⟩ : ∃ m, n = m + 1 := ⟨n - 1, by omega⟩
    intro h
    have h3 := congrArg List.length h
    simp [many_records, List.replicate_succ, encode_router_record, uint_bytes] at h3

theorem targets_length_le (routers : List router_record) (conns : List (Nat × Nat))
    (hknown : ∀ c ∈ conns, c.1 ∈ routers.map router_record.id)
    (hdeg : ∀ c ∈ conns, conns.countP (fun d => d.1 = c.1) ≤ MAX_CONNECTIONS) (p : Nat) :
    (targets routers conns p).length ≤ MAX_CONNECTIONS := by
  unfold targets
  rw [List.length_map]
  cases hf : conns.filter (fun c => slot_of routers c.1 = p) with
  | nil => simp
  | cons c0 rest =>
    have hc0 : c0 ∈ conns.filter (fun c => slot_of routers c.1 = p) := by
      rw [hf]; exact List.mem_cons_self _ _
    obtain ⟨hmem0, hs0⟩ := List.mem_filter.mp hc0
    have hs0' : slot_of routers c0.1 = p := by simpa using hs0
    rw [← hf, ← List.countP_eq_length_filter]
    refine le_trans ?_ (hdeg c0 hmem0)
    apply List.countP_mono_left
    intro c hc hsc
    have hsc' : slot_of routers c.1 = p := by simpa using hsc
    obtain ⟨r1, h1, e1⟩ := slot_of_id routers c.1 (hknown c hc)
    obtain ⟨r0, h0, e0⟩ := slot_of_id routers c0.1 (hknown c0 hmem0)
    rw [hsc'] at h1
    rw [hs0', h1] at h0
    cases h0
    simp only [decide_eq_true_eq]
    rw [← e1, ← e0]

/-- C1 (amended).  Round trip.  Take a well-formed stream: a count of fewer
than 2 ^ 31 router records, the router records with descriptions of at most
248 bytes, then connection records.  If every connection record names ids of
router records of the stream, no id is the source of more than ten connection
records, and the connection records are ordered by the position of the router
record of their source (the first one with that id), then loading the stream
and writing it back with no command in between gives exactly the stream. -/
theorem round_trip (routers : List router_record) (conns : List (Nat × Nat))
    (hwf : well_formed_stream routers conns) (hcount : routers.length < 2 ^ 31)
    (hknown : ∀ c ∈ conns, c.1 ∈ routers.map router_record.id ∧
      c.2 ∈ routers.map router_record.id)
    (hdeg : ∀ c ∈ conns, conns.countP (fun d => d.1 = c.1) ≤ MAX_CONNECTIONS)
    (hsorted : conns.Pairwise (fun a b => slot_of routers a.1 ≤ slot_of routers b.1)) :
    ∃ s, load (encode_stream routers conns) = some (SUCCESS, s) ∧
      write_to_file s = some (encode_stream routers conns) := by
  have hd := targets_length_le routers conns (fun c h => (hknown c h).1) hdeg
  refine ⟨loaded routers conns, load_encode_stream routers conns hwf hcount hknown hd, ?_⟩
  rw [write_to_file_loaded routers conns (by omega) hknown]
  rw [flatten_groups (fun c : Nat × Nat => slot_of routers c.1) routers.length conns hsorted
    (fun c hc => slot_of_lt routers c.1 (hknown c hc).1)]

/-- Witness for C1: the stream of the chain 1 → 2 → 3. -/
theorem round_trip_witness :
    ∃ s, load (encode_stream chain_records [(1, 2), (2, 3)]) = some (SUCCESS, s) ∧
      write_to_file s = some (encode_stream chain_records [(1, 2), (2, 3)]) :=
  round_trip chain_records [(1, 2), (2, 3)] (by decide) (by decide) (by decide) (by decide)
    (by decide)

set_option maxRecDepth 20000 in
/-- Counterexample for C1 as stated: three well-formed streams that are not
reproduced.  Connection records in another order than that of their sources
come back reordered; a connection record that names an id without a router
record is dropped; the eleventh connection record of one source is dropped;
and of a stream with 2 ^ 31 router records, whose count is negative as an
`int`, only the count comes back. -/
theorem round_trip_fails :
    (well_formed_stream two_records [(2, 1), (1, 2)] ∧
      (load (encode_stream two_records [(2, 1), (1, 2)])).bind
          (fun x => write_to_file x.2) =
        some (encode_stream two_records [(1, 2), (2, 1)]) ∧
      encode_stream two_records [(1, 2), (2, 1)] ≠
        encode_stream two_records [(2, 1), (1, 2)]) ∧
    (well_formed_stream two_records [(1, 3)] ∧
      (load (encode_stream two_records [(1, 3)])).bind (fun x => write_to_file x.2) =
        some (encode_stream two_records []) ∧
      encode_stream two_records [] ≠ encode_stream two_records [(1, 3)]) ∧
    (well_formed_stream two_records (List.replicate 11 (1, 2)) ∧
      (load (encode_stream two_records (List.replicate 11 (1, 2)))).bind
          (fun x => write_to_file x.2) =
        some (encode_stream two_records (List.replicate 10 (1, 2))) ∧
      encode_stream two_records (List.replicate 10 (1, 2)) ≠
        encode_stream two_records (List.replicate 11 (1, 2))) ∧
    (well_formed_stream (many_records (2 ^ 31)) [] ∧
      (load (encode_stream (many_records (2 ^ 31)) [])).bind (fun x => write_to_file x.2) =
        some (uint_bytes (2 ^ 31)) ∧
      uint_bytes (2 ^ 31) ≠ encode_stream (many_records (2 ^ 31)) []) := by
  refine ⟨⟨by decide, by decide, by decide⟩, ⟨by decide, by decide, by decide⟩,
    ⟨by decide, by decide, by decide⟩, load_many_records (2 ^ 31) (le_refl _) (by norm_num)⟩

/-! ## The frame of a removal and the arguments of `sett_flag` -/

/-- C28.  Deletion frame.  When `remove_router` returns `SUCCESS` for an id,
the number of slots of `router_array` is unchanged; every slot that was
empty is empty; every occupied router with another id stays in its slot with
its id, flag, `desc_len` and description, and with as many outgoing slots as
before; each of its outgoing slots that was empty is empty, each that
pointed to a router with another id still points to the same slot, and each
that pointed to a router with the id is empty now.  The routers with the id
are gone and `N_ROUTERS` is lower by 1. -/
theorem remove_router_frame (s s1 : registry) (id : Nat)
    (h : remove_router s id = some (SUCCESS, s1)) :
    s1.N = s.N ∧ s1.N_ROUTERS = s.N_ROUTERS - 1 ∧
    (∀ q, deref s q = none → deref s1 q = none) ∧
    (∀ q r, deref s q = some r → r.routerID = id → deref s1 q = none) ∧
    (∀ q r, deref s q = some r → r.routerID ≠ id →
      ∃ r1, deref s1 q = some r1 ∧ r1.routerID = r.routerID ∧ r1.flag = r.flag ∧
        r1.desc_len = r.desc_len ∧ r1.description = r.description ∧
        r1.connections.length = r.connections.length ∧
        ∀ j : Nat, (r.connections[j]? = some none → r1.connections[j]? = some none) ∧
          (∀ (t : Nat) (tr : router), r.connections[j]? = some (some t) → deref s t = some tr →
            (tr.routerID ≠ id → r1.connections[j]? = some (some t)) ∧
            (tr.routerID = id → r1.connections[j]? = some none))) := by
  have hnd := remove_router_no_dangling h
  cases hg : get_router s id with
  | none => simp [remove_router, hg, SUCCESS, FAILURE] at h
  | some p =>
    rw [remove_router_eq hg hnd] at h
    simp only [Option.some.injEq, Prod.mk.injEq, true_and] at h
    subst h
    refine ⟨by simp [registry.N, removed], rfl, ?_, ?_, ?_⟩
    · intro q hq
      cases hd : deref (removed s id) q with
      | none => rfl
      | some r1 =>
        obtain ⟨r0, h0, -, -⟩ := deref_removed hd
        rw [hq] at h0
        cases h0
    · intro q r hq hid
      cases hd : deref (removed s id) q with
      | none => rfl
      | some r1 =>
        obtain ⟨r0, h0, hne, -⟩ := deref_removed hd
        rw [hq] at h0
        cases h0
        exact absurd hid hne
    · intro q r hq hne
      refine ⟨_, deref_removed_of hq hne, rfl, rfl, rfl, rfl, by simp, ?_⟩
      intro j
      refine ⟨?_, ?_⟩
      · intro hj
        simp [List.getElem?_map, hj, cleared]
      · intro t tr hj ht
        refine ⟨?_, ?_⟩
        · intro hne2
          simp [List.getElem?_map, hj, cleared, ht, hne2]
        · intro he
          simp [List.getElem?_map, hj, cleared, ht, he]

/-- Witness for C28: router 2 of the chain 1 → 2 → 3 is removed. -/
theorem remove_router_frame_witness :
    (removed chain_registry 2).N = chain_registry.N ∧
    (removed chain_registry 2).N_ROUTERS = chain_registry.N_ROUTERS - 1 ∧
    (∀ q, deref chain_registry q = none → deref (removed chain_registry 2) q = none) ∧
    (∀ q r, deref chain_registry q = some r → r.routerID = 2 →
      deref (removed chain_registry 2) q = none) ∧
    (∀ q r, deref chain_registry q = some r → r.routerID ≠ 2 →
      ∃ r1, deref (removed chain_registry 2) q = some r1 ∧ r1.routerID = r.routerID ∧
        r1.flag = r.flag ∧ r1.desc_len = r.desc_len ∧ r1.description = r.description ∧
        r1.connections.length = r.connections.length ∧
        ∀ j : Nat, (r.connections[j]? = some none → r1.connections[j]? = some none) ∧
          (∀ (t : Nat) (tr : router), r.connections[j]? = some (some t) → deref chain_registry t = some tr →
            (tr.routerID ≠ 2 → r1.connections[j]? = some (some t)) ∧
            (tr.routerID = 2 → r1.connections[j]? = some none))) :=
  remove_router_frame chain_registry (removed chain_registry 2) 2 (by decide)

theorem set_flag_result {s s1 : registry} {id b v : Nat} {res : Int}
    (h : set_flag s id b v = some (res, s1)) : res = SUCCESS ∨ res = FAILURE := by
  unfold set_flag at h
  simp only at h
  split_ifs at h <;>
    first
    | (cases h; exact Or.inr rfl)
    | (simp only [Option.map_eq_some'] at h
       obtain ⟨s2, -, h3⟩ := h
       cases h3
       exact Or.inl rfl)

theorem command_result_id {r : Option (Int × registry)}
    (h : ∀ res s1, r = some (res, s1) → res = SUCCESS ∨ res = FAILURE) :
    command_result r = r := by
  cases r with
  | none => rfl
  | some x =>
    obtain ⟨res, s1⟩ := x
    rcases h res s1 rfl with e | e <;> subst e <;> simp [command_result, SUCCESS, FAILURE]

/-- C29.  The arguments of `sett_flag`.  For every line whose first token is
`sett_flag` and whose first number is a live id, `run_command` returns what
`set_flag` returns for the id, the second number modulo 256 and the third
number modulo 256 (the numbers are what `atoi` gives, the conversion to
`unsigned char` reduces them).  So for the numbers 4 and 256 the value is 0,
which is accepted: the result is `SUCCESS` and the top four bits of the flag
become 0. -/
theorem sett_flag_arguments_mod_256 (s : registry) (line : command_line) (p : Nat)
    (hc : line.command = some "sett_flag")
    (hlive : get_router s (to_uint line.arg1) = some p) :
    run_command s line =
      set_flag s (to_uint line.arg1) (line.arg2 % 256).toNat (line.arg3 % 256).toNat ∧
    (line.arg2 % 256 = 4 → line.arg3 % 256 = 0 →
      ∃ s1 r1, run_command s line = some (SUCCESS, s1) ∧ deref s1 p = some r1 ∧
        r1.flag / 16 = 0) := by
  have hk : line_command line = some "sett_flag" := by
    unfold line_command
    rw [hc]
    rfl
  have hrun : run_command s line =
      set_flag s (to_uint line.arg1) (line.arg2 % 256).toNat (line.arg3 % 256).toNat := by
    rw [run_command_sett_flag hk, hlive]
    simp only [Option.isNone_some, Bool.false_eq_true, if_false]
    exact command_result_id (fun res s1 h => set_flag_result h)
  refine ⟨hrun, ?_⟩
  intro h2 h3
  obtain ⟨r, hr, -⟩ := get_router_deref hlive
  obtain ⟨e1, -, -⟩ := change_top_four_bits_spec r.flag 0 (by omega)
  refine ⟨store s p { r with flag := change_top_four_bits r.flag 0 }, _, ?_,
    deref_store_same hr, e1⟩
  rw [hrun, h2, h3]
  simp [set_flag, hlive, assign_flag, hr]

/-- Witness for C29: the line `sett_flag 1 4 256` on the chain 1 → 2 → 3 in
which router 1 has the flag `0x95`; and the line `sett_flag 1 260 -255`, which
is taken as `sett_flag 1 4 1`. -/
theorem sett_flag_arguments_mod_256_witness :
    (run_command (store chain_registry 0 { sample_router 1 [some 1] with flag := 0x95 })
        (sample_line "sett_flag" 1 4 256) =
      set_flag (store chain_registry 0 { sample_router 1 [some 1] with flag := 0x95 })
        (to_uint (sample_line "sett_flag" 1 4 256).arg1)
        ((sample_line "sett_flag" 1 4 256).arg2 % 256).toNat
        ((sample_line "sett_flag" 1 4 256).arg3 % 256).toNat ∧
    ((sample_line "sett_flag" 1 4 256).arg2 % 256 = 4 →
      (sample_line "sett_flag" 1 4 256).arg3 % 256 = 0 →
      ∃ s1 r1,
        run_command (store chain_registry 0 { sample_router 1 [some 1] with flag := 0x95 })
          (sample_line "sett_flag" 1 4 256) = some (SUCCESS, s1) ∧
        deref s1 0 = some r1 ∧ r1.flag / 16 = 0)) ∧
    run_command (store chain_registry 0 { sample_router 1 [some 1] with flag := 0x95 })
        (sample_line "sett_flag" 1 4 256) =
      some (SUCCESS, chain_registry) ∧
    set_flag (store chain_registry 0 { sample_router 1 [some 1] with flag := 0x95 }) 1 4 256 =
      some (FAILURE, store chain_registry 0 { sample_router 1 [some 1] with flag := 0x95 }) ∧
    run_command chain_registry (sample_line "sett_flag" 1 260 (-255)) =
      set_flag chain_registry 1 4 1 :=
  ⟨sett_flag_arguments_mod_256
      (store chain_registry 0 { sample_router 1 [some 1] with flag := 0x95 })
      (sample_line "sett_flag" 1 4 256) 0 rfl (by decide),
    by decide, by decide, by decide⟩

/-! ## The search from a router to itself -/

theorem cycle_no_dangling : no_dangling cycle_registry :=
  @remove_router_no_dangling cycle_registry (removed cycle_registry 1) 1 (by decide)

/-- C26.  The search from a router to itself.  On a registry without
dangling connections, with unique live ids and with `N_ROUTERS` equal to the
number of occupied slots, `exists_path` from a live id `a` to `a` itself
returns, and it reports a found path exactly when `a` lies on a directed
cycle of at least one edge.  A router with an edge to itself is found; a
router none of whose edges leads to a router from which `a` is reached is not
found: the empty path does not count. -/
theorem exists_path_self_iff_cycle (s : registry) (a pa : Nat)
    (hnd : no_dangling s) (hu : unique_ids s) (hN : s.N_ROUTERS = live_count s)
    (ha : get_router s a = some pa) :
    ∃ report, exists_path s a a = some (SUCCESS, report) ∧
      (report.isSome = true ↔ on_cycle s a) ∧
      (connected_ids s a a → report.isSome = true) ∧
      ((∀ b, connected_ids s a b → ¬ Relation.ReflTransGen (connected_ids s) b a) →
        report = none) := by
  obtain ⟨found, st, e1, e2⟩ := exists_path_search_spec hnd hu hN ha a
  have key : ∀ report : Option (List Nat), (report.isSome = true ↔ on_cycle s a) →
      (connected_ids s a a → report.isSome = true) ∧
      ((∀ b, connected_ids s a b → ¬ Relation.ReflTransGen (connected_ids s) b a) →
        report = none) := by
    intro report hiff
    refine ⟨fun h => hiff.mpr (Relation.TransGen.single h), ?_⟩
    intro hno
    cases hrep : report with
    | none => rfl
    | some l =>
      exfalso
      have hc : on_cycle s a := hiff.mp (by rw [hrep]; rfl)
      obtain ⟨b, hab, hba⟩ := Relation.TransGen.head'_iff.mp hc
      exact hno b hab hba
  cases found with
  | true =>
    have hiff : ((some (print_path st.path st.path_cur)).isSome = true ↔ on_cycle s a) := by
      simp only [Option.isSome_some, true_iff]
      exact e2.mp rfl
    exact ⟨some (print_path st.path st.path_cur), by simp [exists_path, e1], hiff,
      key _ hiff⟩
  | false =>
    have hiff : ((none : Option (List Nat)).isSome = true ↔ on_cycle s a) := by
      simp only [Option.isSome_none, Bool.false_eq_true, false_iff]
      intro h
      have := e2.mpr h
      cases this
    exact ⟨none, by simp [exists_path, e1], hiff, key _ hiff⟩

/-- Witness for C26: router 1 on the cycle 1 → 2 → 1.  In the same registry
router 3 with its self-loop is found; in the chain 1 → 2 → 3, which has no
cycle, the search from 1 to 1 finds no path. -/
theorem exists_path_self_iff_cycle_witness :
    (∃ report, exists_path cycle_registry 1 1 = some (SUCCESS, report) ∧
      (report.isSome = true ↔ on_cycle cycle_registry 1) ∧
      (connected_ids cycle_registry 1 1 → report.isSome = true) ∧
      ((∀ b, connected_ids cycle_registry 1 b →
          ¬ Relation.ReflTransGen (connected_ids cycle_registry) b 1) →
        report = none)) ∧
    exists_path cycle_registry 1 1 = some (SUCCESS, some [1, 2]) ∧
    exists_path cycle_registry 3 3 = some (SUCCESS, some [3]) ∧
    exists_path chain_registry 1 1 = some (SUCCESS, none) :=
  ⟨exists_path_self_iff_cycle cycle_registry 1 0 cycle_no_dangling (by decide) (by decide)
      (by decide),
    by decide, by decide, by decide⟩

/-! ## Connection records with unknown ids -/

theorem store_same {s : registry} {p : Nat} {r : router} (h : deref s p = some r) :
    store s p r = s := by
  rw [deref_eq_some] at h
  unfold store
  rw [list_set_same h]

theorem set_connection_unknown (s : registry) (a b : Nat)
    (h : get_router s a = none ∨ get_router s b = none) :
    ∃ res, set_connection s (get_router s a) (get_router s b) = some (res, s) := by
  cases ha : get_router s a with
  | none => exact ⟨FAILURE, rfl⟩
  | some p =>
    have hb : get_router s b = none := by
      rcases h with h | h
      · rw [ha] at h; cases h
      · exact h
    rw [hb]
    obtain ⟨rr, hrr, -⟩ := get_router_deref ha
    unfold set_connection
    simp only [hrr]
    cases hs : set_first_empty none rr.connections with
    | none => exact ⟨FAILURE, rfl⟩
    | some cs =>
      obtain ⟨j, e1, e2⟩ := set_first_empty_eq hs
      have : cs = rr.connections := by rw [e2, list_set_same e1]
      subst this
      refine ⟨SUCCESS, ?_⟩
      show some (SUCCESS, store s p rr) = some (SUCCESS, s)
      rw [store_same hrr]

theorem set_connection_live (s : registry) (a : Nat) (t : Option Nat) :
    ∃ res s1, set_connection s (get_router s a) t = some (res, s1) := by
  cases ha : get_router s a with
  | none => exact ⟨FAILURE, s, rfl⟩
  | some p =>
    obtain ⟨rr, hrr, -⟩ := get_router_deref ha
    unfold set_connection
    simp only [hrr]
    cases hs : set_first_empty t rr.connections with
    | none => exact ⟨FAILURE, s, rfl⟩
    | some cs => exact ⟨SUCCESS, _, rfl⟩

theorem get_router_frame {s s1 : registry} (h : slot_ids s1 = slot_ids s) (id : Nat) :
    get_router s1 id = get_router s id :=
  get_router_scan_congr id _ _ h

theorem known_record_frame {s s1 : registry} (h : slot_ids s1 = slot_ids s) :
    known_record s1 = known_record s := by
  funext c
  unfold known_record
  rw [get_router_frame h, get_router_frame h]

theorem connect_records_total (conns : List (Nat × Nat)) :
    ∀ s, ∃ s1, connect_records s conns = some s1 ∧ slot_ids s1 = slot_ids s ∧
      s1.N_ROUTERS = s.N_ROUTERS := by
  induction conns with
  | nil => intro s; exact ⟨s, rfl, rfl, rfl⟩
  | cons c rest ih =>
    intro s
    obtain ⟨res, s1, h1⟩ := set_connection_live s c.1 (get_router s c.2)
    obtain ⟨s2, h2, h3, h4⟩ := ih s1
    obtain ⟨f1, f2⟩ := set_connection_frame h1
    exact ⟨s2, by simp only [connect_records, h1, h2], h3.trans f1, h4.trans f2⟩

theorem connect_records_filter (conns : List (Nat × Nat)) :
    ∀ s, connect_records s (conns.filter (known_record s)) = connect_records s conns := by
  induction conns with
  | nil => intro s; rfl
  | cons c rest ih =>
    intro s
    by_cases hk : known_record s c = true
    · rw [List.filter_cons_of_pos hk]
      obtain ⟨res, s1, h1⟩ := set_connection_live s c.1 (get_router s c.2)
      simp only [connect_records, h1]
      rw [← known_record_frame (set_connection_frame h1).1]
      exact ih s1
    · rw [List.filter_cons_of_neg hk]
      have hun : get_router s c.1 = none ∨ get_router s c.2 = none := by
        unfold known_record at hk
        cases h1 : get_router s c.1 with
        | none => exact Or.inl rfl
        | some p =>
          cases h2 : get_router s c.2 with
          | none => exact Or.inr rfl
          | some q => simp [h1, h2] at hk
      obtain ⟨res, h1⟩ := set_connection_unknown s c.1 c.2 hun
      simp only [connect_records, h1]
      exact ih s

/-- The loop of `set_all_connections` on the bytes of connection records. -/
theorem set_all_connections_loop_records :
    ∀ (conns : List (Nat × Nat)) (s : registry) (fuel : Nat) (e : Bool),
      (e = true → conns = []) → conns.length < fuel →
      (∀ c ∈ conns, c.1 < 2 ^ 32 ∧ c.2 < 2 ^ 32) →
      set_all_connections_loop fuel s
          { data := (conns.map encode_connection_record).flatten, eof := e } =
        (connect_records s conns).map (fun s1 => (SUCCESS, s1)) := by
  intro conns
  induction conns with
  | nil =>
    intro s fuel e _ hfuel _
    obtain ⟨f1, rfl⟩ : ∃ f1, fuel = f1 + 1 := ⟨fuel - 1, by simp at hfuel; omega⟩
    rw [set_all_connections_loop]
    cases e with
    | true => simp [connect_records]
    | false => simp [set_all_connections_turn_empty, connect_records]
  | cons c rest ih =>
    intro s fuel e he hfuel hwf
    obtain ⟨f1, rfl⟩ : ∃ f1, fuel = f1 + 1 := ⟨fuel - 1, by simp at hfuel; omega⟩
    have hne : e = false := by
      cases e with
      | true => exact absurd (he rfl) (by simp)
      | false => rfl
    subst hne
    obtain ⟨k1, k2⟩ := hwf c (List.mem_cons_self _ _)
    obtain ⟨res, s1, hset⟩ := set_connection_live s c.1 (get_router s c.2)
    have hturn := set_all_connections_turn_encode s _ _ c
      (rest.map encode_connection_record).flatten k1 k2 hset
    rw [set_all_connections_loop]
    simp only [List.map_cons, List.flatten_cons, Bool.false_eq_true, if_false, hturn,
      connect_records, hset]
    exact ih s1 f1 (decide ((rest.map encode_connection_record).flatten = []))
      (by
        intro hd2
        have hd3 := of_decide_eq_true hd2
        cases rest with
        | nil => rfl
        | cons c2 r2 =>
          exfalso
          simp only [List.map_cons, List.flatten_cons, List.append_eq_nil] at hd3
          exact encode_connection_record_ne_nil c2 hd3.1)
      (by simp at hfuel; omega)
      (fun c1 h1 => hwf c1 (List.mem_cons_of_mem _ h1))

theorem connect_records_empty (conns : List (Nat × Nat)) (s : registry)
    (h : s.router_array = []) : connect_records s conns = some s := by
  induction conns with
  | nil => rfl
  | cons c rest ih =>
    have hg : get_router s c.1 = none := by
      unfold get_router
      rw [h]
      rfl
    simp only [connect_records, hg, set_connection]
    exact ih

/-- Source `set_all_connections` on the bytes of connection records. -/
theorem set_all_connections_records (s : registry) (conns : List (Nat × Nat))
    (hwf : ∀ c ∈ conns, c.1 < 2 ^ 32 ∧ c.2 < 2 ^ 32) :
    set_all_connections s { data := (conns.map encode_connection_record).flatten, eof := false } =
      (connect_records s conns).map (fun s1 => (SUCCESS, s1)) := by
  unfold set_all_connections
  by_cases h0 : s.N ≤ 0
  · rw [if_pos h0]
    have hnil : s.router_array = [] := by
      apply List.length_eq_zero.mp
      simp only [registry.N] at h0
      omega
    rw [connect_records_empty conns s hnil]
    rfl
  · rw [if_neg h0]
    exact set_all_connections_loop_records conns s _ false (by simp)
      (by
        show conns.length < ((conns.map encode_connection_record).flatten).length + 1
        rw [length_encode_connections]
        omega)
      hwf

/-- C21.  Connection records with an unknown id.  In every registry, for a
connection record (ids below 2 ^ 32) whose `from_id` or `to_id` is the id of
no router: `set_connection` leaves the registry as it is, and the turn of the
loop of `set_all_connections` that reads the record does not return; it goes
on with the registry unchanged and the stream behind the record.  And for
every list of connection records, `set_all_connections` returns `SUCCESS`
with the same registry as for the list without the records that name an
unknown id. -/
theorem set_all_connections_ignores_unknown (s : registry) (conns : List (Nat × Nat))
    (hwf : ∀ c ∈ conns, c.1 < 2 ^ 32 ∧ c.2 < 2 ^ 32) :
    (∀ (c : Nat × Nat) (more : List Nat), c.1 < 2 ^ 32 → c.2 < 2 ^ 32 →
      get_router s c.1 = none ∨ get_router s c.2 = none →
      (∃ res, set_connection s (get_router s c.1) (get_router s c.2) = some (res, s)) ∧
      set_all_connections_turn s
          { data := encode_connection_record c ++ more, eof := false } =
        some (Sum.inr (s, { data := more, eof := decide (more = []) }))) ∧
    ∃ s1,
      set_all_connections s
          { data := (conns.map encode_connection_record).flatten, eof := false } =
        some (SUCCESS, s1) ∧
      set_all_connections s
          { data := ((conns.filter (known_record s)).map encode_connection_record).flatten
            eof := false } =
        some (SUCCESS, s1) := by
  refine ⟨?_, ?_⟩
  · intro c more h1 h2 hun
    obtain ⟨res, hset⟩ := set_connection_unknown s c.1 c.2 hun
    exact ⟨⟨res, hset⟩, set_all_connections_turn_encode s s res c more h1 h2 hset⟩
  · obtain ⟨s1, e1, -, -⟩ := connect_records_total conns s
    refine ⟨s1, ?_, ?_⟩
    · rw [set_all_connections_records s conns hwf, e1]
      rfl
    · rw [set_all_connections_records s _
        (fun c hc => hwf c (List.mem_of_mem_filter hc)), connect_records_filter, e1]
      rfl

/-- Witness for C21: the records 1 → 3, 9 → 2, 2 → 9 and 3 → 1 on the chain
1 → 2 → 3, which has no router 9. -/
theorem set_all_connections_ignores_unknown_witness :
    ((∀ (c : Nat × Nat) (more : List Nat), c.1 < 2 ^ 32 → c.2 < 2 ^ 32 →
      get_router chain_registry c.1 = none ∨ get_router chain_registry c.2 = none →
      (∃ res, set_connection chain_registry (get_router chain_registry c.1)
          (get_router chain_registry c.2) = some (res, chain_registry)) ∧
      set_all_connections_turn chain_registry
          { data := encode_connection_record c ++ more, eof := false } =
        some (Sum.inr (chain_registry, { data := more, eof := decide (more = []) }))) ∧
    ∃ s1,
      set_all_connections chain_registry
          { data := (([(1, 3), (9, 2), (2, 9), (3, 1)] : List (Nat × Nat)).map
              encode_connection_record).flatten
            eof := false } =
        some (SUCCESS, s1) ∧
      set_all_connections chain_registry
          { data := ((([(1, 3), (9, 2), (2, 9), (3, 1)] : List (Nat × Nat)).filter
              (known_record chain_registry)).map encode_connection_record).flatten
            eof := false } =
        some (SUCCESS, s1)) ∧
    ([(1, 3), (9, 2), (2, 9), (3, 1)] : List (Nat × Nat)).filter (known_record chain_registry) =
      [(1, 3), (3, 1)] ∧
    load (encode_stream chain_records [(1, 2), (9, 2), (2, 9), (2, 3)]) =
      some (SUCCESS, chain_registry) :=
  ⟨set_all_connections_ignores_unknown chain_registry [(1, 3), (9, 2), (2, 9), (3, 1)]
      (by decide),
    by decide, by decide⟩

/-! ## Termination of the path search -/

theorem search_loop_mono {s : registry} {pa : List Nat}
    {call call1 : Nat → search_state → Option (Bool × search_state)}
    (h : ∀ t st x, call t st = some x → call1 t st = some x) :
    ∀ cs st x, search_loop s pa call cs st = some x → search_loop s pa call1 cs st = some x := by
  intro cs
  induction cs with
  | nil => intro st x hx; exact hx
  | cons c rest ih =>
    intro st x hx
    cases c with
    | none =>
      simp only [search_loop] at hx ⊢
      exact ih st x hx
    | some t =>
      simp only [search_loop] at hx ⊢
      cases hd : deref s t with
      | none => rw [hd] at hx; cases hx
      | some nr =>
        rw [hd] at hx
        dsimp only at hx ⊢
        cases hi : get_idx_in_visited s nr.routerID pa with
        | none => rw [hi] at hx; cases hx
        | some k =>
          rw [hi] at hx
          dsimp only at hx ⊢
          cases hv : visited_get st.visited k with
          | none => rw [hv] at hx; cases hx
          | some v =>
            rw [hv] at hx
            cases v with
            | true => exact ih st x hx
            | false =>
              dsimp only at hx ⊢
              cases hc : call t st with
              | none => rw [hc] at hx; cases hx
              | some y =>
                rw [hc] at hx
                rw [h t st y hc]
                obtain ⟨b, st1⟩ := y
                cases b with
                | true => exact hx
                | false => exact ih st1 x hx

/-- More fuel does not change what `recursive_search` returns. -/
theorem recursive_search_mono (s : registry) (pa : List Nat) (findID : Nat) :
    ∀ fuel p st x, recursive_search s pa findID fuel p st = some x →
      recursive_search s pa findID (fuel + 1) p st = some x := by
  intro fuel
  induction fuel with
  | zero =>
    intro p st x hx
    simp [recursive_search] at hx
  | succ fuel ih =>
    intro p st x hx
    rw [recursive_search] at hx ⊢
    dsimp only at hx ⊢
    cases hd : deref s p with
    | none => rw [hd] at hx; cases hx
    | some r =>
      rw [hd] at hx
      dsimp only at hx ⊢
      cases hi : get_idx_in_visited s r.routerID pa with
      | none => rw [hi] at hx; cases hx
      | some k =>
        rw [hi] at hx
        dsimp only at hx ⊢
        cases hv : visited_set (grow_path st).visited k true with
        | none => rw [hv] at hx; cases hx
        | some V1 =>
          rw [hv] at hx
          dsimp only at hx ⊢
          cases hw : path_write { grow_path st with visited := V1 } r.routerID with
          | none => rw [hw] at hx; cases hx
          | some st1 =>
            rw [hw] at hx
            dsimp only at hx ⊢
            cases hc : is_connected s (some p) findID with
            | none => rw [hc] at hx; cases hx
            | some b =>
              rw [hc] at hx
              cases b with
              | true => exact hx
              | false =>
                dsimp only at hx ⊢
                cases hl : search_loop s pa (recursive_search s pa findID fuel) r.connections
                    { st1 with path_cur := st1.path_cur + 1 } with
                | none => rw [hl] at hx; cases hx
                | some y =>
                  rw [hl] at hx
                  rw [search_loop_mono ih _ _ _ hl]
                  exact hx

theorem recursive_search_fuel (s : registry) (pa : List Nat) (findID : Nat)
    {fuel fuel1 p : Nat} {st : search_state} {x : Bool × search_state} (hle : fuel ≤ fuel1)
    (h : recursive_search s pa findID fuel p st = some x) :
    recursive_search s pa findID fuel1 p st = some x := by
  obtain ⟨d, rfl⟩ := Nat.exists_eq_add_of_le hle
  induction d with
  | zero => exact h
  | succ d ih => exact recursive_search_mono s pa findID _ p st x (ih (by omega))

/-- The loop of `recursive_search` makes its calls only for routers that are
not marked. -/
theorem search_loop_only_unmarked (s : registry)
    (call : Nat → search_state → Option (Bool × search_state)) :
    ∀ cs st, search_loop s (occupied_from 0 s.router_array) call cs st =
      search_loop s (occupied_from 0 s.router_array) (only_unmarked s call) cs st := by
  intro cs
  induction cs with
  | nil => intro st; rfl
  | cons c rest ih =>
    intro st
    cases c with
    | none =>
      simp only [search_loop]
      exact ih st
    | some t =>
      simp only [search_loop]
      cases hd : deref s t with
      | none => rfl
      | some nr =>
        dsimp only
        cases hi : get_idx_in_visited s nr.routerID (occupied_from 0 s.router_array) with
        | none => rfl
        | some k =>
          dsimp only
          cases hv : visited_get st.visited k with
          | none => rfl
          | some v =>
            cases v with
            | true => exact ih st
            | false =>
              dsimp only
              have hcall : only_unmarked s call t st = call t st := by
                simp only [only_unmarked, slot_index, hd, hi, hv, if_true]
              rw [hcall]
              cases hc : call t st with
              | none => rfl
              | some y =>
                obtain ⟨b, st1⟩ := y
                cases b with
                | true => rfl
                | false => exact ih st1

theorem count_false_search_start (s : registry) :
    (search_start s).visited.count false = s.N_ROUTERS.toNat := by
  simp [search_start, List.count_replicate]

/-- C25.  Termination of the path search.  Let the registry have no dangling
connection and unique live ids, and let `N_ROUTERS` be the number of occupied
slots.  The fuel of `recursive_search` bounds the depth of the recursion.  A
call for a router that is not marked returns for every fuel that is at least
the number of routers not marked, and it returns the same for all of them;
so the call that `exists_path` makes for a live start router returns for
every fuel that is at least the live count, and `exists_path` itself
returns.  The loop makes its recursive calls only for routers that are not
marked. -/
theorem recursive_search_terminates (s : registry) (a pa findID : Nat)
    (hnd : no_dangling s) (hu : unique_ids s) (hN : s.N_ROUTERS = live_count s)
    (ha : get_router s a = some pa) :
    (∀ p r st, deref s p = some r → ¬ marked s st.visited p →
      st.visited.length = s.N_ROUTERS.toNat → st.path.length = st.path_size →
      st.path_cur < st.path_size →
      ∃ res, ∀ fuel, st.visited.count false ≤ fuel →
        recursive_search s (occupied_from 0 s.router_array) findID fuel p st = some res) ∧
    (∃ res,
      (∀ fuel, live_count s ≤ fuel →
        recursive_search s (occupied_from 0 s.router_array) findID fuel pa (search_start s) =
          some res) ∧
      exists_path_search s a findID = some res) ∧
    (∀ call cs st, search_loop s (occupied_from 0 s.router_array) call cs st =
      search_loop s (occupied_from 0 s.router_array) (only_unmarked s call) cs st) := by
  have hgen : ∀ p r st, deref s p = some r → ¬ marked s st.visited p →
      st.visited.length = s.N_ROUTERS.toNat → st.path.length = st.path_size →
      st.path_cur < st.path_size →
      ∃ res, ∀ fuel, st.visited.count false ≤ fuel →
        recursive_search s (occupied_from 0 s.router_array) findID fuel p st = some res := by
    intro p r st hp hm hlen h1 h2
    obtain ⟨b, st1, e1, -⟩ := recursive_search_correct hnd hu hN findID
      (st.visited.count false) p r st hp hm hlen h1 h2 (le_refl _)
    exact ⟨(b, st1), fun fuel hf => recursive_search_fuel s _ findID hf e1⟩
  refine ⟨hgen, ?_, search_loop_only_unmarked s⟩
  obtain ⟨r, hr, -⟩ := get_router_deref ha
  obtain ⟨res, hres⟩ := hgen pa r (search_start s) hr (not_marked_replicate s _ pa)
    (by simp [search_start]) (by simp [search_start]) (by simp [search_start])
  have hcount := count_false_search_start s
  have hn : s.N_ROUTERS.toNat = live_count s := by rw [hN]; simp
  refine ⟨res, fun fuel hf => hres fuel (by omega), ?_⟩
  unfold exists_path_search
  have h0 : ¬ s.N_ROUTERS < 0 := by rw [hN]; omega
  rw [if_neg h0]
  simp only
  rw [if_neg (by rw [length_ptr_array]; omega), ha]
  exact hres (s.N_ROUTERS.toNat + 1) (by omega)

/-- Witness for C25: the search from router 1 in the chain 1 → 2 → 3, which
returns with the fuel 3 already. -/
theorem recursive_search_terminates_witness :
    ((∀ p r st, deref chain_registry p = some r → ¬ marked chain_registry st.visited p →
      st.visited.length = chain_registry.N_ROUTERS.toNat → st.path.length = st.path_size →
      st.path_cur < st.path_size →
      ∃ res, ∀ fuel, st.visited.count false ≤ fuel →
        recursive_search chain_registry (occupied_from 0 chain_registry.router_array) 3 fuel
          p st = some res) ∧
    (∃ res,
      (∀ fuel, live_count chain_registry ≤ fuel →
        recursive_search chain_registry (occupied_from 0 chain_registry.router_array) 3 fuel
          0 (search_start chain_registry) = some res) ∧
      exists_path_search chain_registry 1 3 = some res) ∧
    (∀ call cs st,
      search_loop chain_registry (occupied_from 0 chain_registry.router_array) call cs st =
        search_loop chain_registry (occupied_from 0 chain_registry.router_array)
          (only_unmarked chain_registry call) cs st)) ∧
    live_count chain_registry = 3 ∧
    recursive_search chain_registry (occupied_from 0 chain_registry.router_array) 1 3
        0 (search_start chain_registry) =
      exists_path_search chain_registry 1 1 ∧
    exists_path_search chain_registry 1 1 =
      some (false, { search_start chain_registry with path := [1, 2, 3] ++ List.replicate 13 0 }) :=
  ⟨recursive_search_terminates chain_registry 1 0 3 chain_no_dangling (by decide) (by decide)
      (by decide),
    by decide, by decide, by decide⟩

/-! ## The recorded search -/

theorem chain_app {α : Type} {R : α → α → Prop} :
    ∀ (l1 l2 : List α) (a : α), List.Chain R a l1 →
      List.Chain R ((a :: l1).getLast (List.cons_ne_nil _ _)) l2 →
      List.Chain R a (l1 ++ l2) := by
  intro l1
  induction l1 with
  | nil => intro l2 a _ h2; simpa using h2
  | cons b rest ih =>
    intro l2 a h1 h2
    rw [List.chain_cons] at h1
    rw [List.cons_append, List.chain_cons]
    refine ⟨h1.1, ih l2 b h1.2 ?_⟩
    rwa [List.getLast_cons (List.cons_ne_nil _ _)] at h2

theorem getLast_app {α : Type} (l1 l2 : List α) (a : α) :
    (a :: (l1 ++ l2)).getLast (List.cons_ne_nil _ _) =
      (((a :: l1).getLast (List.cons_ne_nil _ _)) :: l2).getLast (List.cons_ne_nil _ _) := by
  induction l1 generalizing a with
  | nil => rfl
  | cons b rest ih =>
    rw [List.cons_append, List.getLast_cons (List.cons_ne_nil _ _), ih b,
      List.getLast_cons (List.cons_ne_nil _ _)]

theorem grow_path_visited (st : search_state) : (grow_path st).visited = st.visited := by
  unfold grow_path
  split_ifs <;> rfl

theorem grow_path_cur (st : search_state) : (grow_path st).path_cur = st.path_cur := by
  unfold grow_path
  split_ifs <;> rfl

theorem grow_path_doubles (st : search_state) : doubles st.path_size (grow_path st).path_size := by
  unfold grow_path doubles
  split_ifs
  · right
    show st.path_size * 2 = 2 * st.path_size
    omega
  · left
    rfl

theorem grow_path_take (st : search_state) (n : Nat) (h : n ≤ st.path.length) :
    (grow_path st).path.take n = st.path.take n := by
  unfold grow_path
  split_ifs
  · show (st.path ++ _).take n = st.path.take n
    rw [List.take_append_of_le_length h]
  · rfl

theorem visited_set_some {V V1 : List Bool} {k : Int} {v : Bool}
    (h : visited_set V k v = some V1) :
    ∃ kn : Nat, k = (kn : Int) ∧ kn < V.length ∧ V1 = V.set kn v := by
  unfold visited_set at h
  split_ifs at h with h1 h2
  · cases h
    exact ⟨k.toNat, by omega, h2, rfl⟩

theorem visited_get_some {V : List Bool} {k : Int} {v : Bool}
    (h : visited_get V k = some v) : ∃ kn : Nat, k = (kn : Int) ∧ V[kn]? = some v := by
  unfold visited_get at h
  split_ifs at h with h1
  exact ⟨k.toNat, by omega, h⟩

theorem get_idx_scan_sound (s : registry) (id : Nat) (pa : List Nat) :
    ∀ (n i : Nat) (kn : Nat), get_idx_scan s id pa n i = some (kn : Int) →
      ∃ p r, pa[kn]? = some p ∧ deref s p = some r ∧ r.routerID = id := by
  intro n
  induction n with
  | zero =>
    intro i kn h
    simp only [get_idx_scan, FAILURE, Option.some.injEq] at h
    omega
  | succ n ih =>
    intro i kn h
    simp only [get_idx_scan] at h
    cases hp : pa[i]? with
    | none => rw [hp] at h; cases h
    | some p =>
      rw [hp] at h
      dsimp only at h
      cases hd : deref s p with
      | none => rw [hd] at h; cases h
      | some r =>
        rw [hd] at h
        dsimp only at h
        by_cases hc : r.routerID = id
        · rw [if_pos hc] at h
          have : i = kn := by
            have := Option.some.inj h
            omega
          subst this
          exact ⟨p, r, hp, hd, hc⟩
        · rw [if_neg hc] at h
          exact ih (i + 1) kn h

theorem get_idx_sound {s : registry} {id kn : Nat}
    (h : get_idx_in_visited s id (occupied_from 0 s.router_array) = some (kn : Int)) :
    ∃ p r, (occupied_from 0 s.router_array)[kn]? = some p ∧ deref s p = some r ∧
      r.routerID = id :=
  get_idx_scan_sound s id _ _ 0 kn h

theorem occupied_from_sorted (slots : List (Option router)) :
    ∀ i, (occupied_from i slots).Pairwise (· < ·) ∧ ∀ p ∈ occupied_from i slots, i ≤ p := by
  induction slots with
  | nil => intro i; simp [occupied_from]
  | cons o rest ih =>
    intro i
    obtain ⟨h1, h2⟩ := ih (i + 1)
    cases o with
    | none =>
      simp only [occupied_from]
      exact ⟨h1, fun p hp => by have := h2 p hp; omega⟩
    | some r =>
      simp only [occupied_from, List.pairwise_cons, List.mem_cons]
      refine ⟨⟨fun p hp => by have := h2 p hp; omega, h1⟩, ?_⟩
      rintro p (rfl | hp)
      · exact le_refl _
      · have := h2 p hp
        omega

theorem ptr_array_index_inj (s : registry) {k1 k2 p : Nat}
    (h1 : (occupied_from 0 s.router_array)[k1]? = some p)
    (h2 : (occupied_from 0 s.router_array)[k2]? = some p) : k1 = k2 := by
  have hnd : (occupied_from 0 s.router_array).Nodup :=
    ((occupied_from_sorted s.router_array 0).1).imp (fun h => Nat.ne_of_lt h)
  have hl1 : k1 < (occupied_from 0 s.router_array).length := by
    by_contra hc
    rw [List.getElem?_eq_none (by omega)] at h1
    cases h1
  have hl2 : k2 < (occupied_from 0 s.router_array).length := by
    by_contra hc
    rw [List.getElem?_eq_none (by omega)] at h2
    cases h2
  rw [List.getElem?_eq_getElem hl1] at h1
  rw [List.getElem?_eq_getElem hl2] at h2
  exact (List.Nodup.getElem_inj_iff hnd).mp ((Option.some.inj h1).trans (Option.some.inj h2).symm)

theorem mem_marked_ids {s : registry} {V : List Bool} {id : Nat} :
    id ∈ marked_ids s V ↔
      ∃ (k p : Nat) (r : router), (occupied_from 0 s.router_array)[k]? = some p ∧
        V[k]? = some true ∧ deref s p = some r ∧ r.routerID = id := by
  unfold marked_ids
  rw [List.mem_filterMap]
  constructor
  · rintro ⟨⟨p, v⟩, hmem, hx⟩
    obtain ⟨k, hk⟩ := List.getElem?_of_mem hmem
    rw [List.getElem?_zip_eq_some] at hk
    dsimp only at hx
    cases v with
    | false => simp at hx
    | true =>
      simp only [if_true, Option.map_eq_some'] at hx
      obtain ⟨r, hr, hid⟩ := hx
      exact ⟨k, p, r, hk.1, hk.2, hr, hid⟩
  · rintro ⟨k, p, r, h1, h2, h3, h4⟩
    refine ⟨(p, true), ?_, ?_⟩
    · apply List.getElem?_mem (n := k)
      rw [List.getElem?_zip_eq_some]
      exact ⟨h1, h2⟩
    · simp [h3, h4]

theorem search_loop_log_erase {s : registry} {pa : List Nat}
    {call_log : Nat → search_state → Option (Bool × search_state × List search_event)}
    {call : Nat → search_state → Option (Bool × search_state)}
    (h : ∀ t st, erase_log (call_log t st) = call t st) :
    ∀ cs st, erase_log (search_loop_log s pa call_log cs st) = search_loop s pa call cs st := by
  intro cs
  induction cs with
  | nil => intro st; rfl
  | cons c rest ih =>
    intro st
    cases c with
    | none =>
      simp only [search_loop_log, search_loop]
      exact ih st
    | some t =>
      simp only [search_loop_log, search_loop]
      cases hd : deref s t with
      | none => rfl
      | some nr =>
        dsimp only
        cases hi : get_idx_in_visited s nr.routerID pa with
        | none => rfl
        | some k =>
          dsimp only
          cases hv : visited_get st.visited k with
          | none => rfl
          | some v =>
            cases v with
            | true => exact ih st
            | false =>
              dsimp only
              rw [← h t st]
              cases hc : call_log t st with
              | none => rfl
              | some y =>
                obtain ⟨b, st1, log⟩ := y
                cases b with
                | true => rfl
                | false =>
                  show erase_log (Option.map _ (search_loop_log s pa call_log rest st1)) =
                    search_loop s pa call rest st1
                  rw [← ih st1]
                  simp only [erase_log, Option.map_map]
                  rfl

theorem recursive_search_log_erase (s : registry) (pa : List Nat) (findID : Nat) :
    ∀ fuel p st, erase_log (recursive_search_log s pa findID fuel p st) =
      recursive_search s pa findID fuel p st := by
  intro fuel
  induction fuel with
  | zero => intro p st; rfl
  | succ fuel ih =>
    intro p st
    rw [recursive_search_log, recursive_search]
    dsimp only
    cases hd : deref s p with
    | none => rfl
    | some r =>
      dsimp only
      cases hi : get_idx_in_visited s r.routerID pa with
      | none => rfl
      | some k =>
        dsimp only
        cases hv : visited_set (grow_path st).visited k true with
        | none => rfl
        | some V1 =>
          dsimp only
          cases hw : path_write { grow_path st with visited := V1 } r.routerID with
          | none => rfl
          | some st1 =>
            dsimp only
            cases hc : is_connected s (some p) findID with
            | none => rfl
            | some b =>
              cases b with
              | true =>
                dsimp only [erase_log]
                simp only [Option.map_map]
                rfl
              | false =>
                dsimp only
                rw [← search_loop_log_erase ih r.connections
                  { st1 with path_cur := st1.path_cur + 1 }]
                cases hl : search_loop_log s pa (recursive_search_log s pa findID fuel)
                    r.connections { st1 with path_cur := st1.path_cur + 1 } with
                | none => rfl
                | some y =>
                  obtain ⟨b, st3, log⟩ := y
                  cases b with
                  | true => rfl
                  | false =>
                    dsimp only [erase_log, Option.map_some']
                    cases hv2 : visited_set st3.visited k false with
                    | none => rfl
                    | some V2 => rfl

theorem exists_path_search_log_erase (s : registry) (a b : Nat) :
    erase_log (exists_path_search_log s a b) = exists_path_search s a b := by
  unfold exists_path_search_log exists_path_search
  by_cases h0 : s.N_ROUTERS < 0
  · rw [if_pos h0, if_pos h0]
    rfl
  · rw [if_neg h0, if_neg h0]
    dsimp only
    by_cases h1 : s.N_ROUTERS.toNat < (occupied_from 0 s.router_array).length
    · rw [if_pos h1, if_pos h1]
      rfl
    · rw [if_neg h1, if_neg h1]
      cases get_router s a with
      | none => rfl
      | some p => exact recursive_search_log_erase s _ b _ p _

theorem erase_log_some {res : Option (Bool × search_state × List search_event)} {b : Bool}
    {st : search_state} (h : erase_log res = some (b, st)) : ∃ log, res = some (b, st, log) := by
  cases res with
  | none => cases h
  | some x =>
    obtain ⟨b1, st1, log⟩ := x
    simp only [erase_log, Option.map_some', Option.some.injEq, Prod.mk.injEq] at h
    obtain ⟨rfl, rfl⟩ := h
    exact ⟨log, rfl⟩

theorem path_write_some {st st1 : search_state} {id : Nat} (h : path_write st id = some st1) :
    st.path_cur < st.path.length ∧ st1 = { st with path := st.path.set st.path_cur id } := by
  unfold path_write at h
  split_ifs at h with hc
  cases h
  exact ⟨hc, rfl⟩

theorem take_set_succ (l : List Nat) (n x : Nat) (h : n < l.length) :
    (l.set n x).take (n + 1) = l.take n ++ [x] := by
  induction l generalizing n with
  | nil => simp at h
  | cons a rest ih =>
    cases n with
    | zero => simp
    | succ m =>
      simp only [List.set_cons_succ, List.take_succ_cons, List.cons_append, List.cons.injEq,
        true_and]
      exact ih m (by simpa using h)

theorem take_set_of_le (l : List Nat) (n m x : Nat) (h : m ≤ n) :
    (l.set n x).take m = l.take m := by
  induction l generalizing n m with
  | nil => simp
  | cons a rest ih =>
    cases m with
    | zero => simp
    | succ m1 =>
      cases n with
      | zero => omega
      | succ n1 =>
        simp only [List.set_cons_succ, List.take_succ_cons, List.cons.injEq, true_and]
        exact ih n1 m1 (by omega)

theorem take_of_take_eq {l1 l2 : List Nat} {n m : Nat} (h : l1.take n = l2.take n)
    (hm : m ≤ n) : l1.take m = l2.take m := by
  have := congrArg (List.take m) h
  simpa [List.take_take, Nat.min_eq_left hm] using this

/-- The router of a call that is entered for a router that is not marked:
its index is inside `visited` and the entry is `FALSE`. -/
theorem entry_unmarked {s : registry} {V V1 : List Bool} {p : Nat} {r : router} {k : Int}
    (hm : ¬ marked s V p) (hd : deref s p = some r)
    (hi : get_idx_in_visited s r.routerID (occupied_from 0 s.router_array) = some k)
    (hv : visited_set V k true = some V1) :
    ∃ kn : Nat, k = (kn : Int) ∧ kn < V.length ∧ V[kn]? = some false ∧ V1 = V.set kn true := by
  obtain ⟨kn, rfl, hlen, rfl⟩ := visited_set_some hv
  refine ⟨kn, rfl, hlen, ?_, rfl⟩
  rw [List.getElem?_eq_getElem hlen]
  cases hb : V[kn] with
  | false => rfl
  | true =>
    exfalso
    apply hm
    refine ⟨kn, ?_, by rw [List.getElem?_eq_getElem hlen, hb]⟩
    simp only [slot_index, hd]
    exact hi

theorem not_marked_of_guard {s : registry} {V : List Bool} {t : Nat} {nr : router} {k : Int}
    (hd : deref s t = some nr)
    (hi : get_idx_in_visited s nr.routerID (occupied_from 0 s.router_array) = some k)
    (hv : visited_get V k = some false) : ¬ marked s V t := by
  obtain ⟨kn, rfl, hkv⟩ := visited_get_some hv
  refine marked_of_get ?_ hkv
  simp only [slot_index, hd]
  exact hi

/-- Marking a router that is not marked and pushing its id keeps the active
path invariant. -/
theorem invariant_push {s : registry} (hu : unique_ids s) {V : List Bool} {kn x : Nat}
    {l : List Nat}
    (hidx : get_idx_in_visited s x (occupied_from 0 s.router_array) = some (kn : Int))
    (hV : V[kn]? = some false) (hnd : l.Nodup)
    (hiff : ∀ id, id ∈ l ↔ id ∈ marked_ids s V) :
    (l ++ [x]).Nodup ∧ ∀ id, id ∈ l ++ [x] ↔ id ∈ marked_ids s (V.set kn true) := by
  obtain ⟨p0, r0, hp0, hr0, hid0⟩ := get_idx_sound hidx
  have hlen : kn < V.length := by
    by_contra hc
    rw [List.getElem?_eq_none (by omega)] at hV
    cases hV
  have hx : x ∉ l := by
    intro hmem
    obtain ⟨k1, p1, r1, e1, e2, e3, e4⟩ := mem_marked_ids.mp ((hiff x).mp hmem)
    have hp : p1 = p0 := unique_ids_slot hu e3 hr0 (by rw [e4, hid0])
    subst hp
    have hk : k1 = kn := ptr_array_index_inj s e1 hp0
    subst hk
    rw [hV] at e2
    cases e2
  refine ⟨?_, ?_⟩
  · rw [List.nodup_append]
    refine ⟨hnd, List.nodup_singleton x, ?_⟩
    intro a ha hb
    rw [List.mem_singleton] at hb
    subst hb
    exact hx ha
  · intro id
    rw [List.mem_append, List.mem_singleton]
    constructor
    · rintro (h | h)
      · obtain ⟨k1, p1, r1, e1, e2, e3, e4⟩ := mem_marked_ids.mp ((hiff id).mp h)
        refine mem_marked_ids.mpr ⟨k1, p1, r1, e1, ?_, e3, e4⟩
        by_cases hk : k1 = kn
        · subst hk
          simp [hlen]
        · rwa [List.getElem?_set_ne (Ne.symm hk)]
      · subst h
        exact mem_marked_ids.mpr ⟨kn, p0, r0, hp0, by simp [hlen], hr0, hid0⟩
    · intro h
      obtain ⟨k1, p1, r1, e1, e2, e3, e4⟩ := mem_marked_ids.mp h
      by_cases hk : k1 = kn
      · subst hk
        right
        rw [hp0] at e1
        cases e1
        rw [hr0] at e3
        cases e3
        rw [← e4, hid0]
      · left
        rw [List.getElem?_set_ne (Ne.symm hk)] at e2
        exact (hiff id).mpr (mem_marked_ids.mpr ⟨k1, p1, r1, e1, e2, e3, e4⟩)

theorem doubles_refl (c : Nat) : doubles c c := Or.inl rfl

theorem search_log_frame_refl (s : registry) (st : search_state) :
    search_log_frame s st st [] := by
  intro h1 h2
  refine ⟨h1, h2, rfl, ?_, List.Chain.nil, rfl, fun _ hinv => ⟨hinv, ?_⟩⟩
  · intro i c h
    cases h
  · intro st2 h
    cases h

theorem search_log_frame_trans {s : registry} {st sta stb : search_state}
    {loga logb : List search_event} (ha : search_log_frame s st sta loga)
    (hle : st.path_cur ≤ sta.path_cur) (hb : search_log_frame s sta stb logb) :
    search_log_frame s st stb (loga ++ logb) := by
  intro h1 h2
  obtain ⟨a1, a2, a3, a4, a5, a6, a7⟩ := ha h1 h2
  obtain ⟨b1, b2, b3, b4, b5, b6, b7⟩ := hb a1 a2
  refine ⟨b1, b2, ?_, ?_, ?_, ?_, ?_⟩
  · rw [take_of_take_eq b3 hle, a3]
  · intro i c h
    rcases List.mem_append.mp h with h3 | h3
    · exact a4 i c h3
    · exact b4 i c h3
  · rw [List.map_append]
    apply chain_app _ _ _ a5
    rw [a6]
    exact b5
  · simp only [List.map_append]
    rw [getLast_app, a6]
    exact b6
  · intro hu hinv
    obtain ⟨i1, i2⟩ := a7 hu hinv
    obtain ⟨j1, j2⟩ := b7 hu i1
    refine ⟨j1, ?_⟩
    intro st2 h
    rcases List.mem_append.mp h with h3 | h3
    · exact i2 st2 h3
    · exact j2 st2 h3

theorem search_log_post_trans {s : registry} {st sta stb : search_state} {b : Bool}
    {loga logb : List search_event} (ha : search_log_post s st false sta loga)
    (hb : search_log_post s sta b stb logb) :
    search_log_post s st b stb (loga ++ logb) := by
  obtain ⟨hva, hpa⟩ := ha.1 rfl
  refine ⟨?_, search_log_frame_trans ha.2 (by omega) hb.2⟩
  intro hf
  obtain ⟨hvb, hpb⟩ := hb.1 hf
  exact ⟨hvb.trans hva, hpb.trans hpa⟩

/-- The step of `recursive_search` that marks the router and pushes its id. -/
theorem push_frame (s : registry) (st : search_state) {kn x : Nat}
    (hidx : get_idx_in_visited s x (occupied_from 0 s.router_array) = some (kn : Int))
    (hV : st.visited[kn]? = some false) :
    search_log_frame s st
      { visited := st.visited.set kn true
        path := (grow_path st).path.set st.path_cur x
        path_size := (grow_path st).path_size
        path_cur := st.path_cur + 1 }
      [search_event.point st,
       search_event.write st.path_cur (grow_path st).path_size,
       search_event.point
         { visited := st.visited.set kn true
           path := (grow_path st).path.set st.path_cur x
           path_size := (grow_path st).path_size
           path_cur := st.path_cur + 1 }] := by
  intro h1 h2
  obtain ⟨g1, g2, g3, g4, g5⟩ := grow_path_spec st h1 h2
  rw [g2] at g5
  have hpre : ((grow_path st).path.set st.path_cur x).take st.path_cur =
      st.path.take st.path_cur := by
    rw [take_set_of_le _ _ _ _ (le_refl _), grow_path_take st _ (by omega)]
  have hact : ((grow_path st).path.set st.path_cur x).take (st.path_cur + 1) =
      st.path.take st.path_cur ++ [x] := by
    rw [take_set_succ _ _ _ (by omega), grow_path_take st _ (by omega)]
  refine ⟨?_, g5, hpre, ?_, ?_, rfl, ?_⟩
  · show ((grow_path st).path.set st.path_cur x).length = (grow_path st).path_size
    rw [List.length_set]
    exact g3
  · intro i c h
    simp only [List.mem_cons, List.mem_singleton, search_event.write.injEq, false_or, or_false,
      reduceCtorEq, List.not_mem_nil] at h
    obtain ⟨rfl, rfl⟩ := h
    omega
  · simp only [List.map_cons, List.map_nil, search_event.capacity, List.chain_cons]
    exact ⟨doubles_refl _, grow_path_doubles st, doubles_refl _, List.Chain.nil⟩
  · intro hu hinv
    have hinv2 : active_path_invariant s
        { visited := st.visited.set kn true
          path := (grow_path st).path.set st.path_cur x
          path_size := (grow_path st).path_size
          path_cur := st.path_cur + 1 } := by
      unfold active_path_invariant active_path
      show (((grow_path st).path.set st.path_cur x).take (st.path_cur + 1)).Nodup ∧
        ∀ id, id ∈ ((grow_path st).path.set st.path_cur x).take (st.path_cur + 1) ↔
          id ∈ marked_ids s (st.visited.set kn true)
      rw [hact]
      exact invariant_push hu hidx hV hinv.1 hinv.2
    refine ⟨hinv2, ?_⟩
    intro st2 h
    simp only [List.mem_cons, List.mem_singleton, search_event.point.injEq, reduceCtorEq,
      false_or, List.not_mem_nil, or_false] at h
    rcases h with rfl | rfl
    · exact hinv
    · exact hinv2

/-- The write of the target id when the router is connected to the target. -/
theorem target_frame (s : registry) {st st1 : search_state} {findID : Nat}
    (h : path_write st findID = some st1) :
    search_log_frame s st st1
      [search_event.write st.path_cur st.path_size, search_event.point st1] := by
  obtain ⟨-, rfl⟩ := path_write_some h
  intro h1 h2
  have hinv2 : active_path_invariant s st →
      active_path_invariant s { st with path := st.path.set st.path_cur findID } := by
    intro hinv
    unfold active_path_invariant active_path at hinv ⊢
    show ((st.path.set st.path_cur findID).take st.path_cur).Nodup ∧
      ∀ id, id ∈ (st.path.set st.path_cur findID).take st.path_cur ↔
        id ∈ marked_ids s st.visited
    rw [take_set_of_le _ _ _ _ (le_refl _)]
    exact hinv
  refine ⟨?_, h2, take_set_of_le _ _ _ _ (le_refl _), ?_, ?_, rfl, ?_⟩
  · show (st.path.set st.path_cur findID).length = st.path_size
    rw [List.length_set]
    exact h1
  · intro i c h
    simp only [List.mem_cons, List.mem_singleton, search_event.write.injEq, reduceCtorEq,
      or_false, List.not_mem_nil] at h
    obtain ⟨rfl, rfl⟩ := h
    exact h2
  · simp only [List.map_cons, List.map_nil, search_event.capacity, List.chain_cons]
    exact ⟨doubles_refl _, doubles_refl _, List.Chain.nil⟩
  · intro _ hinv
    refine ⟨hinv2 hinv, ?_⟩
    intro st2 h
    simp only [List.mem_cons, List.mem_singleton, search_event.point.injEq, reduceCtorEq,
      false_or, List.not_mem_nil, or_false] at h
    subst h
    exact hinv2 hinv

/-- The step of `recursive_search` that unmarks the router and pops its id. -/
theorem pop_frame {s : registry} {st st3 st4 : search_state} {log : List search_event}
    (hF : search_log_frame s st st3 log) (hpath : st4.path = st3.path)
    (hsize : st4.path_size = st3.path_size) (hvis : st4.visited = st.visited)
    (hcur : st4.path_cur = st.path_cur) (hle : st4.path_cur ≤ st3.path_cur) :
    search_log_frame s st st4 (log ++ [search_event.point st4]) := by
  intro h1 h2
  obtain ⟨a1, a2, a3, a4, a5, a6, a7⟩ := hF h1 h2
  refine ⟨by rw [hpath, hsize]; exact a1, by rw [hsize]; omega, by rw [hpath]; exact a3,
    ?_, ?_, ?_, ?_⟩
  · intro i c h
    rcases List.mem_append.mp h with h3 | h3
    · exact a4 i c h3
    · simp at h3
  · rw [List.map_append]
    apply chain_app _ _ _ a5
    rw [a6]
    simp only [List.map_cons, List.map_nil, search_event.capacity, List.chain_cons]
    exact ⟨Or.inl hsize, List.Chain.nil⟩
  · simp only [List.map_append]
    rw [getLast_app]
    rfl
  · intro hu hinv
    obtain ⟨i1, i2⟩ := a7 hu hinv
    have hinv4 : active_path_invariant s st4 := by
      unfold active_path_invariant active_path at hinv ⊢
      rw [hpath, hcur, hvis, a3]
      exact hinv
    refine ⟨hinv4, ?_⟩
    intro st2 h
    rcases List.mem_append.mp h with h3 | h3
    · exact i2 st2 h3
    · simp only [List.mem_singleton, search_event.point.injEq] at h3
      subst h3
      exact hinv4

/-- The loop of the recorded search, given calls that meet their
specification. -/
theorem search_loop_log_post (s : registry)
    (call : Nat → search_state → Option (Bool × search_state × List search_event))
    (hcall : ∀ t st b st1 log, ¬ marked s st.visited t → call t st = some (b, st1, log) →
      search_log_post s st b st1 log) :
    ∀ cs st b st1 log,
      search_loop_log s (occupied_from 0 s.router_array) call cs st = some (b, st1, log) →
      search_log_post s st b st1 log := by
  intro cs
  induction cs with
  | nil =>
    intro st b st1 log h
    simp only [search_loop_log, Option.some.injEq, Prod.mk.injEq] at h
    obtain ⟨rfl, rfl, rfl⟩ := h
    exact ⟨fun _ => ⟨rfl, rfl⟩, search_log_frame_refl s st⟩
  | cons c rest ih =>
    intro st b st1 log h
    cases c with
    | none =>
      simp only [search_loop_log] at h
      exact ih st b st1 log h
    | some t =>
      simp only [search_loop_log] at h
      cases hd : deref s t with
      | none => rw [hd] at h; cases h
      | some nr =>
        rw [hd] at h
        dsimp only at h
        cases hi : get_idx_in_visited s nr.routerID (occupied_from 0 s.router_array) with
        | none => rw [hi] at h; cases h
        | some k =>
          rw [hi] at h
          dsimp only at h
          cases hv : visited_get st.visited k with
          | none => rw [hv] at h; cases h
          | some v =>
            rw [hv] at h
            cases v with
            | true => exact ih st b st1 log h
            | false =>
              dsimp only at h
              have hnm := not_marked_of_guard hd hi hv
              cases hc : call t st with
              | none => rw [hc] at h; cases h
              | some y =>
                obtain ⟨b1, sta, loga⟩ := y
                rw [hc] at h
                cases b1 with
                | true =>
                  dsimp only at h
                  simp only [Option.some.injEq, Prod.mk.injEq] at h
                  obtain ⟨rfl, rfl, rfl⟩ := h
                  exact hcall t st true sta loga hnm hc
                | false =>
                  dsimp only at h
                  simp only [Option.map_eq_some'] at h
                  obtain ⟨⟨b2, stb, logb⟩, h2, h3⟩ := h
                  simp only [Prod.mk.injEq] at h3
                  obtain ⟨rfl, rfl, rfl⟩ := h3
                  exact search_log_post_trans (hcall t st false sta loga hnm hc)
                    (ih sta b2 stb logb h2)

/-- A call of the recorded search for a router that is not marked meets
`search_log_post`. -/
theorem recursive_search_log_post (s : registry) (findID : Nat) :
    ∀ fuel p st b st1 log, ¬ marked s st.visited p →
      recursive_search_log s (occupied_from 0 s.router_array) findID fuel p st =
        some (b, st1, log) →
      search_log_post s st b st1 log := by
  intro fuel
  induction fuel with
  | zero =>
    intro p st b st1 log _ h
    simp [recursive_search_log] at h
  | succ fuel ih =>
    intro p st b st1 log hm h
    rw [recursive_search_log] at h
    dsimp only at h
    cases hd : deref s p with
    | none => rw [hd] at h; cases h
    | some r =>
      rw [hd] at h
      dsimp only at h
      cases hi : get_idx_in_visited s r.routerID (occupied_from 0 s.router_array) with
      | none => rw [hi] at h; cases h
      | some k =>
        rw [hi] at h
        dsimp only at h
        cases hv : visited_set (grow_path st).visited k true with
        | none => rw [hv] at h; cases h
        | some V1 =>
          rw [hv] at h
          dsimp only at h
          cases hw : path_write { grow_path st with visited := V1 } r.routerID with
          | none => rw [hw] at h; cases h
          | some stw =>
            rw [hw] at h
            dsimp only at h
            have hv0 := hv
            rw [grow_path_visited] at hv0
            obtain ⟨kn, rfl, hkn, hVk, rfl⟩ := entry_unmarked hm hd hi hv0
            have hstw := (path_write_some hw).2
            have e2 : ({ stw with path_cur := stw.path_cur + 1 } : search_state) =
                { visited := st.visited.set kn true
                  path := (grow_path st).path.set st.path_cur r.routerID
                  path_size := (grow_path st).path_size
                  path_cur := st.path_cur + 1 } := by
              rw [hstw]
              dsimp only
              rw [grow_path_cur]
            have e3 : stw.path_cur = st.path_cur := by
              rw [hstw]
              exact grow_path_cur st
            have e4 : stw.path_size = (grow_path st).path_size := by
              rw [hstw]
            rw [e2, grow_path_cur, e3, e4] at h
            have hpush := push_frame s st hi hVk
            have f1 : ({ visited := st.visited.set kn true
                         path := (grow_path st).path.set st.path_cur r.routerID
                         path_size := (grow_path st).path_size
                         path_cur := st.path_cur + 1 } : search_state).path_cur =
                st.path_cur + 1 := rfl
            have f2 : ({ visited := st.visited.set kn true
                         path := (grow_path st).path.set st.path_cur r.routerID
                         path_size := (grow_path st).path_size
                         path_cur := st.path_cur + 1 } : search_state).path_size =
                (grow_path st).path_size := rfl
            have f3 : ({ visited := st.visited.set kn true
                         path := (grow_path st).path.set st.path_cur r.routerID
                         path_size := (grow_path st).path_size
                         path_cur := st.path_cur + 1 } : search_state).visited =
                st.visited.set kn true := rfl
            generalize ({ visited := st.visited.set kn true
                          path := (grow_path st).path.set st.path_cur r.routerID
                          path_size := (grow_path st).path_size
                          path_cur := st.path_cur + 1 } : search_state) = st2
              at h hpush f1 f2 f3
            have hle2 : st.path_cur ≤ st2.path_cur := by omega
            cases hc : is_connected s (some p) findID with
            | none => rw [hc] at h; cases h
            | some bc =>
              rw [hc] at h
              cases bc with
              | true =>
                dsimp only at h
                simp only [Option.map_eq_some'] at h
                obtain ⟨st3, hpw, h3⟩ := h
                simp only [Prod.mk.injEq] at h3
                obtain ⟨rfl, rfl, rfl⟩ := h3
                have ht := target_frame s hpw
                rw [f1, f2] at ht
                exact ⟨fun hf => (by cases hf), search_log_frame_trans hpush hle2 ht⟩
              | false =>
                dsimp only at h
                cases hl : search_loop_log s (occupied_from 0 s.router_array)
                    (recursive_search_log s (occupied_from 0 s.router_array) findID fuel)
                    r.connections st2 with
                | none => rw [hl] at h; cases h
                | some y =>
                  obtain ⟨b3, st3, log3⟩ := y
                  rw [hl] at h
                  have hloop := search_loop_log_post s _ ih r.connections st2 b3 st3 log3 hl
                  cases b3 with
                  | true =>
                    dsimp only at h
                    simp only [Option.some.injEq, Prod.mk.injEq] at h
                    obtain ⟨rfl, rfl, rfl⟩ := h
                    exact ⟨fun hf => (by cases hf), search_log_frame_trans hpush hle2 hloop.2⟩
                  | false =>
                    dsimp only at h
                    obtain ⟨hv3, hp3⟩ := hloop.1 rfl
                    cases hv2 : visited_set st3.visited (kn : Int) false with
                    | none => rw [hv2] at h; cases h
                    | some V2 =>
                      rw [hv2] at h
                      dsimp only at h
                      simp only [Option.some.injEq, Prod.mk.injEq] at h
                      obtain ⟨rfl, rfl, rfl⟩ := h
                      obtain ⟨kn2, hk2, -, hV2⟩ := visited_set_some hv2
                      have hkk : kn2 = kn := by omega
                      subst hkk
                      have hvis : V2 = st.visited := by
                        rw [hV2, hv3, f3]
                        exact set_true_set_false hVk
                      have hcur : st3.path_cur - 1 = st.path_cur := by omega
                      refine ⟨fun _ => ⟨hvis, hcur⟩, ?_⟩
                      exact pop_frame (search_log_frame_trans hpush hle2 hloop.2) rfl rfl hvis
                        hcur (Nat.sub_le _ _)

/-! ## Backtracking, the active path and the path buffer -/

theorem not_mem_marked_ids_replicate (s : registry) (n id : Nat) :
    id ∉ marked_ids s (List.replicate n false) := by
  intro h
  obtain ⟨k, p, r, -, h2, -, -⟩ := mem_marked_ids.mp h
  rw [List.getElem?_replicate] at h2
  split_ifs at h2
  cases h2

theorem search_start_invariant (s : registry) : active_path_invariant s (search_start s) := by
  refine ⟨List.nodup_nil, ?_⟩
  intro id
  constructor
  · intro h
    cases h
  · intro h
    exact absurd h (not_mem_marked_ids_replicate s _ id)

/-- The recorded search of `exists_path` meets `search_log_post`. -/
theorem exists_path_search_log_post {s : registry} {a b : Nat} {found : Bool}
    {st1 : search_state} {log : List search_event}
    (h : exists_path_search_log s a b = some (found, st1, log)) :
    search_log_post s (search_start s) found st1 log := by
  unfold exists_path_search_log at h
  by_cases h0 : s.N_ROUTERS < 0
  · rw [if_pos h0] at h
    cases h
  · rw [if_neg h0] at h
    dsimp only at h
    by_cases h1 : s.N_ROUTERS.toNat < (occupied_from 0 s.router_array).length
    · rw [if_pos h1] at h
      cases h
    · rw [if_neg h1] at h
      cases hg : get_router s a with
      | none => rw [hg] at h; cases h
      | some p =>
        rw [hg] at h
        exact recursive_search_log_post s b _ p (search_start s) found st1 log
          (not_marked_replicate s _ p) h

theorem exists_path_search_log_total {s : registry} (hnd : no_dangling s) (hu : unique_ids s)
    (hN : s.N_ROUTERS = live_count s) {a pa : Nat} (ha : get_router s a = some pa) (b : Nat) :
    ∃ found st1 log, exists_path_search_log s a b = some (found, st1, log) := by
  obtain ⟨found, st, e1, -⟩ := exists_path_search_spec hnd hu hN ha b
  rw [← exists_path_search_log_erase] at e1
  obtain ⟨log, hlog⟩ := erase_log_some e1
  exact ⟨found, st, log, hlog⟩

/-- C22.  Backtracking.  Whenever a call of `recursive_search` that was
entered for a router that is not marked returns `FALSE`, the `visited` array
and the position in the path buffer are what they were when the call was
entered.  Every call is entered so: `exists_path` starts with no router
marked, and the loop makes a call only after it found the router not marked.
So when the search of `exists_path` fails, no router is marked and the path
is empty. -/
theorem recursive_search_restores (s : registry) (findID : Nat) :
    (∀ fuel p st st1, ¬ marked s st.visited p →
      recursive_search s (occupied_from 0 s.router_array) findID fuel p st =
        some (false, st1) →
      st1.visited = st.visited ∧ st1.path_cur = st.path_cur) ∧
    (∀ p, ¬ marked s (search_start s).visited p) ∧
    (∀ call cs st, search_loop s (occupied_from 0 s.router_array) call cs st =
      search_loop s (occupied_from 0 s.router_array) (only_unmarked s call) cs st) ∧
    (∀ a st1, exists_path_search s a findID = some (false, st1) →
      st1.visited = (search_start s).visited ∧ st1.path_cur = 0) := by
  refine ⟨?_, fun p => not_marked_replicate s _ p, search_loop_only_unmarked s, ?_⟩
  · intro fuel p st st1 hm h
    rw [← recursive_search_log_erase] at h
    obtain ⟨log, hlog⟩ := erase_log_some h
    exact (recursive_search_log_post s findID fuel p st false st1 log hm hlog).1 rfl
  · intro a st1 h
    rw [← exists_path_search_log_erase] at h
    obtain ⟨log, hlog⟩ := erase_log_some h
    exact (exists_path_search_log_post hlog).1 rfl

/-- Witness for C22: the search from 1 to 1 in the chain 1 → 2 → 3 enters all
three routers and fails. -/
theorem recursive_search_restores_witness :
    exists_path_search chain_registry 1 1 =
      some (false, { search_start chain_registry with path := [1, 2, 3] ++ List.replicate 13 0 }) ∧
    ({ search_start chain_registry with
        path := [1, 2, 3] ++ List.replicate 13 0 } : search_state).visited =
      (search_start chain_registry).visited ∧
    ({ search_start chain_registry with
        path := [1, 2, 3] ++ List.replicate 13 0 } : search_state).path_cur = 0 :=
  ⟨by decide,
    (recursive_search_restores chain_registry 1).2.2.2 1
      { search_start chain_registry with path := [1, 2, 3] ++ List.replicate 13 0 }
      (by decide)⟩

/-- C23.  The active path.  Let the live ids be unique.  The recorded search
gives the result and the state of the search of `exists_path`.  At every
point of its record (the entry of each call, the state after the router was
marked and its id was pushed, and the state at each return) and in the state
it returns, the ids in the path buffer below the current position are
pairwise distinct and are exactly the ids of the routers that are marked in
`visited`.  On a registry without dangling connections in which `N_ROUTERS`
is the number of occupied slots the search from a live id returns. -/
theorem active_path_distinct (s : registry) (a b : Nat) (hu : unique_ids s) :
    erase_log (exists_path_search_log s a b) = exists_path_search s a b ∧
    (∀ found st1 log, exists_path_search_log s a b = some (found, st1, log) →
      active_path_invariant s st1 ∧
      ∀ st, search_event.point st ∈ log → active_path_invariant s st) ∧
    (∀ pa, no_dangling s → s.N_ROUTERS = live_count s → get_router s a = some pa →
      ∃ found st1 log, exists_path_search_log s a b = some (found, st1, log)) := by
  refine ⟨exists_path_search_log_erase s a b, ?_, ?_⟩
  · intro found st1 log h
    have hpost := exists_path_search_log_post h
    obtain ⟨-, -, -, -, -, -, h7⟩ := hpost.2 rfl (by show 0 < 16; decide)
    exact h7 hu (search_start_invariant s)
  · intro pa hnd hN ha
    exact exists_path_search_log_total hnd hu hN ha b

/-- Witness for C23: the search from 1 to 1 in the chain 1 → 2 → 3. -/
theorem active_path_distinct_witness :
    (erase_log (exists_path_search_log chain_registry 1 1) =
        exists_path_search chain_registry 1 1 ∧
      (∀ found st1 log, exists_path_search_log chain_registry 1 1 = some (found, st1, log) →
        active_path_invariant chain_registry st1 ∧
        ∀ st, search_event.point st ∈ log → active_path_invariant chain_registry st) ∧
      (∀ pa, no_dangling chain_registry →
        chain_registry.N_ROUTERS = live_count chain_registry →
        get_router chain_registry 1 = some pa →
        ∃ found st1 log,
          exists_path_search_log chain_registry 1 1 = some (found, st1, log))) ∧
    (exists_path_search_log chain_registry 1 1).map
        (fun x => x.2.2.filterMap search_event.active) =
      some [[], [1], [1], [1, 2], [1, 2], [1, 2, 3], [1, 2], [1], []] :=
  ⟨active_path_distinct chain_registry 1 1 (by decide), by decide⟩

/-- C24.  The path buffer.  The recorded search gives the result and the state
of the search of `exists_path`.  Every write of `recursive_search` into the
path buffer (the id of the router at the current position, the target id at
the position after it) is at an index below the allocated size of the buffer
at that moment; the allocated size is 16 at the start, and from each event of
the record to the next it stays or doubles; the buffer returned has its
allocated size.  On a registry without dangling connections, with unique live
ids and with `N_ROUTERS` the number of occupied slots, the search from a live
id returns. -/
theorem path_buffer_bounds (s : registry) (a b : Nat) :
    erase_log (exists_path_search_log s a b) = exists_path_search s a b ∧
    (search_start s).path_size = 16 ∧
    (∀ found st1 log, exists_path_search_log s a b = some (found, st1, log) →
      (∀ i c, search_event.write i c ∈ log → i < c) ∧
      List.Chain doubles 16 (log.map search_event.capacity) ∧
      st1.path.length = st1.path_size ∧ st1.path_cur < st1.path_size) ∧
    (∀ pa, no_dangling s → unique_ids s → s.N_ROUTERS = live_count s →
      get_router s a = some pa →
      ∃ found st1 log, exists_path_search_log s a b = some (found, st1, log)) := by
  refine ⟨exists_path_search_log_erase s a b, rfl, ?_, ?_⟩
  · intro found st1 log h
    have hpost := exists_path_search_log_post h
    obtain ⟨h1, h2, -, h4, h5, -, -⟩ := hpost.2 rfl (by show 0 < 16; decide)
    exact ⟨h4, h5, h1, h2⟩
  · intro pa hnd hu hN ha
    exact exists_path_search_log_total hnd hu hN ha b

set_option maxRecDepth 100000 in
/-- Witness for C24: the search from 1 to 17 in the line 1 → 2 → … → 17 enters
16 routers; the buffer of 16 entries is doubled once. -/
theorem path_buffer_bounds_witness :
    (erase_log (exists_path_search_log (line_registry 17) 1 17) =
        exists_path_search (line_registry 17) 1 17 ∧
      (search_start (line_registry 17)).path_size = 16 ∧
      (∀ found st1 log,
        exists_path_search_log (line_registry 17) 1 17 = some (found, st1, log) →
        (∀ i c, search_event.write i c ∈ log → i < c) ∧
        List.Chain doubles 16 (log.map search_event.capacity) ∧
        st1.path.length = st1.path_size ∧ st1.path_cur < st1.path_size) ∧
      (∀ pa, no_dangling (line_registry 17) → unique_ids (line_registry 17) →
        (line_registry 17).N_ROUTERS = live_count (line_registry 17) →
        get_router (line_registry 17) 1 = some pa →
        ∃ found st1 log,
          exists_path_search_log (line_registry 17) 1 17 = some (found, st1, log))) ∧
    (exists_path_search_log (line_registry 17) 1 17).map
        (fun x => (x.1, x.2.1.path_cur, x.2.1.path_size,
          (x.2.2.map search_event.capacity).dedup)) =
      some (true, 16, 32, [16, 32]) :=
  ⟨path_buffer_bounds (line_registry 17) 1 17, by decide⟩

/-! ## Loading what `write_to_file` wrote -/

theorem mem_occupied_routers {s : registry} {r : router} :
    r ∈ occupied_routers s ↔ ∃ q, deref s q = some r := by
  unfold occupied_routers
  rw [List.mem_filterMap]
  constructor
  · rintro ⟨o, ho, h⟩
    simp only [id] at h
    subst h
    obtain ⟨q, hq⟩ := List.getElem?_of_mem ho
    exact ⟨q, deref_eq_some.mpr hq⟩
  · rintro ⟨q, hq⟩
    exact ⟨some r, List.getElem?_mem (deref_eq_some.mp hq), rfl⟩

theorem live_ids_occupied (s : registry) :
    live_ids s = (occupied_routers s).map router.routerID := by
  unfold live_ids slot_ids occupied_routers
  induction s.router_array with
  | nil => rfl
  | cons o rest ih => cases o <;> simp [List.filterMap_cons, ih]

theorem routers_of_ids (s : registry) :
    (routers_of s).map router_record.id = live_ids s := by
  rw [live_ids_occupied, routers_of, List.map_map]
  rfl

theorem routers_of_length (s : registry) : (routers_of s).length = live_count s := by
  rw [live_count, ← routers_of_ids, List.length_map]

theorem encode_record_of (r : router) (h : r.desc_len ≤ r.description.length) :
    encode_router_record (record_of r) = reference_router_record r := by
  simp [encode_router_record, record_of, reference_router_record, List.length_take,
    Nat.min_eq_left h]

theorem encode_connections_of (s : registry) (r : router) :
    ((connections_of s r).map encode_connection_record).flatten =
      reference_connection_records s r := by
  simp only [connections_of, target_ids, reference_connection_records, List.map_map]
  rfl

theorem encode_reference_stream (s : registry) (hN : s.N_ROUTERS = live_count s)
    (h32 : s.N_ROUTERS < 2 ^ 32) (hb : desc_bounded s) :
    encode_reference s = encode_stream (routers_of s) (conns_of s) := by
  unfold encode_reference encode_stream
  have h1 : int_bytes s.N_ROUTERS = uint_bytes (routers_of s).length := by
    rw [routers_of_length, hN]
    exact int_bytes_natCast _ (by rw [hN] at h32; exact_mod_cast h32)
  have h2 : (occupied_routers s).map reference_router_record =
      (routers_of s).map encode_router_record := by
    rw [routers_of, List.map_map]
    apply List.map_congr_left
    intro r hr
    obtain ⟨q, hq⟩ := mem_occupied_routers.mp hr
    exact (encode_record_of r (hb q r hq)).symm
  have h3 : ((occupied_routers s).map (reference_connection_records s)).flatten =
      ((conns_of s).map encode_connection_record).flatten := by
    rw [conns_of, List.map_flatten, List.flatten_flatten, List.map_map, List.map_map]
    congr 1
    apply List.map_congr_left
    intro r _
    exact (encode_connections_of s r).symm
  rw [h1, h2, h3]

theorem mem_conns_of {s : registry} {c : Nat × Nat} (h : c ∈ conns_of s) :
    ∃ r ∈ occupied_routers s, ∃ t, some t ∈ r.connections ∧
      c = (r.routerID, target_id s t) := by
  simp only [conns_of, connections_of, target_ids, List.mem_flatten, List.mem_map,
    List.mem_filterMap, id] at h
  obtain ⟨g, ⟨r, hr, rfl⟩, h1⟩ := h
  simp only [List.mem_map, List.mem_filterMap, id] at h1
  obtain ⟨x, ⟨t, ⟨o, ho, rfl⟩, rfl⟩, rfl⟩ := h1
  exact ⟨r, hr, t, ho, rfl⟩

theorem target_id_live {s : registry} (hnd : no_dangling s) {r : router}
    (hr : r ∈ occupied_routers s) {t : Nat} (ht : some t ∈ r.connections) :
    target_id s t ∈ live_ids s := by
  obtain ⟨q, hq⟩ := mem_occupied_routers.mp hr
  obtain ⟨tr, htr⟩ := hnd q r hq t ht
  rw [live_ids_occupied, List.mem_map]
  refine ⟨tr, mem_occupied_routers.mpr ⟨t, htr⟩, ?_⟩
  simp [target_id, htr]

theorem conns_of_known {s : registry} (hnd : no_dangling s) :
    ∀ c ∈ conns_of s, c.1 ∈ (routers_of s).map router_record.id ∧
      c.2 ∈ (routers_of s).map router_record.id := by
  intro c hc
  obtain ⟨r, hr, t, ht, rfl⟩ := mem_conns_of hc
  rw [routers_of_ids]
  refine ⟨?_, target_id_live hnd hr ht⟩
  rw [live_ids_occupied]
  exact List.mem_map_of_mem _ hr

theorem stream_of_well_formed {s : registry} (hnd : no_dangling s)
    (hN : s.N_ROUTERS = live_count s) (ht : well_typed s) :
    well_formed_stream (routers_of s) (conns_of s) := by
  obtain ⟨h31, hr⟩ := ht
  have hid : ∀ x ∈ live_ids s, x < 2 ^ 32 := by
    intro x hx
    rw [live_ids_occupied, List.mem_map] at hx
    obtain ⟨r, hr1, rfl⟩ := hx
    exact (hr r hr1).1
  refine ⟨?_, ?_, ?_⟩
  · rw [routers_of_length]
    have : (live_count s : Int) < 2 ^ 31 := by rw [← hN]; exact h31
    have : live_count s < 2 ^ 31 := by exact_mod_cast this
    omega
  · intro rec hrec
    rw [routers_of, List.mem_map] at hrec
    obtain ⟨r, hr1, rfl⟩ := hrec
    obtain ⟨a, b, c, d, -⟩ := hr r hr1
    refine ⟨a, b, ?_, ?_⟩
    · show (r.description.take r.desc_len).length ≤ DESC_MAX_LEN
      rw [List.length_take]
      exact le_trans (Nat.min_le_left _ _) c
    · intro x hx
      exact d x (List.mem_of_mem_take hx)
  · intro c hc
    have := conns_of_known hnd c hc
    rw [routers_of_ids] at this
    exact ⟨hid _ this.1, hid _ this.2⟩

/-- The records of key `i + k` of groups whose `j`-th group holds the records
of key `i + j` are the `k`-th group. -/
theorem filter_flatten_groups {α : Type} (key : α → Nat) :
    ∀ (groups : List (List α)) (i : Nat),
      (∀ (j : Nat) (g : List α), groups[j]? = some g → ∀ c ∈ g, key c = i + j) →
      ∀ k : Nat, (groups.flatten).filter (fun c => key c = i + k) = groups.getD k [] := by
  intro groups
  induction groups with
  | nil => intro i _ k; rfl
  | cons g rest ih =>
    intro i h k
    have hg : ∀ c ∈ g, key c = i := fun c hc => by
      simpa using h 0 g (by simp) c hc
    have hrest : ∀ (j : Nat) (g1 : List α), rest[j]? = some g1 → ∀ c ∈ g1,
        key c = i + 1 + j := fun j g1 hj c hc => by
      have := h (j + 1) g1 (by simpa using hj) c hc
      omega
    rw [List.flatten_cons, List.filter_append]
    cases k with
    | zero =>
      have h1 : g.filter (fun c => key c = i + 0) = g := by
        rw [List.filter_eq_self]
        intro c hc
        simp [hg c hc]
      have h2 : (rest.flatten).filter (fun c => key c = i + 0) = [] := by
        rw [List.filter_eq_nil_iff]
        intro c hc
        obtain ⟨g1, hg1, hc1⟩ := List.mem_flatten.mp hc
        obtain ⟨j, hj⟩ := List.getElem?_of_mem hg1
        have := hrest j g1 hj c hc1
        simp only [decide_eq_true_eq]
        omega
      rw [h1, h2]
      simp
    | succ k =>
      have h1 : g.filter (fun c => key c = i + (k + 1)) = [] := by
        rw [List.filter_eq_nil_iff]
        intro c hc
        have := hg c hc
        simp only [decide_eq_true_eq]
        omega
      have h2 : (fun c => decide (key c = i + (k + 1))) =
          (fun c => decide (key c = i + 1 + k)) := by
        funext c
        congr 1
        apply propext
        constructor <;> intro h3 <;> omega
      rw [h1, h2, ih (i + 1) hrest k]
      simp

theorem slot_of_occupied {s : registry} (hu : unique_ids s) {k : Nat} {r : router}
    (hk : (occupied_routers s)[k]? = some r) : slot_of (routers_of s) r.routerID = k := by
  unfold slot_of
  rw [routers_of_ids]
  have hlt : k < (live_ids s).length := by
    rw [live_ids_occupied, List.length_map]
    exact (List.getElem?_eq_some_iff.mp hk).1
  have hget : (live_ids s)[k] = r.routerID := by
    have : (live_ids s)[k]? = some r.routerID := by
      rw [live_ids_occupied, List.getElem?_map, hk]
      rfl
    exact (List.getElem?_eq_some_iff.mp this).2
  rw [← hget]
  exact List.indexOf_getElem hu k hlt

theorem targets_of (s : registry) (hu : unique_ids s) (k : Nat) :
    targets (routers_of s) (conns_of s) k =
      (((occupied_routers s).map (connections_of s)).getD k []).map
        (fun c => some (slot_of (routers_of s) c.2)) := by
  unfold targets
  congr 1
  have := filter_flatten_groups (fun c : Nat × Nat => slot_of (routers_of s) c.1)
    ((occupied_routers s).map (connections_of s)) 0
    (fun j g hj c hc => by
      rw [List.getElem?_map] at hj
      cases hr : (occupied_routers s)[j]? with
      | none => rw [hr] at hj; cases hj
      | some r =>
        rw [hr] at hj
        simp only [Option.map_some', Option.some.injEq] at hj
        subst hj
        simp only [connections_of, List.mem_map] at hc
        obtain ⟨t, -, rfl⟩ := hc
        simpa using slot_of_occupied hu hr) k
  simpa [conns_of] using this

theorem targets_of_occupied (s : registry) (hu : unique_ids s) {k : Nat} {r : router}
    (hk : (occupied_routers s)[k]? = some r) :
    targets (routers_of s) (conns_of s) k =
      (target_ids s r).map (fun t => some (slot_of (routers_of s) t)) := by
  rw [targets_of s hu k, List.getD_eq_getElem?_getD, List.getElem?_map, hk]
  simp [connections_of, List.map_map, Function.comp_def]

theorem targets_of_length (s : registry) (hu : unique_ids s) (ht : well_typed s) (k : Nat) :
    (targets (routers_of s) (conns_of s) k).length ≤ MAX_CONNECTIONS := by
  cases hk : (occupied_routers s)[k]? with
  | none =>
    rw [targets_of s hu k, List.getD_eq_getElem?_getD, List.getElem?_map, hk]
    simp
  | some r =>
    rw [targets_of_occupied s hu hk, List.length_map, target_ids, List.length_map]
    have := (ht.2 r (List.getElem?_mem hk)).2.2.2.2
    rw [← this]
    exact List.length_filterMap_le _ _

theorem filterMap_pad (l : List Nat) :
    (pad_connections (l.map some)).filterMap id = l := by
  unfold pad_connections
  rw [List.filterMap_append]
  have h1 : ∀ m : Nat, (List.replicate m (none : Option Nat)).filterMap id = [] := by
    intro m
    induction m with
    | zero => rfl
    | succ m ih => simp [List.replicate_succ]
  have h2 : (l.map some).filterMap id = l := by
    induction l with
    | nil => rfl
    | cons a rest ih => simp
  rw [h1, h2, List.append_nil]

theorem target_id_loaded (routers : List router_record) (conns : List (Nat × Nat)) (x : Nat)
    (h : x ∈ routers.map router_record.id) :
    target_id (loaded routers conns) (slot_of routers x) = x := by
  obtain ⟨r, hr, hid⟩ := slot_of_id routers x h
  unfold target_id
  rw [deref_loaded routers conns _ (slot_of_lt routers x h),
    loaded_router_getD routers conns _ r hr]
  exact hid

/-- Loading the reference encoding of a registry gives the registry of its
records. -/
theorem load_encode_reference (s : registry) (hs : sound_registry s) (ht : well_typed s) :
    load (encode_reference s) = some (SUCCESS, loaded (routers_of s) (conns_of s)) := by
  obtain ⟨hnd, hu, hN, hb⟩ := hs
  have h31 : live_count s < 2 ^ 31 := by
    have : (live_count s : Int) < 2 ^ 31 := by rw [← hN]; exact ht.1
    exact_mod_cast this
  rw [encode_reference_stream s hN (lt_trans ht.1 (by norm_num)) hb]
  exact load_encode_stream _ _ (stream_of_well_formed hnd hN ht)
    (by rw [routers_of_length]; exact h31) (conns_of_known hnd)
    (targets_of_length s hu ht)

/-- The router that loading puts in slot `k` for the `k`-th occupied router. -/
theorem loaded_of_occupied (s : registry) (hnd : no_dangling s) (hu : unique_ids s)
    (hb : desc_bounded s) {k : Nat} {r : router} (hk : (occupied_routers s)[k]? = some r) :
    ∃ r1, deref (loaded (routers_of s) (conns_of s)) k = some r1 ∧
      r1.routerID = r.routerID ∧ r1.flag = r.flag ∧ r1.desc_len = r.desc_len ∧
      r1.description = r.description.take r.desc_len ∧
      target_ids (loaded (routers_of s) (conns_of s)) r1 = target_ids s r := by
  have hrec : (routers_of s)[k]? = some (record_of r) := by
    rw [routers_of, List.getElem?_map, hk]
    rfl
  have hlt : k < (routers_of s).length := (List.getElem?_eq_some_iff.mp hrec).1
  have hmem : r ∈ occupied_routers s := List.getElem?_mem hk
  obtain ⟨q, hq⟩ := mem_occupied_routers.mp hmem
  refine ⟨_, deref_loaded _ _ k hlt, ?_⟩
  rw [loaded_router_getD _ _ k _ hrec]
  refine ⟨rfl, rfl, ?_, rfl, ?_⟩
  · show (r.description.take r.desc_len).length = r.desc_len
    rw [List.length_take]
    exact Nat.min_eq_left (hb q r hq)
  · show ((pad_connections (targets (routers_of s) (conns_of s) k)).filterMap id).map
      (target_id (loaded (routers_of s) (conns_of s))) = target_ids s r
    rw [targets_of_occupied s hu hk]
    have hcomp : (target_ids s r).map (fun t => some (slot_of (routers_of s) t)) =
        ((target_ids s r).map (slot_of (routers_of s))).map some := by
      rw [List.map_map]
      rfl
    rw [hcomp, filterMap_pad, List.map_map]
    conv_rhs => rw [← List.map_id (target_ids s r)]
    apply List.map_congr_left
    intro x hx
    simp only [target_ids, List.mem_map, List.mem_filterMap, id] at hx
    obtain ⟨t, ⟨o, ho, rfl⟩, rfl⟩ := hx
    have := target_id_live hnd hmem ho
    rw [← routers_of_ids] at this
    exact target_id_loaded _ _ _ this

/-- C27.  Encode then decode.  Take a registry that satisfies the data-model
invariants (no dangling connection, unique live ids, `N_ROUTERS` is the number
of occupied slots, every `desc_len` is at most 248 and counts description
bytes that are held) and whose fields fit their C types.  Then `write_to_file`
produces bytes, `load` of these bytes returns `SUCCESS`, and the loaded
registry is the compacted one: it has the same `N_ROUTERS`, as many slots as
the written registry has occupied slots, and its slot `k` holds a router with
the id, the flag, the `desc_len` and the `desc_len` description bytes of the
`k`-th occupied router (in slot order) of the written registry, whose
outgoing slots point, in the same order, to routers with the same ids. -/
theorem load_written_compacts (s : registry) (hs : sound_registry s) (ht : well_typed s) :
    ∃ out s1, write_to_file s = some out ∧ load out = some (SUCCESS, s1) ∧
      s1.N_ROUTERS = s.N_ROUTERS ∧
      s1.router_array.length = (occupied_routers s).length ∧
      ∀ (k : Nat) (r : router), (occupied_routers s)[k]? = some r →
        ∃ r1, deref s1 k = some r1 ∧ r1.routerID = r.routerID ∧ r1.flag = r.flag ∧
          r1.desc_len = r.desc_len ∧ r1.description = r.description.take r.desc_len ∧
          target_ids s1 r1 = target_ids s r := by
  refine ⟨encode_reference s, loaded (routers_of s) (conns_of s),
    write_to_file_sound hs.1 hs.2.2.2, load_encode_reference s hs ht, ?_, ?_, ?_⟩
  · show ((routers_of s).length : Int) = s.N_ROUTERS
    rw [routers_of_length, hs.2.2.1]
  · show ((List.range (routers_of s).length).map _).length = _
    rw [List.length_map, List.length_range, routers_of, List.length_map]
  · intro k r hk
    exact loaded_of_occupied s hs.1 hs.2.1 hs.2.2.2 hk

/-- Witness for C27: the chain 1 → 2 → 3 after router 1 was removed.  Slot 0
is empty, router 2 in slot 1 points to slot 2; in the loaded registry router 2
is in slot 0 and points to router 3. -/
theorem load_written_compacts_witness :
    slot_ids (removed chain_registry 1) = [none, some 2, some 3] ∧
    (occupied_routers (removed chain_registry 1)).map (target_ids (removed chain_registry 1)) =
      [[3], []] ∧
    ∃ out s1, write_to_file (removed chain_registry 1) = some out ∧
      load out = some (SUCCESS, s1) ∧
      s1.N_ROUTERS = (removed chain_registry 1).N_ROUTERS ∧
      s1.router_array.length = (occupied_routers (removed chain_registry 1)).length ∧
      ∀ (k : Nat) (r : router), (occupied_routers (removed chain_registry 1))[k]? = some r →
        ∃ r1, deref s1 k = some r1 ∧ r1.routerID = r.routerID ∧ r1.flag = r.flag ∧
          r1.desc_len = r.desc_len ∧ r1.description = r.description.take r.desc_len ∧
          target_ids s1 r1 = target_ids (removed chain_registry 1) r :=
  ⟨by decide, by decide,
    load_written_compacts (removed chain_registry 1)
      ⟨no_dangling_removed chain_sound.1 1, by decide, by decide,
        desc_bounded_removed chain_sound.2.2.2 1⟩
      (by decide)⟩

end Ruterdrift
